import Mathlib

set_option maxHeartbeats 1000000
set_option maxRecDepth 8000

/-!
Verification of the balanced-search-tree family of the goDataStructures
repository: the unbalanced `BinarySearchTree`, the height-balanced `AVLTree`
(`avlTree.go`), and the perfectly balanced `TwoThreeTree` (`twoThreeTree.go`),
together with the internal (callback) and external (stack-based) inorder
traversals of `binaryTree.go`.

Stored values are modelled by the repository's own test value type `KeyValue`
(an ordering key and an auxiliary payload string, here a `Nat`):
`Comparer.Equal`/`Comparer.Less` compare keys only, whereas the Go builtin
`==` compares the whole struct.  Go's nil pointers become explicit `nil`
constructors; in-place pointer mutation becomes functions returning the
updated subtree, exactly following each source function's assignments.
-/

/-- `KeyValue` from `binarySearchTree_test.go`: an ordering key plus a
distinguishable auxiliary payload. -/
structure KV where
  key : Nat
  pay : Nat
deriving DecidableEq, Repr

/-- `KeyValue.Equal`: payloads are ignored, keys decide equality. -/
def KV.equal (a b : KV) : Bool := a.key == b.key

/-- `KeyValue.Less`: key comparison. -/
def KV.less (a b : KV) : Bool := decide (a.key < b.key)

theorem KV.equal_iff (a b : KV) : a.equal b = true ↔ a.key = b.key := by
  simp [KV.equal]

theorem KV.less_iff (a b : KV) : a.less b = true ↔ a.key < b.key := by
  simp [KV.less]

/-! ### The sorted-association-list model

Each search tree is related to the sorted list of its stored values (its
inorder traversal).  `listInsert` is insert-or-overwrite by key, `listRemove`
removes the value with the matching key, `lookupKey` finds it. -/

/-- Insert into a key-sorted list, overwriting an equal key (last write wins). -/
def listInsert (v : KV) : List KV → List KV
  | [] => [v]
  | x :: xs =>
    if v.key = x.key then v :: xs
    else if v.key < x.key then v :: x :: xs
    else x :: listInsert v xs

/-- Remove the value with a matching key from a key-sorted list (no-op when absent). -/
def listRemove (v : KV) : List KV → List KV
  | [] => []
  | x :: xs =>
    if v.key = x.key then xs
    else if v.key < x.key then x :: xs
    else x :: listRemove v xs

/-- Find the value with the given key. -/
def lookupKey (k : Nat) : List KV → Option KV
  | [] => none
  | x :: xs => if k = x.key then some x else lookupKey k xs

/-- Strictly increasing keys. -/
def kvSorted (L : List KV) : Prop := List.Pairwise (fun a b => a.key < b.key) L

instance (L : List KV) : Decidable (kvSorted L) := by
  unfold kvSorted; infer_instance

theorem kvSorted_nil : kvSorted [] := List.Pairwise.nil

theorem kvSorted_append_iff (A B : List KV) (x : KV) :
    kvSorted (A ++ x :: B) ↔
      kvSorted A ∧ kvSorted B ∧ (∀ a ∈ A, a.key < x.key) ∧ (∀ b ∈ B, x.key < b.key) ∧
      (∀ a ∈ A, ∀ b ∈ B, a.key < b.key) := by
  simp only [kvSorted, List.pairwise_append, List.pairwise_cons, List.mem_cons]
  constructor
  · rintro ⟨hA, ⟨hxB, hB⟩, hcross⟩
    refine ⟨hA, hB, fun a ha => hcross a ha x (Or.inl rfl), hxB, ?_⟩
    intro a ha b hb; exact hcross a ha b (Or.inr hb)
  · rintro ⟨hA, hB, hAx, hxB, hAB⟩
    refine ⟨hA, ⟨hxB, hB⟩, ?_⟩
    rintro a ha b (rfl | hb)
    · exact hAx a ha
    · exact hAB a ha b hb

theorem listInsert_append_lt (v x : KV) (A B : List KV) (h : v.key < x.key) :
    listInsert v (A ++ x :: B) = listInsert v A ++ x :: B := by
  induction A with
  | nil =>
    simp only [List.nil_append, listInsert]
    rw [if_neg (Nat.ne_of_lt h), if_pos h]
    simp [listInsert]
  | cons a A ih =>
    simp only [List.cons_append, listInsert, List.append_eq]
    by_cases h1 : v.key = a.key
    · simp [h1]
    · by_cases h2 : v.key < a.key
      · simp [h1, h2]
      · simp only [h1, h2, if_false]
        rw [ih, List.cons_append]

theorem listInsert_append_eq (v x : KV) (A B : List KV)
    (hA : ∀ a ∈ A, a.key < v.key) (h : v.key = x.key) :
    listInsert v (A ++ x :: B) = A ++ v :: B := by
  induction A with
  | nil => simp [listInsert, h]
  | cons a A ih =>
    have ha : a.key < v.key := hA a (by simp)
    simp only [List.cons_append, listInsert, List.append_eq,
      if_neg (Nat.ne_of_gt ha), if_neg (Nat.not_lt_of_gt ha)]
    rw [ih (fun b hb => hA b (by simp [hb]))]

theorem listInsert_append_gt (v x : KV) (A B : List KV)
    (hA : ∀ a ∈ A, a.key < v.key) (h : x.key < v.key) :
    listInsert v (A ++ x :: B) = A ++ x :: listInsert v B := by
  induction A with
  | nil =>
    simp [listInsert, if_neg (Nat.ne_of_gt h), if_neg (Nat.not_lt_of_gt h)]
  | cons a A ih =>
    have ha : a.key < v.key := hA a (by simp)
    simp only [List.cons_append, listInsert, List.append_eq,
      if_neg (Nat.ne_of_gt ha), if_neg (Nat.not_lt_of_gt ha)]
    rw [ih (fun b hb => hA b (by simp [hb]))]

theorem listRemove_append_lt (v x : KV) (A B : List KV) (h : v.key < x.key) :
    listRemove v (A ++ x :: B) = listRemove v A ++ x :: B := by
  induction A with
  | nil =>
    simp [listRemove, if_neg (Nat.ne_of_lt h), if_pos h]
  | cons a A ih =>
    simp only [List.cons_append, listRemove, List.append_eq]
    by_cases h1 : v.key = a.key
    · simp [h1]
    · by_cases h2 : v.key < a.key
      · simp [h1, h2]
      · simp only [h1, h2, if_false]
        rw [ih, List.cons_append]

theorem listRemove_append_eq (v x : KV) (A B : List KV)
    (hA : ∀ a ∈ A, a.key < v.key) (h : v.key = x.key) :
    listRemove v (A ++ x :: B) = A ++ B := by
  induction A with
  | nil => simp [listRemove, h]
  | cons a A ih =>
    have ha : a.key < v.key := hA a (by simp)
    simp only [List.cons_append, listRemove, List.append_eq,
      if_neg (Nat.ne_of_gt ha), if_neg (Nat.not_lt_of_gt ha)]
    rw [ih (fun b hb => hA b (by simp [hb]))]

theorem listRemove_append_gt (v x : KV) (A B : List KV)
    (hA : ∀ a ∈ A, a.key < v.key) (h : x.key < v.key) :
    listRemove v (A ++ x :: B) = A ++ x :: listRemove v B := by
  induction A with
  | nil =>
    simp [listRemove, if_neg (Nat.ne_of_gt h), if_neg (Nat.not_lt_of_gt h)]
  | cons a A ih =>
    have ha : a.key < v.key := hA a (by simp)
    simp only [List.cons_append, listRemove, List.append_eq,
      if_neg (Nat.ne_of_gt ha), if_neg (Nat.not_lt_of_gt ha)]
    rw [ih (fun b hb => hA b (by simp [hb]))]

theorem lookupKey_append_lt (k : Nat) (x : KV) (A B : List KV)
    (hB : ∀ b ∈ B, k < b.key) (h : k < x.key) :
    lookupKey k (A ++ x :: B) = lookupKey k A := by
  induction A with
  | nil =>
    simp only [List.nil_append, lookupKey, if_neg (Nat.ne_of_lt h)]
    induction B with
    | nil => rfl
    | cons b B ihB =>
      simp only [lookupKey, if_neg (Nat.ne_of_lt (hB b (by simp)))]
      exact ihB (fun c hc => hB c (by simp [hc]))
  | cons a A ih =>
    simp only [List.cons_append, lookupKey]
    by_cases h1 : k = a.key
    · simp [h1]
    · simp only [if_neg h1]; exact ih

theorem lookupKey_append_eq (k : Nat) (x : KV) (A B : List KV)
    (hA : ∀ a ∈ A, a.key < k) (h : k = x.key) :
    lookupKey k (A ++ x :: B) = some x := by
  induction A with
  | nil => simp [lookupKey, h]
  | cons a A ih =>
    have ha : a.key < k := hA a (by simp)
    simp only [List.cons_append, lookupKey, if_neg (Nat.ne_of_gt ha)]
    exact ih (fun b hb => hA b (by simp [hb]))

theorem lookupKey_append_gt (k : Nat) (x : KV) (A B : List KV)
    (hA : ∀ a ∈ A, a.key < k) (h : x.key < k) :
    lookupKey k (A ++ x :: B) = lookupKey k B := by
  induction A with
  | nil => simp [lookupKey, Nat.ne_of_gt h]
  | cons a A ih =>
    have ha : a.key < k := hA a (by simp)
    simp only [List.cons_append, lookupKey, if_neg (Nat.ne_of_gt ha)]
    exact ih (fun b hb => hA b (by simp [hb]))

theorem lookupKey_eq_none (k : Nat) (L : List KV) (h : ∀ a ∈ L, a.key ≠ k) :
    lookupKey k L = none := by
  induction L with
  | nil => rfl
  | cons a L ih =>
    have hne : ¬(k = a.key) := fun hk => (h a (by simp)) hk.symm
    simp only [lookupKey, if_neg hne]
    exact ih (fun b hb => h b (by simp [hb]))

theorem lookupKey_key (k : Nat) (L : List KV) (w : KV) (h : lookupKey k L = some w) :
    w ∈ L ∧ w.key = k := by
  induction L with
  | nil => simp [lookupKey] at h
  | cons a L ih =>
    by_cases h1 : k = a.key
    · simp only [lookupKey, if_pos h1] at h
      cases h; exact ⟨by simp, h1.symm⟩
    · simp only [lookupKey, if_neg h1] at h
      obtain ⟨hm, hk⟩ := ih h
      exact ⟨by simp [hm], hk⟩

theorem lookupKey_isSome_iff (k : Nat) (L : List KV) :
    (lookupKey k L).isSome = true ↔ ∃ a ∈ L, a.key = k := by
  induction L with
  | nil => simp [lookupKey]
  | cons a L ih =>
    by_cases h1 : k = a.key
    · simp [lookupKey, h1]
    · simp only [lookupKey, if_neg h1, ih, List.mem_cons]
      constructor
      · rintro ⟨b, hb, hk⟩; exact ⟨b, Or.inr hb, hk⟩
      · rintro ⟨b, (rfl | hb), hk⟩
        · exact absurd hk.symm h1
        · exact ⟨b, hb, hk⟩

theorem mem_of_mem_listInsert (v x : KV) (L : List KV) (h : x ∈ listInsert v L) :
    x = v ∨ x ∈ L := by
  induction L with
  | nil => simpa [listInsert] using h
  | cons a L ih =>
    by_cases h1 : v.key = a.key
    · simp only [listInsert, if_pos h1, List.mem_cons] at h
      rcases h with rfl | h
      · exact Or.inl rfl
      · exact Or.inr (by simp [h])
    · by_cases h2 : v.key < a.key
      · simp only [listInsert, if_neg h1, if_pos h2, List.mem_cons] at h
        rcases h with rfl | h
        · exact Or.inl rfl
        · exact Or.inr (by simp [h])
      · simp only [listInsert, if_neg h1, if_neg h2, List.mem_cons] at h
        rcases h with rfl | h
        · exact Or.inr (by simp)
        · rcases ih h with rfl | hm
          · exact Or.inl rfl
          · exact Or.inr (by simp [hm])

theorem mem_listInsert_self (v : KV) (L : List KV) : v ∈ listInsert v L := by
  induction L with
  | nil => simp [listInsert]
  | cons a L ih =>
    by_cases h1 : v.key = a.key
    · simp [listInsert, h1]
    · by_cases h2 : v.key < a.key
      · simp [listInsert, h1, h2]
      · simp [listInsert, h1, h2, ih]

theorem mem_listInsert_of_mem (v x : KV) (L : List KV) (hx : x ∈ L)
    (hne : x.key ≠ v.key) : x ∈ listInsert v L := by
  induction L with
  | nil => cases hx
  | cons a L ih =>
    rcases List.mem_cons.mp hx with rfl | hx2
    · by_cases h1 : v.key = x.key
      · exact absurd h1.symm hne
      · by_cases h2 : v.key < x.key
        · simp [listInsert, h1, h2]
        · simp [listInsert, h1, h2]
    · by_cases h1 : v.key = a.key
      · simp [listInsert, h1, hx2]
      · by_cases h2 : v.key < a.key
        · simp [listInsert, h1, h2, hx2]
        · simp [listInsert, h1, h2, ih hx2]

theorem kvSorted_listInsert (v : KV) (L : List KV) (h : kvSorted L) :
    kvSorted (listInsert v L) := by
  induction L with
  | nil => simp [listInsert, kvSorted]
  | cons a L ih =>
    have hbound : ∀ b ∈ L, a.key < b.key := (List.pairwise_cons.mp h).1
    have htail : kvSorted L := (List.pairwise_cons.mp h).2
    by_cases h1 : v.key = a.key
    · simp only [listInsert, if_pos h1]
      exact List.pairwise_cons.mpr ⟨fun b hb => h1 ▸ hbound b hb, htail⟩
    · by_cases h2 : v.key < a.key
      · simp only [listInsert, if_neg h1, if_pos h2]
        refine List.pairwise_cons.mpr ⟨?_, h⟩
        intro b hb
        rcases List.mem_cons.mp hb with rfl | hb2
        · exact h2
        · exact Nat.lt_trans h2 (hbound b hb2)
      · simp only [listInsert, if_neg h1, if_neg h2]
        refine List.pairwise_cons.mpr ⟨?_, ih htail⟩
        intro b hb
        rcases mem_of_mem_listInsert v b L hb with rfl | hb2
        · exact Nat.lt_of_le_of_ne (Nat.le_of_not_lt h2) (fun e => h1 e.symm)
        · exact hbound b hb2

theorem listRemove_sublist (v : KV) (L : List KV) : (listRemove v L).Sublist L := by
  induction L with
  | nil => simp [listRemove]
  | cons a L ih =>
    by_cases h1 : v.key = a.key
    · simp only [listRemove, if_pos h1]
      exact (List.sublist_cons_self a L)
    · by_cases h2 : v.key < a.key
      · simp [listRemove, h1, h2]
      · simp only [listRemove, if_neg h1, if_neg h2]
        exact List.Sublist.cons₂ a ih

theorem kvSorted_listRemove (v : KV) (L : List KV) (h : kvSorted L) :
    kvSorted (listRemove v L) :=
  List.Pairwise.sublist (listRemove_sublist v L) h

theorem listRemove_not_mem (v : KV) (L : List KV) (h : ∀ a ∈ L, a.key ≠ v.key) :
    listRemove v L = L := by
  induction L with
  | nil => rfl
  | cons a L ih =>
    have h1 : ¬(v.key = a.key) := fun e => (h a (by simp)) e.symm
    by_cases h2 : v.key < a.key
    · simp [listRemove, h1, h2]
    · simp only [listRemove, if_neg h1, if_neg h2]
      rw [ih (fun b hb => h b (by simp [hb]))]

theorem lookup_listInsert_self (v : KV) (L : List KV) (h : kvSorted L) :
    lookupKey v.key (listInsert v L) = some v := by
  induction L with
  | nil => simp [listInsert, lookupKey]
  | cons a L ih =>
    have htail : kvSorted L := (List.pairwise_cons.mp h).2
    by_cases h1 : v.key = a.key
    · simp [listInsert, h1, lookupKey]
    · by_cases h2 : v.key < a.key
      · simp [listInsert, h1, h2, lookupKey]
      · simp only [listInsert, if_neg h1, if_neg h2, lookupKey, if_neg h1]
        exact ih htail

theorem lookup_listInsert_other (v : KV) (k : Nat) (L : List KV) (h : k ≠ v.key) :
    lookupKey k (listInsert v L) = lookupKey k L := by
  induction L with
  | nil => simp [listInsert, lookupKey, h]
  | cons a L ih =>
    by_cases h1 : v.key = a.key
    · simp [listInsert, h1, lookupKey, h, h1 ▸ h]
    · by_cases h2 : v.key < a.key
      · simp [listInsert, h1, h2, lookupKey, h]
      · simp only [listInsert, if_neg h1, if_neg h2, lookupKey]
        by_cases h3 : k = a.key
        · simp [h3]
        · simp [h3, ih]

theorem lookup_listRemove_self (v : KV) (L : List KV) (h : kvSorted L) :
    lookupKey v.key (listRemove v L) = none := by
  induction L with
  | nil => rfl
  | cons a L ih =>
    have hbound : ∀ b ∈ L, a.key < b.key := (List.pairwise_cons.mp h).1
    have htail : kvSorted L := (List.pairwise_cons.mp h).2
    by_cases h1 : v.key = a.key
    · simp only [listRemove, if_pos h1]
      exact lookupKey_eq_none _ _ (fun b hb => Nat.ne_of_gt (h1 ▸ hbound b hb))
    · by_cases h2 : v.key < a.key
      · simp only [listRemove, if_neg h1, if_pos h2]
        exact lookupKey_eq_none _ _ (fun b hb => by
          rcases List.mem_cons.mp hb with rfl | hb2
          · exact fun e => h1 e.symm
          · exact Nat.ne_of_gt (Nat.lt_trans h2 (hbound b hb2)))
      · simp only [listRemove, if_neg h1, if_neg h2, lookupKey, if_neg h1]
        exact ih htail

theorem lookup_listRemove_other (v : KV) (k : Nat) (L : List KV) (h : k ≠ v.key) :
    lookupKey k (listRemove v L) = lookupKey k L := by
  induction L with
  | nil => rfl
  | cons a L ih =>
    by_cases h1 : v.key = a.key
    · simp [listRemove, h1, lookupKey, h1 ▸ h]
    · by_cases h2 : v.key < a.key
      · simp [listRemove, h1, h2]
      · simp only [listRemove, if_neg h1, if_neg h2, lookupKey]
        by_cases h3 : k = a.key
        · simp [h3]
        · simp [h3, ih]

theorem length_listInsert (v : KV) (L : List KV) (h : kvSorted L) :
    (listInsert v L).length =
      if (lookupKey v.key L).isSome then L.length else L.length + 1 := by
  induction L with
  | nil => simp [listInsert, lookupKey]
  | cons a L ih =>
    have htail : kvSorted L := (List.pairwise_cons.mp h).2
    by_cases h1 : v.key = a.key
    · simp [listInsert, h1, lookupKey]
    · by_cases h2 : v.key < a.key
      · have hbound : ∀ b ∈ L, a.key < b.key := (List.pairwise_cons.mp h).1
        have : lookupKey v.key L = none :=
          lookupKey_eq_none _ _ (fun b hb =>
            Nat.ne_of_gt (Nat.lt_trans h2 (hbound b hb)))
        simp [listInsert, h1, h2, lookupKey, this]
      · simp only [listInsert, if_neg h1, if_neg h2, lookupKey, if_neg h1,
          List.length_cons, ih htail]
        by_cases h3 : (lookupKey v.key L).isSome
        · simp [h3]
        · simp [h3]

theorem length_listRemove (v : KV) (L : List KV) (h : kvSorted L) :
    (listRemove v L).length =
      if (lookupKey v.key L).isSome then L.length - 1 else L.length := by
  induction L with
  | nil => simp [listRemove, lookupKey]
  | cons a L ih =>
    have htail : kvSorted L := (List.pairwise_cons.mp h).2
    by_cases h1 : v.key = a.key
    · simp [listRemove, h1, lookupKey]
    · by_cases h2 : v.key < a.key
      · have hbound : ∀ b ∈ L, a.key < b.key := (List.pairwise_cons.mp h).1
        have : lookupKey v.key L = none :=
          lookupKey_eq_none _ _ (fun b hb =>
            Nat.ne_of_gt (Nat.lt_trans h2 (hbound b hb)))
        simp [listRemove, h1, h2, lookupKey, this]
      · simp only [listRemove, if_neg h1, if_neg h2, lookupKey, if_neg h1,
          List.length_cons, ih htail]
        by_cases h3 : (lookupKey v.key L).isSome
        · rcases Option.isSome_iff_exists.mp h3 with ⟨w, hw⟩
          have : w ∈ L := (lookupKey_key _ _ _ hw).1
          have hlen : 1 ≤ L.length := List.length_pos.mpr (by rintro rfl; cases this)
          simp [h3]
          omega
        · simp [h3]

/-! ### Binary tree nodes (`binaryTree.go`)

Go's `*btNode` nil pointers become the `nil` constructor; the `height` field
(meaningful only for AVL trees) is carried on every node, with Go's zero value
`0` where the source leaves it unset. -/

/-- `btNode` from `binaryTree.go`. -/
inductive btNode where
  | nil : btNode
  | node (value : KV) (left : btNode) (right : btNode) (height : Nat) : btNode
deriving DecidableEq, Repr

/-- `newBTNode`: allocate a node; the `height` field keeps Go's zero value. -/
def newBTNode (v : KV) (leftTree rightTree : btNode) : btNode :=
  .node v leftTree rightTree 0

/-- `btNode.clone`: deep copy of the node graph.  The height field is not
copied (a fresh node's zero value remains). -/
def btNode.clone : btNode → btNode
  | .nil => .nil
  | .node v l r _ => .node v l.clone r.clone 0

/-- `btNode.getHeight`: the empty tree and a single node both have height 0. -/
def btNode.getHeight : btNode → Nat
  | .nil => 0
  | .node _ .nil .nil _ => 0
  | .node _ l r _ => 1 + max l.getHeight r.getHeight

/-- `btNode.size`: number of nodes. -/
def btNode.size : btNode → Nat
  | .nil => 0
  | .node _ l r _ => 1 + l.size + r.size

/-- `btNode.contains` (`binaryTree.go`): exhaustive structural search comparing
stored values with the Go builtin `==` (full struct equality), not with
`Comparer.Equal`. -/
def btNode.contains : btNode → KV → Bool
  | .nil, _ => false
  | .node v l r _, e => v == e || l.contains e || r.contains e

/-- The value sequence produced by `btNode.visitInorder` (left, node, right). -/
def btNode.inorder : btNode → List KV
  | .nil => []
  | .node v l r _ => l.inorder ++ v :: r.inorder

/-- Left child of a non-nil node (Go field access `node.left`). -/
def btNode.leftOf : btNode → btNode
  | .nil => .nil
  | .node _ l _ _ => l

/-- Right child of a non-nil node (Go field access `node.right`). -/
def btNode.rightOf : btNode → btNode
  | .nil => .nil
  | .node _ _ r _ => r

/-! ### The `BinaryTree` container (`binaryTree.go`) -/

/-- `BinaryTree`: a count and a root pointer.  `count` is a Go `int`. -/
structure BinaryTree where
  count : Int
  root : btNode
deriving DecidableEq, Repr

/-- Go's zero-valued `BinaryTree` (`var t BinaryTree`). -/
def BinaryTree.empty : BinaryTree := { count := 0, root := .nil }

def BinaryTree.Size (t : BinaryTree) : Int := t.count

def BinaryTree.Empty (t : BinaryTree) : Bool := t.count == 0

def BinaryTree.Clear (_ : BinaryTree) : BinaryTree := { count := 0, root := .nil }

def BinaryTree.Height (t : BinaryTree) : Nat := t.root.getHeight

/-- `BinaryTree.Contains`: `==`-based exhaustive search with a nil-root guard. -/
def BinaryTree.Contains (t : BinaryTree) (e : KV) : Bool :=
  match t.root with
  | .nil => false
  | root => root.contains e

/-- `BinaryTree.RootValue`: the root value, or an `EmptyTreeError`. -/
def BinaryTree.RootValue (t : BinaryTree) : Option KV × Option String :=
  match t.root with
  | .nil => (none, some "The empty tree has no root value")
  | .node v _ _ _ => (some v, none)

/-- `BinaryTree.LeftSubtree`: deep copy of the root's left subtree, or an
`EmptyTreeError` on an empty tree. -/
def BinaryTree.LeftSubtree (t : BinaryTree) : BinaryTree × Option String :=
  match t.root with
  | .nil => ({ count := 0, root := .nil }, some "The empty tree has no left subtree")
  | .node _ l _ _ => ({ count := (l.size : Int), root := l.clone }, none)

/-- `BinaryTree.RightSubtree`: deep copy of the root's right subtree, or an
`EmptyTreeError` on an empty tree. -/
def BinaryTree.RightSubtree (t : BinaryTree) : BinaryTree × Option String :=
  match t.root with
  | .nil => ({ count := 0, root := .nil }, some "The empty tree has no right subtree")
  | .node _ _ r _ => ({ count := (r.size : Int), root := r.clone }, none)

/-! ### `BinarySearchTree` (`binarySearchTree.go`)

The iterative descending loops become structural recursions over the same
comparisons in the same order. -/

/-- The descent loop of `BinarySearchTree.Contains`. -/
def bsNodeContains (v : KV) : btNode → Bool
  | .nil => false
  | .node nv l r _ =>
    if v.equal nv then true
    else if v.less nv then bsNodeContains v l
    else bsNodeContains v r

/-- `BinarySearchTree.Contains`: order-guided reimplementation. -/
def BinarySearchTree.Contains (t : BinaryTree) (e : KV) : Bool :=
  bsNodeContains e t.root

/-- The descent loop of `BinarySearchTree.Get`; `none` models `(nil, false)`. -/
def bsNodeGet (v : KV) : btNode → Option KV
  | .nil => none
  | .node nv l r _ =>
    if v.equal nv then some nv
    else if v.less nv then bsNodeGet v l
    else bsNodeGet v r

/-- `BinarySearchTree.Get`. -/
def BinarySearchTree.Get (t : BinaryTree) (v : KV) : Option KV :=
  bsNodeGet v t.root

/-- The descent loop of `BinarySearchTree.Add`: overwrite an `Equal` value in
place, or attach a fresh node at the nil child reached; the flag records
whether `tree.count++` ran. -/
def bsNodeAdd (v : KV) : btNode → btNode × Bool
  | .nil => (newBTNode v .nil .nil, true)
  | .node nv l r h =>
    if v.equal nv then (.node v l r h, false)
    else if v.less nv then
      let p := bsNodeAdd v l
      (.node nv p.1 r h, p.2)
    else
      let p := bsNodeAdd v r
      (.node nv l p.1 h, p.2)

/-- `BinarySearchTree.Add`. -/
def BinarySearchTree.Add (t : BinaryTree) (v : KV) : BinaryTree :=
  match t.root with
  | .nil => { count := t.count + 1, root := newBTNode v .nil .nil }
  | root =>
    let p := bsNodeAdd v root
    { count := if p.2 then t.count + 1 else t.count, root := p.1 }

/-- The successor extraction of `deleteNode`: remove the leftmost node of a
subtree (splicing its right child into its place) and return its value. -/
def bsRemoveLeftmost : btNode → KV × btNode
  | .nil => (⟨0, 0⟩, .nil)
  | .node v l r h =>
    match l with
    | .nil => (v, r)
    | .node .. =>
      let p := bsRemoveLeftmost l
      (p.1, .node v p.2 r h)

/-- The search loop of `BinarySearchTree.Remove` plus `deleteNode`: locate the
`Equal` node; splice out a node with at most one child, otherwise swap in the
inorder successor's value and splice out the successor.  The flag records
whether `tree.count--` ran. -/
def bsNodeRemove (v : KV) : btNode → btNode × Bool
  | .nil => (.nil, false)
  | .node nv l r h =>
    if v.equal nv then
      match l, r with
      | .nil, _ => (r, true)
      | .node .., .nil => (l, true)
      | .node .., .node .. =>
        let p := bsRemoveLeftmost r
        (.node p.1 l p.2 h, true)
    else if v.less nv then
      let p := bsNodeRemove v l
      (.node nv p.1 r h, p.2)
    else
      let p := bsNodeRemove v r
      (.node nv l p.1 h, p.2)

/-- `BinarySearchTree.Remove`. -/
def BinarySearchTree.Remove (t : BinaryTree) (v : KV) : BinaryTree :=
  let p := bsNodeRemove v t.root
  { count := if p.2 then t.count - 1 else t.count, root := p.1 }

/-! ### `AVLTree` (`avlTree.go`) -/

/-- The height read from a child pointer: `-1` for nil, else the stored field
(the two local variables of `setHeight` and `balance`). -/
def btNode.chI : btNode → Int
  | .nil => -1
  | .node _ _ _ h => (h : Int)

/-- `btNode.setHeight`: recompute the stored height from the children's stored
heights. -/
def btNode.setHeight : btNode → btNode
  | .nil => .nil
  | .node v l r _ => .node v l r (max l.chI r.chI + 1).toNat

/-- `newAVLNode`: `newBTNode` followed by `setHeight`. -/
def newAVLNode (v : KV) (l r : btNode) : btNode := (newBTNode v l r).setHeight

/-- `btNode.balance`: stored left height minus stored right height. -/
def btNode.balance : btNode → Int
  | .nil => 0
  | .node _ l r _ => l.chI - r.chI

/-- `btNode.rotateL`: the right child's value moves to the root. -/
def btNode.rotateL : btNode → btNode
  | .node v l (.node rv rl rr _) h => .node rv (newAVLNode v l rl) rr h
  | t => t

/-- `btNode.rotateR`: the left child's value moves to the root. -/
def btNode.rotateR : btNode → btNode
  | .node v (.node lv ll lr _) r h => .node lv ll (newAVLNode v lr r) h
  | t => t

/-- `btNode.rotateLR`: the left child's right child's value moves to the root. -/
def btNode.rotateLR : btNode → btNode
  | .node v (.node lv ll (.node lrv lrl lrr _) lh) r h =>
      .node lrv (btNode.node lv ll lrl lh).setHeight (newAVLNode v lrr r) h
  | t => t

/-- `btNode.rotateRL`: the right child's left child's value moves to the root. -/
def btNode.rotateRL : btNode → btNode
  | .node v l (.node rv (.node rlv rll rlr _) rr rh) h =>
      .node rlv (newAVLNode v l rll) (btNode.node rv rlr rr rh).setHeight h
  | t => t

/-- `btNode.rebalance`: rotate on a balance factor of `±2` (an `LR`/`RL`
double rotation when the taller child leans the other way), then always
recompute the height. -/
def btNode.rebalance (t : btNode) : btNode :=
  let t1 :=
    if t.balance = 2 then
      if t.leftOf.balance = -1 then t.rotateLR else t.rotateR
    else if t.balance = -2 then
      if t.rightOf.balance = 1 then t.rotateRL else t.rotateL
    else t
  t1.setHeight

/-- `btNode.add` (`avlTree.go`): AVL insertion; a brand-new child is followed
by `setHeight` only, a recursive insertion by `rebalance`. -/
def btNode.add (v : KV) : btNode → btNode
  | .nil => .nil
  | .node nv l r h =>
    if v.equal nv then .node v l r h
    else if v.less nv then
      match l with
      | .nil => (btNode.node nv (newAVLNode v .nil .nil) r h).setHeight
      | .node .. => (btNode.node nv (l.add v) r h).rebalance
    else
      match r with
      | .nil => (btNode.node nv l (newAVLNode v .nil .nil) h).setHeight
      | .node .. => (btNode.node nv l (r.add v) h).rebalance

/-- `btNode.removeSuccessor`: remove and return the leftmost value, rebalancing
every node along the path. -/
def btNode.removeSuccessor : btNode → KV × btNode
  | .nil => (⟨0, 0⟩, .nil)
  | .node v l r h =>
    match l with
    | .nil => (v, r)
    | .node .. =>
      let p := l.removeSuccessor
      (p.1, (btNode.node v p.2 r h).rebalance)

/-- `btNode.remove` (`avlTree.go`): AVL deletion with successor copy and
rebalancing on the way back up. -/
def btNode.remove (v : KV) : btNode → btNode
  | .nil => .nil
  | .node nv l r h =>
    if v.equal nv then
      match l, r with
      | .nil, _ => r
      | .node .., .nil => l
      | .node .., .node .. =>
        let p := r.removeSuccessor
        (btNode.node p.1 l p.2 h).rebalance
    else if v.less nv then
      match l with
      | .nil => .node nv l r h
      | .node .. => (btNode.node nv (l.remove v) r h).rebalance
    else
      match r with
      | .nil => .node nv l r h
      | .node .. => (btNode.node nv l (r.remove v) h).rebalance

/-- `AVLTree.Height`: read the root's stored height field. -/
def AVLTree.Height (t : BinaryTree) : Int :=
  match t.root with
  | .nil => 0
  | .node _ _ _ h => (h : Int)

/-- `AVLTree.Add`: the duplicate test uses the inherited `==`-based
`btNode.contains`, then `btNode.add` inserts or overwrites. -/
def AVLTree.Add (t : BinaryTree) (v : KV) : BinaryTree :=
  match t.root with
  | .nil => { count := 1, root := newAVLNode v .nil .nil }
  | root =>
    { count := if root.contains v then t.count else t.count + 1,
      root := root.add v }

/-- `AVLTree.Remove`: guard with the `Equal`-based `BinarySearchTree.Contains`,
then delete and decrement. -/
def AVLTree.Remove (t : BinaryTree) (v : KV) : BinaryTree :=
  if BinarySearchTree.Contains t v then
    { count := t.count - 1, root := t.root.remove v }
  else t

/-! ### `TwoThreeTree` (`twoThreeTree.go`)

`twoThreeNode` carries its `nodeType` tag (1 is the transient underflow state
used during deletion), two `interface{}` value slots and three child pointers.
Go nil interfaces become `none`, nil pointers the `nil` constructor.  The
source mutates nodes in place and leaves stale data in fields the node's
current `nodeType` does not use (e.g. `value2` or `right` of a demoted
2-node); the functional translation reproduces those stale fields verbatim,
and materializes Go pointer aliasing (`r.left = r.mid`) by duplicating the
subtree value. -/

/-- `twoThreeNode` from `twoThreeTree.go`. -/
inductive twoThreeNode where
  | nil : twoThreeNode
  | node (nodeType : Nat) (value1 value2 : Option KV)
         (left mid right : twoThreeNode) : twoThreeNode
deriving DecidableEq, Repr

/-- `newTwoThreeNode`: a fresh 2-node (other fields keep Go zero values). -/
def newTwoThreeNode (v : Option KV) (leftChild midChild : twoThreeNode) : twoThreeNode :=
  .node 2 v none leftChild midChild .nil

/-- Field read `r.nodeType` (nil receiver would be a Go panic). -/
def twoThreeNode.typeOf : twoThreeNode → Nat
  | .nil => 0
  | .node nt _ _ _ _ _ => nt

/-- Field read `r.value1`. -/
def twoThreeNode.val1 : twoThreeNode → Option KV
  | .nil => none
  | .node _ v1 _ _ _ _ => v1

/-- Field read `r.value2`. -/
def twoThreeNode.val2 : twoThreeNode → Option KV
  | .nil => none
  | .node _ _ v2 _ _ _ => v2

/-- Field read `r.left`. -/
def twoThreeNode.leftC : twoThreeNode → twoThreeNode
  | .nil => .nil
  | .node _ _ _ l _ _ => l

/-- Field read `r.mid`. -/
def twoThreeNode.midC : twoThreeNode → twoThreeNode
  | .nil => .nil
  | .node _ _ _ _ m _ => m

/-- Field read `r.right`. -/
def twoThreeNode.rightC : twoThreeNode → twoThreeNode
  | .nil => .nil
  | .node _ _ _ _ _ r => r

/-- `v.Less(w)` against a stored `interface{}` slot.  Go panics when the slot
is nil, which never happens on trees built through the public API; `false`
stands in for the impossible case. -/
def lessO (v : KV) (w : Option KV) : Bool :=
  match w with
  | some u => v.less u
  | none => false

/-- `v.Equal(w)` against a stored `interface{}` slot (nil as in `lessO`). -/
def equalO (v : KV) (w : Option KV) : Bool :=
  match w with
  | some u => v.equal u
  | none => false

/-- `twoThreeNode.height`: follow the left spine. -/
def twoThreeNode.height : twoThreeNode → Nat
  | .nil => 0
  | .node _ _ _ l _ _ =>
    match l with
    | .nil => 0
    | .node .. => 1 + l.height

/-- `twoThreeNode.get`: order-guided descent over one or two values per node. -/
def twoThreeNode.get (v : KV) : twoThreeNode → Option KV
  | .nil => none
  | .node nt v1 v2 l m r =>
    if lessO v v1 then
      match l with
      | .nil => none
      | .node .. => l.get v
    else if equalO v v1 then v1
    else if nt == 2 || lessO v v2 then
      match l with
      | .nil => none
      | .node .. => m.get v
    else if equalO v v2 then v2
    else
      match l with
      | .nil => none
      | .node .. => r.get v

/-- `twoThreeNode.add`.  Go detects a child split by pointer comparison
(`newLeft != r.left`); the second flag of the result makes that signal
explicit: it is `true` exactly on the return paths that build and return a
fresh split node.  The first flag is the `addition` result. -/
def twoThreeNode.add (v : KV) : twoThreeNode → twoThreeNode × Bool × Bool
  | .nil => (.nil, false, false)
  | .node nt v1 v2 l m r =>
    if lessO v v1 then
      match l with
      | .nil =>
        if nt == 3 then
          (newTwoThreeNode v1 (newTwoThreeNode (some v) .nil .nil)
            (newTwoThreeNode v2 .nil .nil), true, true)
        else
          (.node 3 (some v) v1 l m r, true, false)
      | .node .. =>
        let p := l.add v
        if p.2.2 then
          if nt == 3 then
            (newTwoThreeNode v1 p.1 (newTwoThreeNode v2 m r), true, true)
          else
            (.node 3 p.1.val1 v1 p.1.leftC p.1.midC m, true, false)
        else (.node nt v1 v2 p.1 m r, p.2.1, false)
    else if equalO v v1 then (.node nt (some v) v2 l m r, false, false)
    else if nt == 2 then
      match l with
      | .nil => (.node 3 v1 (some v) l m r, true, false)
      | .node .. =>
        let p := m.add v
        if p.2.2 then
          (.node 3 v1 p.1.val1 l p.1.leftC p.1.midC, p.2.1, false)
        else (.node nt v1 v2 l p.1 r, p.2.1, false)
    else if lessO v v2 then
      match l with
      | .nil =>
        (newTwoThreeNode (some v) (newTwoThreeNode v1 .nil .nil)
          (newTwoThreeNode v2 .nil .nil), true, true)
      | .node .. =>
        let p := m.add v
        if p.2.2 then
          (newTwoThreeNode p.1.val1 (newTwoThreeNode v1 l p.1.leftC)
            (newTwoThreeNode v2 p.1.midC r), true, true)
        else (.node nt v1 v2 l p.1 r, p.2.1, false)
    else if equalO v v2 then (.node nt v1 (some v) l m r, false, false)
    else
      match l with
      | .nil =>
        (newTwoThreeNode v2 (newTwoThreeNode v1 .nil .nil)
          (newTwoThreeNode (some v) .nil .nil), true, true)
      | .node .. =>
        let p := r.add v
        if p.2.2 then
          (newTwoThreeNode v2 (newTwoThreeNode v1 l m) p.1, true, true)
        else (.node nt v1 v2 l m p.1, p.2.1, false)

/-- `shiftLeft`: `value1, left, mid = value2, mid, right` (stale `value2` and
`right` keep their old contents). -/
def twoThreeNode.shiftLeft : twoThreeNode → twoThreeNode
  | .node nt _ v2 _ m r => .node nt v2 v2 m r r
  | .nil => .nil

/-- `shiftRight`: `value2, right, mid = value1, mid, left`. -/
def twoThreeNode.shiftRight : twoThreeNode → twoThreeNode
  | .node nt v1 _ l m _ => .node nt v1 v1 l l m
  | .nil => .nil

/-- `leftBorrowsFromMid`. -/
def twoThreeNode.leftBorrowsFromMid : twoThreeNode → twoThreeNode
  | .node nt v1 v2 (.node _ _ lv2 ll _ lr) (.node mt mv1 mv2 ml mm mr) r =>
      .node nt mv1 v2 (.node 2 v1 lv2 ll ml lr) (.node (mt - 1) mv2 mv2 mm mr mr) r
  | t => t

/-- `midBorrowsFromLeft`. -/
def twoThreeNode.midBorrowsFromLeft : twoThreeNode → twoThreeNode
  | .node nt v1 v2 (.node _ lv1 lv2 ll lm lr) (.node _ _ mv2 ml _ mr) r =>
      .node nt lv2 v2 (.node 2 lv1 lv2 ll lm lr) (.node 2 v1 mv2 lr ml mr) r
  | t => t

/-- `midBorrowsFromRight`. -/
def twoThreeNode.midBorrowsFromRight : twoThreeNode → twoThreeNode
  | .node nt v1 v2 l (.node _ _ mv2 ml _ mr) (.node _ rv1 rv2 rl rm rr) =>
      .node nt v1 rv1 l (.node 2 v2 mv2 ml rl mr) (.node 2 rv2 rv2 rm rr rr)
  | t => t

/-- `rightBorrowsFromMid` (the borrowed subtree depends on the mid's kind). -/
def twoThreeNode.rightBorrowsFromMid : twoThreeNode → twoThreeNode
  | .node nt v1 v2 l (.node mt mv1 mv2 ml mm mr) (.node _ _ rv2 rl _ rr) =>
      if mt == 2 then
        .node nt v1 mv1 l (.node (mt - 1) mv1 mv2 ml mm mr) (.node 2 v2 rv2 mm rl rr)
      else
        .node nt v1 mv2 l (.node (mt - 1) mv1 mv2 ml mm mr) (.node 2 v2 rv2 mr rl rr)
  | t => t

/-- `foldLeftIntoMid`. -/
def twoThreeNode.foldLeftIntoMid : twoThreeNode → twoThreeNode
  | .node _ v1 v2 (.node _ _ _ ll _ _) (.node _ mv1 _ ml mm _) r =>
      .node 2 v2 v2 (.node 3 v1 mv1 ll ml mm) r r
  | t => t

/-- `foldMidIntoRight` (the merged node is both `mid` and `right`). -/
def twoThreeNode.foldMidIntoRight : twoThreeNode → twoThreeNode
  | .node _ v1 v2 l (.node _ _ _ ml _ _) (.node _ rv1 _ rl rm _) =>
      .node 2 v1 v2 l (.node 3 v2 rv1 ml rl rm) (.node 3 v2 rv1 ml rl rm)
  | t => t

/-- `foldRightIntoMid` (the stale `right` pointer survives on the 2-node). -/
def twoThreeNode.foldRightIntoMid : twoThreeNode → twoThreeNode
  | .node _ v1 v2 l (.node _ mv1 _ ml mm _) (.node rt rv1 rv2 rl rm rr) =>
      .node 2 v1 v2 l (.node 3 mv1 v2 ml mm rl) (.node rt rv1 rv2 rl rm rr)
  | t => t

/-- `pushLeftIntoMid` (the merged node is both `left` and `mid`). -/
def twoThreeNode.pushLeftIntoMid : twoThreeNode → twoThreeNode
  | .node _ v1 v2 (.node _ _ _ ll _ _) (.node _ mv1 _ ml mm _) r =>
      .node 1 v1 v2 (.node 3 v1 mv1 ll ml mm) (.node 3 v1 mv1 ll ml mm) r
  | t => t

/-- `pushMidIntoLeft` (the stale `mid` pointer survives on the 1-node). -/
def twoThreeNode.pushMidIntoLeft : twoThreeNode → twoThreeNode
  | .node _ v1 v2 (.node _ lv1 _ ll lm _) m r =>
      .node 1 v1 v2 (.node 3 lv1 v1 ll lm m.leftC) m r
  | t => t

/-- The first repair block of `twoThreeNode.remove`: fix a left child that is
a 1-node. -/
def twoThreeNode.fixLeft (t : twoThreeNode) : twoThreeNode :=
  match t with
  | .nil => .nil
  | .node nt _ _ l m r =>
    if l.typeOf == 1 then
      if m.typeOf == 3 || (nt == 3 && r.typeOf == 3) then
        let t1 := t.leftBorrowsFromMid
        if t1.midC.typeOf == 1 then t1.midBorrowsFromRight else t1
      else if nt == 3 then t.foldLeftIntoMid
      else t.pushLeftIntoMid
    else t

/-- The second repair block of `twoThreeNode.remove`: fix a mid child that is
a 1-node. -/
def twoThreeNode.fixMid (t : twoThreeNode) : twoThreeNode :=
  match t with
  | .nil => .nil
  | .node nt _ _ l m r =>
    if m.typeOf == 1 then
      if l.typeOf == 3 then t.midBorrowsFromLeft
      else if nt == 3 then
        if r.typeOf == 3 then t.midBorrowsFromRight else t.foldMidIntoRight
      else t.pushMidIntoLeft
    else t

/-- The third repair block of `twoThreeNode.remove`: fix a right child of a
3-node that is a 1-node. -/
def twoThreeNode.fixRight (t : twoThreeNode) : twoThreeNode :=
  match t with
  | .nil => .nil
  | .node nt _ _ l m r =>
    if nt == 3 && r.typeOf == 1 then
      if l.typeOf == 3 || m.typeOf == 3 then
        let t1 := t.rightBorrowsFromMid
        if t1.midC.typeOf == 1 then t1.midBorrowsFromLeft else t1
      else t.foldRightIntoMid
    else t

/-- The three sequential repair blocks ending `twoThreeNode.remove`. -/
def twoThreeNode.fixChildren (t : twoThreeNode) : twoThreeNode :=
  t.fixLeft.fixMid.fixRight

/-- `twoThreeNode.remove` in its `target != nil` mode: descend along `left`
to the leftmost leaf, take its first value out and repair on the way up.
Instead of writing through the Go `target` pointer, the removed value is
returned for the caller (the `Equal` cases of the search mode) to plant. -/
def twoThreeNode.removeLeftmost : twoThreeNode → twoThreeNode × Option KV
  | .nil => (.nil, none)
  | .node nt v1 v2 l m r =>
    match l with
    | .nil => (.node (nt - 1) v2 v2 .nil m r, v1)
    | .node .. =>
      let p := l.removeLeftmost
      ((twoThreeNode.node nt v1 v2 p.1 m r).fixChildren, p.2)

/-- `twoThreeNode.remove` in its `target == nil` search mode; the flag is the
`deletion` result. -/
def twoThreeNode.remove (v : KV) : twoThreeNode → twoThreeNode × Bool
  | .nil => (.nil, false)
  | .node nt v1 v2 l m r =>
    match l with
    | .nil =>
      if lessO v v1 then (.node nt v1 v2 .nil m r, false)
      else if equalO v v1 then (.node (nt - 1) v2 v2 .nil m r, true)
      else if nt == 2 || lessO v v2 then (.node nt v1 v2 .nil m r, false)
      else if !(equalO v v2) then (.node nt v1 v2 .nil m r, false)
      else (.node (nt - 1) v1 v2 .nil m r, true)
    | .node .. =>
      if lessO v v1 then
        let p := l.remove v
        ((twoThreeNode.node nt v1 v2 p.1 m r).fixChildren, p.2)
      else if equalO v v1 then
        let p := m.removeLeftmost
        ((twoThreeNode.node nt p.2 v2 l p.1 r).fixChildren, true)
      else if nt == 2 || lessO v v2 then
        let p := m.remove v
        ((twoThreeNode.node nt v1 v2 l p.1 r).fixChildren, p.2)
      else if equalO v v2 then
        let p := r.removeLeftmost
        ((twoThreeNode.node nt v1 p.2 l m p.1).fixChildren, true)
      else
        let p := r.remove v
        ((twoThreeNode.node nt v1 v2 l m p.1).fixChildren, p.2)

/-- The value sequence handed to the visitor by `twoThreeNode.visitInorder`. -/
def twoThreeNode.seqInorder : twoThreeNode → List (Option KV)
  | .nil => []
  | .node nt v1 v2 l m r =>
    match l with
    | .nil => v1 :: (if nt == 3 then [v2] else [])
    | .node .. =>
      l.seqInorder ++ v1 :: (m.seqInorder ++ (if nt == 3 then v2 :: r.seqInorder else []))

/-- The stored values in inorder, as plain values (`seqInorder` with the
impossible nil payloads dropped). -/
def twoThreeNode.vals : twoThreeNode → List KV
  | .nil => []
  | .node nt v1 v2 l m r =>
    match l with
    | .nil => v1.toList ++ (if nt == 3 then v2.toList else [])
    | .node .. =>
      l.vals ++ v1.toList ++ m.vals ++ (if nt == 3 then v2.toList ++ r.vals else [])

/-! ### The `TwoThreeTree` container -/

/-- `TwoThreeTree`: a count and a root pointer. -/
structure TwoThreeTree where
  count : Int
  root : twoThreeNode
deriving DecidableEq, Repr

/-- Go's zero-valued `TwoThreeTree`. -/
def TwoThreeTree.empty : TwoThreeTree := { count := 0, root := .nil }

def TwoThreeTree.Size (t : TwoThreeTree) : Int := t.count

def TwoThreeTree.EmptyQ (t : TwoThreeTree) : Bool := t.count == 0

def TwoThreeTree.Clear (_ : TwoThreeTree) : TwoThreeTree := TwoThreeTree.empty

def TwoThreeTree.Height (t : TwoThreeTree) : Nat :=
  match t.root with
  | .nil => 0
  | root => root.height

def TwoThreeTree.Get (t : TwoThreeTree) (v : KV) : Option KV :=
  match t.root with
  | .nil => none
  | root => root.get v

def TwoThreeTree.Contains (t : TwoThreeTree) (v : KV) : Bool :=
  match t.root with
  | .nil => false
  | root => (root.get v).isSome

/-- `TwoThreeTree.Add`. -/
def TwoThreeTree.Add (t : TwoThreeTree) (v : KV) : TwoThreeTree :=
  match t.root with
  | .nil => { count := 1, root := newTwoThreeNode (some v) .nil .nil }
  | root =>
    let p := root.add v
    { count := if p.2.1 then t.count + 1 else t.count, root := p.1 }

/-- `TwoThreeTree.Remove`: delete, decrement on success, and drop a root that
was left as a transient 1-node. -/
def TwoThreeTree.Remove (t : TwoThreeTree) (v : KV) : TwoThreeTree :=
  match t.root with
  | .nil => t
  | root =>
    let p := root.remove v
    { count := if p.2 then t.count - 1 else t.count,
      root := if p.1.typeOf == 1 then p.1.leftC else p.1 }

/-! ### External inorder iterators

The `LinkedStack` of `containers/stack` is a singly linked list with the top
at the head; it is modelled by a Lean list.  `Next` returning `(nil, false)`
on an exhausted iterator is modelled by `none`. -/

/-- The push loop shared by `inorderIterator.Reset` and `Next`: push a node
and descend left. -/
def pushLeftSpine : List btNode → btNode → List btNode
  | s, .nil => s
  | s, .node v l r h => pushLeftSpine (.node v l r h :: s) l

/-- `inorderIterator.Next`: pop, yield the popped value, push the right
child's left spine. -/
def inorderNext : List btNode → Option KV × List btNode
  | [] => (none, [])
  | t :: rest =>
    match t with
    | .nil => (none, rest)
    | .node v _ r _ => (some v, pushLeftSpine rest r)

/-- The stack of a fresh inorder iterator (`NewInorderIterator`, `Reset`). -/
def newInorderStack (t : BinaryTree) : List btNode := pushLeftSpine [] t.root

/-- Call `Next` repeatedly until it reports false, collecting the yielded
values (fuel-bounded; any fuel beyond the number of pending values is inert). -/
def drainInorder : Nat → List btNode → List KV
  | 0, _ => []
  | fuel + 1, s =>
    match inorderNext s with
    | (none, _) => []
    | (some v, s2) => v :: drainInorder fuel s2

/-- The push loop of `twoThreeTreeIterator.Reset` and `Next`. -/
def pushLeftSpineT : List twoThreeNode → twoThreeNode → List twoThreeNode
  | s, .nil => s
  | s, .node nt v1 v2 l m r => pushLeftSpineT (.node nt v1 v2 l m r :: s) l

/-- `twoThreeTreeIterator.Next`: pop, yield `value1`, push a synthesized
2-node with the right portion of a 3-node, then (for internal nodes) the mid
child's left spine. -/
def ttNext : List twoThreeNode → Option (Option KV) × List twoThreeNode
  | [] => (none, [])
  | t :: rest =>
    match t with
    | .nil => (none, rest)
    | .node nt v1 v2 l m r =>
      let s1 := if nt == 3 then newTwoThreeNode v2 m r :: rest else rest
      (some v1,
        match l with
        | .nil => s1
        | .node .. => pushLeftSpineT s1 m)

/-- The stack of a fresh 2-3 iterator (`NewIterator`, `Reset`). -/
def newTTStack (t : TwoThreeTree) : List twoThreeNode := pushLeftSpineT [] t.root

/-- Call the 2-3 `Next` until it reports false, collecting the yields. -/
def drainTT : Nat → List twoThreeNode → List (Option KV)
  | 0, _ => []
  | fuel + 1, s =>
    match ttNext s with
    | (none, _) => []
    | (some v, s2) => v :: drainTT fuel s2

/-! ### Invariants -/

/-- Real height of a binary subtree; an absent subtree counts as `-1`. -/
def btNode.hgt : btNode → Int
  | .nil => -1
  | .node _ l r _ => 1 + max l.hgt r.hgt

/-- Every stored height field equals the real height of its node. -/
def btNode.heightsOK : btNode → Bool
  | .nil => true
  | .node _ l r h => ((h : Int) == 1 + max l.hgt r.hgt) && l.heightsOK && r.heightsOK

/-- The AVL invariant over real heights: at every reachable node the heights
of the two subtrees differ by at most 1. -/
def btNode.balanced : btNode → Bool
  | .nil => true
  | .node _ l r _ => decide ((l.hgt - r.hgt).natAbs ≤ 1) && l.balanced && r.balanced

/-- Perfect-balance well-formedness of a 2-3 subtree at height `h`: every leaf
is at depth exactly `h`, every node is a 2-node or 3-node with the values its
kind requires present and, when internal, with its kind's children present;
leaves have no children at all. -/
def ttWF : twoThreeNode → Nat → Bool
  | .nil, _ => false
  | .node nt v1 v2 l m r, 0 =>
    l == .nil && m == .nil && r == .nil &&
    ((nt == 2 && v1.isSome) || (nt == 3 && v1.isSome && v2.isSome))
  | .node nt v1 v2 l m r, h + 1 =>
    (nt == 2 && v1.isSome && ttWF l h && ttWF m h) ||
    (nt == 3 && v1.isSome && v2.isSome && ttWF l h && ttWF m h && ttWF r h)

/-- Depths of all leaves of a 2-3 subtree, starting from depth `d`; only the
children designated by a node's kind are followed. -/
def leafDepths : twoThreeNode → Nat → List Nat
  | .nil, _ => []
  | .node nt _ _ l m r, d =>
    match l with
    | .nil => [d]
    | .node .. =>
      leafDepths l (d + 1) ++ leafDepths m (d + 1) ++
        (if nt == 3 then leafDepths r (d + 1) else [])

/-- Every reachable 2-3 node is a 2-node or 3-node, and an internal one has
exactly its kind's children present. -/
def nodesWellFormed : twoThreeNode → Bool
  | .nil => true
  | .node nt _ _ l m r =>
    match l with
    | .nil => nt == 2 || nt == 3
    | .node .. =>
      ((nt == 2 && !(m == .nil)) || (nt == 3 && !(m == .nil) && !(r == .nil))) &&
      nodesWellFormed l && nodesWellFormed m &&
      (if nt == 3 then nodesWellFormed r else true)

/-! ### Operation sequences -/

/-- A mutating public operation on a tree. -/
inductive TreeOp where
  | add (v : KV)
  | rem (v : KV)
  | clear
deriving DecidableEq, Repr

/-- One `BinarySearchTree` public mutation. -/
def bstStep (t : BinaryTree) : TreeOp → BinaryTree
  | .add v => BinarySearchTree.Add t v
  | .rem v => BinarySearchTree.Remove t v
  | .clear => BinaryTree.Clear t

/-- A `BinarySearchTree` after a sequence of public mutations from empty. -/
def runBST (ops : List TreeOp) : BinaryTree := ops.foldl bstStep BinaryTree.empty

/-- One `AVLTree` public mutation. -/
def avlStep (t : BinaryTree) : TreeOp → BinaryTree
  | .add v => AVLTree.Add t v
  | .rem v => AVLTree.Remove t v
  | .clear => BinaryTree.Clear t

/-- An `AVLTree` after a sequence of public mutations from empty. -/
def runAVL (ops : List TreeOp) : BinaryTree := ops.foldl avlStep BinaryTree.empty

/-- One `TwoThreeTree` public mutation. -/
def ttStep (t : TwoThreeTree) : TreeOp → TwoThreeTree
  | .add v => TwoThreeTree.Add t v
  | .rem v => TwoThreeTree.Remove t v
  | .clear => TwoThreeTree.Clear t

/-- A `TwoThreeTree` after a sequence of public mutations from empty. -/
def runTT (ops : List TreeOp) : TwoThreeTree := ops.foldl ttStep TwoThreeTree.empty

/-! ## Refinement of the `BinarySearchTree` operations to the list model -/

theorem btNode.inorder_eq_nil_iff (t : btNode) : t.inorder = [] ↔ t = .nil := by
  cases t <;> simp [btNode.inorder]

theorem btNode.size_eq_length (t : btNode) : t.size = t.inorder.length := by
  induction t with
  | nil => rfl
  | node v l r h ihl ihr =>
    simp only [btNode.size, btNode.inorder, List.length_append, List.length_cons, ihl, ihr]
    omega

theorem key_order_cases (v nv : KV) (h1 : ¬v.equal nv = true) (h2 : ¬v.less nv = true) :
    nv.key < v.key := by
  simp only [KV.equal, beq_iff_eq] at h1
  simp only [KV.less, decide_eq_true_eq] at h2
  omega

theorem bsNodeGet_eq_lookup (v : KV) (t : btNode) (h : kvSorted t.inorder) :
    bsNodeGet v t = lookupKey v.key t.inorder := by
  induction t with
  | nil => rfl
  | node nv l r hh ihl ihr =>
    simp only [btNode.inorder] at h ⊢
    obtain ⟨hA, hB, hAx, hxB, _⟩ := (kvSorted_append_iff _ _ _).mp h
    simp only [bsNodeGet]
    by_cases h1 : v.equal nv = true
    · have hk : v.key = nv.key := (KV.equal_iff _ _).mp h1
      rw [if_pos h1, lookupKey_append_eq v.key nv _ _ (fun a ha => hk ▸ hAx a ha) hk]
    · by_cases h2 : v.less nv = true
      · have hk : v.key < nv.key := (KV.less_iff _ _).mp h2
        rw [if_neg h1, if_pos h2,
          lookupKey_append_lt v.key nv _ _ (fun b hb => Nat.lt_trans hk (hxB b hb)) hk,
          ihl hA]
      · have hk : nv.key < v.key := key_order_cases v nv h1 h2
        rw [if_neg h1, if_neg h2,
          lookupKey_append_gt v.key nv _ _ (fun a ha => Nat.lt_trans (hAx a ha) hk) hk,
          ihr hB]

theorem bsNodeContains_eq_get (v : KV) (t : btNode) :
    bsNodeContains v t = (bsNodeGet v t).isSome := by
  induction t with
  | nil => rfl
  | node nv l r hh ihl ihr =>
    simp only [bsNodeContains, bsNodeGet]
    by_cases h1 : v.equal nv = true
    · simp [h1]
    · by_cases h2 : v.less nv = true
      · simp [h1, h2, ihl]
      · simp [h1, h2, ihr]

theorem bsNodeAdd_spec (v : KV) (t : btNode) (h : kvSorted t.inorder) :
    (bsNodeAdd v t).1.inorder = listInsert v t.inorder ∧
    ((bsNodeAdd v t).2 = true ↔ lookupKey v.key t.inorder = none) := by
  induction t with
  | nil => simp [bsNodeAdd, newBTNode, btNode.inorder, listInsert, lookupKey]
  | node nv l r hh ihl ihr =>
    simp only [btNode.inorder] at h ⊢
    obtain ⟨hA, hB, hAx, hxB, _⟩ := (kvSorted_append_iff _ _ _).mp h
    simp only [bsNodeAdd]
    by_cases h1 : v.equal nv = true
    · have hk : v.key = nv.key := (KV.equal_iff _ _).mp h1
      rw [if_pos h1]
      refine ⟨?_, ?_⟩
      · simp only [btNode.inorder]
        rw [listInsert_append_eq v nv _ _ (fun a ha => hk ▸ hAx a ha) hk]
      · simp [lookupKey_append_eq v.key nv _ _ (fun a ha => hk ▸ hAx a ha) hk]
    · by_cases h2 : v.less nv = true
      · have hk : v.key < nv.key := (KV.less_iff _ _).mp h2
        rw [if_neg h1, if_pos h2]
        obtain ⟨ih1, ih2⟩ := ihl hA
        refine ⟨?_, ?_⟩
        · simp only [btNode.inorder, ih1, listInsert_append_lt v nv _ _ hk]
        · rw [lookupKey_append_lt v.key nv _ _ (fun b hb => Nat.lt_trans hk (hxB b hb)) hk]
          exact ih2
      · have hk : nv.key < v.key := key_order_cases v nv h1 h2
        rw [if_neg h1, if_neg h2]
        obtain ⟨ih1, ih2⟩ := ihr hB
        have hAv : ∀ a ∈ l.inorder, a.key < v.key :=
          fun a ha => Nat.lt_trans (hAx a ha) hk
        refine ⟨?_, ?_⟩
        · simp only [btNode.inorder, ih1, listInsert_append_gt v nv _ _ hAv hk]
        · rw [lookupKey_append_gt v.key nv _ _ hAv hk]
          exact ih2

theorem bsRemoveLeftmost_inorder (t : btNode) (hne : t ≠ .nil) :
    t.inorder = (bsRemoveLeftmost t).1 :: (bsRemoveLeftmost t).2.inorder := by
  induction t using bsRemoveLeftmost.induct with
  | case1 => exact absurd rfl hne
  | case2 v r hh => simp [bsRemoveLeftmost, btNode.inorder]
  | case3 v lv ll lr lh r hh ih =>
    have hl := ih (by simp)
    simp only [bsRemoveLeftmost, btNode.inorder] at hl ⊢
    rw [hl]
    simp

theorem bsNodeRemove_spec (v : KV) (t : btNode) (h : kvSorted t.inorder) :
    (bsNodeRemove v t).1.inorder = listRemove v t.inorder ∧
    ((bsNodeRemove v t).2 = true ↔ (lookupKey v.key t.inorder).isSome = true) := by
  induction t with
  | nil => simp [bsNodeRemove, btNode.inorder, listRemove, lookupKey]
  | node nv l r hh ihl ihr =>
    simp only [btNode.inorder] at h ⊢
    obtain ⟨hA, hB, hAx, hxB, _⟩ := (kvSorted_append_iff _ _ _).mp h
    simp only [bsNodeRemove]
    by_cases h1 : v.equal nv = true
    · have hk : v.key = nv.key := (KV.equal_iff _ _).mp h1
      have hrm := listRemove_append_eq v nv l.inorder r.inorder
        (fun a ha => hk ▸ hAx a ha) hk
      have hlk := lookupKey_append_eq v.key nv l.inorder r.inorder
        (fun a ha => hk ▸ hAx a ha) hk
      rw [if_pos h1]
      cases l with
      | nil =>
        simp only [btNode.inorder, List.nil_append] at hrm hlk ⊢
        exact ⟨hrm.symm, by simp [hlk]⟩
      | node lv ll lr lh =>
        cases r with
        | nil =>
          refine ⟨?_, by simp [hlk]⟩
          show (btNode.node lv ll lr lh).inorder = _
          simp only [btNode.inorder] at hrm ⊢
          rw [hrm]
          simp
        | node rv rl rr rh =>
          refine ⟨?_, by simp [hlk]⟩
          have hrne : btNode.node rv rl rr rh ≠ .nil := by simp
          have hleft := bsRemoveLeftmost_inorder (btNode.node rv rl rr rh) hrne
          show (btNode.node (bsRemoveLeftmost (btNode.node rv rl rr rh)).1
            (btNode.node lv ll lr lh)
            (bsRemoveLeftmost (btNode.node rv rl rr rh)).2 hh).inorder = _
          simp only [btNode.inorder] at hrm hleft ⊢
          rw [hrm, hleft]
    · by_cases h2 : v.less nv = true
      · have hk : v.key < nv.key := (KV.less_iff _ _).mp h2
        rw [if_neg h1, if_pos h2]
        obtain ⟨ih1, ih2⟩ := ihl hA
        refine ⟨?_, ?_⟩
        · simp only [btNode.inorder, ih1, listRemove_append_lt v nv _ _ hk]
        · rw [lookupKey_append_lt v.key nv _ _ (fun b hb => Nat.lt_trans hk (hxB b hb)) hk]
          exact ih2
      · have hk : nv.key < v.key := key_order_cases v nv h1 h2
        rw [if_neg h1, if_neg h2]
        obtain ⟨ih1, ih2⟩ := ihr hB
        have hAv : ∀ a ∈ l.inorder, a.key < v.key :=
          fun a ha => Nat.lt_trans (hAx a ha) hk
        refine ⟨?_, ?_⟩
        · simp only [btNode.inorder, ih1, listRemove_append_gt v nv _ _ hAv hk]
        · rw [lookupKey_append_gt v.key nv _ _ hAv hk]
          exact ih2

/-! ## The `BinarySearchTree` representation invariant -/

/-- Invariant tying a binary search tree to its list model: the inorder
sequence has strictly increasing keys and `count` is its length. -/
def bstInv (t : BinaryTree) : Prop :=
  kvSorted t.root.inorder ∧ t.count = (t.root.inorder.length : Int)

theorem bstInv_empty : bstInv BinaryTree.empty := by
  constructor
  · simp [BinaryTree.empty, btNode.inorder, kvSorted]
  · simp [BinaryTree.empty, btNode.inorder]

theorem bstInv_add (t : BinaryTree) (v : KV) (h : bstInv t) :
    bstInv (BinarySearchTree.Add t v) ∧
    (BinarySearchTree.Add t v).root.inorder = listInsert v t.root.inorder := by
  obtain ⟨hs, hc⟩ := h
  cases hr : t.root with
  | nil =>
    rw [hr] at hs hc
    simp only [btNode.inorder, List.length_nil, Nat.cast_zero] at hc
    unfold BinarySearchTree.Add
    rw [hr]
    refine ⟨⟨?_, ?_⟩, ?_⟩
    · simp [newBTNode, btNode.inorder, kvSorted]
    · simp [newBTNode, btNode.inorder, hc]
    · simp [hr, newBTNode, btNode.inorder, listInsert]
  | node nv l r hh =>
    rw [hr] at hs hc
    have hspec := bsNodeAdd_spec v (btNode.node nv l r hh) hs
    unfold BinarySearchTree.Add
    rw [hr]
    refine ⟨⟨?_, ?_⟩, ?_⟩
    · simpa [hspec.1] using kvSorted_listInsert v _ hs
    · have hlen := length_listInsert v _ hs
      by_cases hlk : lookupKey v.key (btNode.node nv l r hh).inorder = none
      · have hp : (bsNodeAdd v (btNode.node nv l r hh)).2 = true := hspec.2.mpr hlk
        simp only [hp, if_pos, hspec.1, hlen, hlk, Option.isSome_none, Bool.false_eq_true,
          if_false, hc]
        push_cast
        ring
      · have hp : (bsNodeAdd v (btNode.node nv l r hh)).2 = false := by
          cases hpv : (bsNodeAdd v (btNode.node nv l r hh)).2
          · rfl
          · exact absurd (hspec.2.mp hpv) hlk
        have hsome : (lookupKey v.key (btNode.node nv l r hh).inorder).isSome = true := by
          cases hv : lookupKey v.key (btNode.node nv l r hh).inorder
          · exact absurd hv hlk
          · rfl
        simp only [hp, Bool.false_eq_true, if_false, hspec.1, hlen, hsome, if_pos, hc]
    · exact hspec.1

theorem bstInv_remove (t : BinaryTree) (v : KV) (h : bstInv t) :
    bstInv (BinarySearchTree.Remove t v) ∧
    (BinarySearchTree.Remove t v).root.inorder = listRemove v t.root.inorder := by
  obtain ⟨hs, hc⟩ := h
  have hspec := bsNodeRemove_spec v t.root hs
  unfold BinarySearchTree.Remove
  refine ⟨⟨?_, ?_⟩, ?_⟩
  · simpa [hspec.1] using kvSorted_listRemove v _ hs
  · have hlen := length_listRemove v _ hs
    by_cases hlk : (lookupKey v.key t.root.inorder).isSome = true
    · have hp : (bsNodeRemove v t.root).2 = true := hspec.2.mpr hlk
      obtain ⟨w, hw⟩ := Option.isSome_iff_exists.mp hlk
      have hmem := (lookupKey_key _ _ _ hw).1
      have hpos : 0 < t.root.inorder.length := List.length_pos.mpr (by
        rintro hnil
        rw [hnil] at hmem
        cases hmem)
      simp only [hp, if_pos, hspec.1, hlen, hlk, if_true, hc]
      omega
    · have hp : (bsNodeRemove v t.root).2 = false := by
        cases hpv : (bsNodeRemove v t.root).2
        · rfl
        · exact absurd (hspec.2.mp hpv) hlk
      simp only [hp, Bool.false_eq_true, if_false, hspec.1, hlen, hlk, hc]
  · exact hspec.1

theorem bstInv_clear (t : BinaryTree) : bstInv (BinaryTree.Clear t) := by
  constructor
  · simp [BinaryTree.Clear, btNode.inorder, kvSorted]
  · simp [BinaryTree.Clear, btNode.inorder]

theorem bstStep_inv (t : BinaryTree) (op : TreeOp) (h : bstInv t) :
    bstInv (bstStep t op) := by
  cases op with
  | add v => exact (bstInv_add t v h).1
  | rem v => exact (bstInv_remove t v h).1
  | clear => exact bstInv_clear t

theorem foldl_bstStep_inv (ops : List TreeOp) (t : BinaryTree) (h : bstInv t) :
    bstInv (ops.foldl bstStep t) := by
  induction ops generalizing t with
  | nil => exact h
  | cons op ops ih => exact ih _ (bstStep_inv t op h)

theorem runBST_inv (ops : List TreeOp) : bstInv (runBST ops) :=
  foldl_bstStep_inv ops BinaryTree.empty bstInv_empty

/-! ## Clone and subtree extraction (`binaryTree.go`) -/

theorem btNode.clone_inorder (t : btNode) : t.clone.inorder = t.inorder := by
  induction t with
  | nil => rfl
  | node v l r h ihl ihr => simp [btNode.clone, btNode.inorder, ihl, ihr]

theorem btNode.clone_size (t : btNode) : t.clone.size = t.size := by
  induction t with
  | nil => rfl
  | node v l r h ihl ihr => simp [btNode.clone, btNode.size, ihl, ihr]

/-- A node graph with every height field replaced by the zero value: the exact
shape-and-values copy `clone` produces. -/
def btNode.stripHeights : btNode → btNode
  | .nil => .nil
  | .node v l r _ => .node v l.stripHeights r.stripHeights 0

theorem btNode.clone_eq_strip (t : btNode) : t.clone = t.stripHeights := by
  induction t with
  | nil => rfl
  | node v l r h ihl ihr => simp [btNode.clone, btNode.stripHeights, ihl, ihr]

/-! ## AVL heights and balance -/

theorem btNode.hgt_ge_neg1 (t : btNode) : -1 ≤ t.hgt := by
  induction t with
  | nil => simp [btNode.hgt]
  | node v l r h ihl ihr =>
    have hl := Int.le_max_left l.hgt r.hgt
    simp only [btNode.hgt]
    omega

theorem btNode.hgt_nil : btNode.nil.hgt = -1 := rfl

theorem btNode.hgt_node (v : KV) (l r : btNode) (h0 : Nat) :
    (btNode.node v l r h0).hgt = 1 + max l.hgt r.hgt := rfl

theorem btNode.hgt_eq_neg1_iff (t : btNode) : t.hgt = -1 ↔ t = .nil := by
  cases t with
  | nil => simp [btNode.hgt]
  | node v l r h =>
    have hl := btNode.hgt_ge_neg1 l
    have hr := btNode.hgt_ge_neg1 r
    simp only [btNode.hgt_node]
    constructor
    · intro he; omega
    · intro he; cases he

theorem heightsOK_node_iff (v : KV) (l r : btNode) (h : Nat) :
    (btNode.node v l r h).heightsOK = true ↔
      (h : Int) = 1 + max l.hgt r.hgt ∧ l.heightsOK = true ∧ r.heightsOK = true := by
  simp [btNode.heightsOK, Bool.and_eq_true, and_assoc]

theorem balanced_node_iff (v : KV) (l r : btNode) (h : Nat) :
    (btNode.node v l r h).balanced = true ↔
      (l.hgt - r.hgt).natAbs ≤ 1 ∧ l.balanced = true ∧ r.balanced = true := by
  simp [btNode.balanced, Bool.and_eq_true, and_assoc]

theorem btNode.chI_eq_hgt (t : btNode) (h : t.heightsOK = true) : t.chI = t.hgt := by
  cases t with
  | nil => rfl
  | node v l r hh =>
    obtain ⟨h1, _, _⟩ := (heightsOK_node_iff v l r hh).mp h
    simp [btNode.chI, h1, btNode.hgt_node]

theorem btNode.setHeight_node (v : KV) (l r : btNode) (h0 : Nat) :
    (btNode.node v l r h0).setHeight = btNode.node v l r (max l.chI r.chI + 1).toNat := rfl

theorem btNode.inorder_node (v : KV) (l r : btNode) (h0 : Nat) :
    (btNode.node v l r h0).inorder = l.inorder ++ v :: r.inorder := rfl

theorem setHeight_spec (v : KV) (l r : btNode) (h0 : Nat)
    (hl : l.heightsOK = true) (hr : r.heightsOK = true) :
    (btNode.node v l r h0).setHeight.heightsOK = true ∧
    (btNode.node v l r h0).setHeight.hgt = 1 + max l.hgt r.hgt ∧
    (btNode.node v l r h0).setHeight.inorder = l.inorder ++ v :: r.inorder ∧
    ((btNode.node v l r h0).setHeight.balanced = true ↔
      ((l.hgt - r.hgt).natAbs ≤ 1 ∧ l.balanced = true ∧ r.balanced = true)) := by
  have hgl := btNode.hgt_ge_neg1 l
  have hgr := btNode.hgt_ge_neg1 r
  rw [btNode.setHeight_node, btNode.chI_eq_hgt l hl, btNode.chI_eq_hgt r hr]
  refine ⟨?_, ?_, ?_, ?_⟩
  · rw [heightsOK_node_iff]
    exact ⟨by omega, hl, hr⟩
  · rw [btNode.hgt_node]
  · rw [btNode.inorder_node]
  · rw [balanced_node_iff]

/-- `newAVLNode v nil nil` is a balanced, height-correct leaf. -/
theorem newAVLNode_leaf_spec (v : KV) :
    (newAVLNode v .nil .nil).heightsOK = true ∧
      (newAVLNode v .nil .nil).balanced = true ∧
      (newAVLNode v .nil .nil).hgt = 0 ∧
      (newAVLNode v .nil .nil).inorder = [v] := by
  have he : newAVLNode v .nil .nil = btNode.node v .nil .nil 0 := rfl
  rw [he]
  refine ⟨?_, ?_, ?_, ?_⟩
  · simp [btNode.heightsOK, btNode.hgt]
  · simp [btNode.balanced, btNode.hgt]
  · simp [btNode.hgt]
  · simp [btNode.inorder]

theorem lrArith (a b1 b2 c : Int)
    (ha : -1 ≤ a) (hb1 : -1 ≤ b1) (hb2 : -1 ≤ b2) (hc : -1 ≤ c)
    (hlb : a - (1 + max b1 b2) = -1)
    (hbal : (b1 - b2).natAbs ≤ 1)
    (hd2 : (1 + max a (1 + max b1 b2)) - c = 2) :
    ((1 + max a b1) - (1 + max b2 c)).natAbs ≤ 1 ∧
    (a - b1).natAbs ≤ 1 ∧ (b2 - c).natAbs ≤ 1 ∧
    1 + max (1 + max a b1) (1 + max b2 c) = max (1 + max a (1 + max b1 b2)) c := by
  omega

theorem rArith (a b c : Int)
    (ha : -1 ≤ a) (hb : -1 ≤ b) (hc : -1 ≤ c)
    (hbal : (a - b).natAbs ≤ 1) (hne : ¬(a - b = -1))
    (hd2 : (1 + max a b) - c = 2) :
    (a - (1 + max b c)).natAbs ≤ 1 ∧ (b - c).natAbs ≤ 1 ∧
    (1 + max a (1 + max b c) = 1 + max (1 + max a b) c ∨
     1 + max a (1 + max b c) = max (1 + max a b) c) := by
  omega

theorem rlArith (a b1 b2 c : Int)
    (ha : -1 ≤ a) (hb1 : -1 ≤ b1) (hb2 : -1 ≤ b2) (hc : -1 ≤ c)
    (hrb : (1 + max b1 b2) - c = 1)
    (hbal : (b1 - b2).natAbs ≤ 1)
    (hdm2 : a - (1 + max (1 + max b1 b2) c) = -2) :
    ((1 + max a b1) - (1 + max b2 c)).natAbs ≤ 1 ∧
    (a - b1).natAbs ≤ 1 ∧ (b2 - c).natAbs ≤ 1 ∧
    1 + max (1 + max a b1) (1 + max b2 c) = max a (1 + max (1 + max b1 b2) c) := by
  omega

theorem lArith (a b c : Int)
    (ha : -1 ≤ a) (hb : -1 ≤ b) (hc : -1 ≤ c)
    (hbal : (b - c).natAbs ≤ 1) (hne : ¬(b - c = 1))
    (hdm2 : a - (1 + max b c) = -2) :
    ((1 + max a b) - c).natAbs ≤ 1 ∧ (a - b).natAbs ≤ 1 ∧
    (1 + max (1 + max a b) c = 1 + max a (1 + max b c) ∨
     1 + max (1 + max a b) c = max a (1 + max b c)) := by
  omega

/-- The `LR` double-rotation case of `rebalance`, on explicit components. -/
theorem rotateLR_case (v lv lrv : KV) (ll lrl lrr r : btNode) (h0 lh : Nat)
    (hllOK : ll.heightsOK = true) (hlrlOK : lrl.heightsOK = true)
    (hlrrOK : lrr.heightsOK = true) (hrOK : r.heightsOK = true)
    (hllB : ll.balanced = true) (hlrlB : lrl.balanced = true)
    (hlrrB : lrr.balanced = true) (hrB : r.balanced = true)
    (hlb : ll.hgt - (1 + max lrl.hgt lrr.hgt) = -1)
    (hlrbal : (lrl.hgt - lrr.hgt).natAbs ≤ 1)
    (hd2 : (1 + max ll.hgt (1 + max lrl.hgt lrr.hgt)) - r.hgt = 2) :
    (btNode.node lrv (btNode.node lv ll lrl lh).setHeight
        ((btNode.node v lrr r 0).setHeight) h0).setHeight.heightsOK = true ∧
    (btNode.node lrv (btNode.node lv ll lrl lh).setHeight
        ((btNode.node v lrr r 0).setHeight) h0).setHeight.balanced = true ∧
    (btNode.node lrv (btNode.node lv ll lrl lh).setHeight
        ((btNode.node v lrr r 0).setHeight) h0).setHeight.inorder =
      (ll.inorder ++ lv :: (lrl.inorder ++ lrv :: lrr.inorder)) ++ v :: r.inorder ∧
    (btNode.node lrv (btNode.node lv ll lrl lh).setHeight
        ((btNode.node v lrr r 0).setHeight) h0).setHeight.hgt =
      max (1 + max ll.hgt (1 + max lrl.hgt lrr.hgt)) r.hgt := by
  obtain ⟨e1, e2, e3, e4⟩ := lrArith ll.hgt lrl.hgt lrr.hgt r.hgt
    (btNode.hgt_ge_neg1 ll) (btNode.hgt_ge_neg1 lrl) (btNode.hgt_ge_neg1 lrr)
    (btNode.hgt_ge_neg1 r) hlb hlrbal hd2
  obtain ⟨hAOK, hAh, hAin, hAbal⟩ := setHeight_spec lv ll lrl lh hllOK hlrlOK
  obtain ⟨hBOK, hBh, hBin, hBbal⟩ := setHeight_spec v lrr r 0 hlrrOK hrOK
  obtain ⟨hTOK, hTh, hTin, hTbal⟩ :=
    setHeight_spec lrv ((btNode.node lv ll lrl lh).setHeight)
      ((btNode.node v lrr r 0).setHeight) h0 hAOK hBOK
  refine ⟨hTOK, ?_, ?_, ?_⟩
  · rw [hTbal]
    exact ⟨by rw [hAh, hBh]; exact e1, hAbal.mpr ⟨e2, hllB, hlrlB⟩,
      hBbal.mpr ⟨e3, hlrrB, hrB⟩⟩
  · rw [hTin, hAin, hBin]
    simp
  · rw [hTh, hAh, hBh]
    exact e4

/-- The single `R` rotation case of `rebalance`, on explicit components. -/
theorem rotateR_case (v lv : KV) (ll lr r : btNode) (h0 : Nat)
    (hllOK : ll.heightsOK = true) (hlrOK : lr.heightsOK = true) (hrOK : r.heightsOK = true)
    (hllB : ll.balanced = true) (hlrB : lr.balanced = true) (hrB : r.balanced = true)
    (hlbal : (ll.hgt - lr.hgt).natAbs ≤ 1)
    (hlb : ¬(ll.hgt - lr.hgt = -1))
    (hd2 : (1 + max ll.hgt lr.hgt) - r.hgt = 2) :
    (btNode.node lv ll ((btNode.node v lr r 0).setHeight) h0).setHeight.heightsOK = true ∧
    (btNode.node lv ll ((btNode.node v lr r 0).setHeight) h0).setHeight.balanced = true ∧
    (btNode.node lv ll ((btNode.node v lr r 0).setHeight) h0).setHeight.inorder =
      (ll.inorder ++ lv :: lr.inorder) ++ v :: r.inorder ∧
    ((btNode.node lv ll ((btNode.node v lr r 0).setHeight) h0).setHeight.hgt =
        1 + max (1 + max ll.hgt lr.hgt) r.hgt ∨
      (btNode.node lv ll ((btNode.node v lr r 0).setHeight) h0).setHeight.hgt =
        max (1 + max ll.hgt lr.hgt) r.hgt) := by
  obtain ⟨e1, e2, e3⟩ := rArith ll.hgt lr.hgt r.hgt
    (btNode.hgt_ge_neg1 ll) (btNode.hgt_ge_neg1 lr) (btNode.hgt_ge_neg1 r) hlbal hlb hd2
  obtain ⟨hBOK, hBh, hBin, hBbal⟩ := setHeight_spec v lr r 0 hlrOK hrOK
  obtain ⟨hTOK, hTh, hTin, hTbal⟩ :=
    setHeight_spec lv ll ((btNode.node v lr r 0).setHeight) h0 hllOK hBOK
  refine ⟨hTOK, ?_, ?_, ?_⟩
  · rw [hTbal]
    exact ⟨by rw [hBh]; exact e1, hllB, hBbal.mpr ⟨e2, hlrB, hrB⟩⟩
  · rw [hTin, hBin]
    simp
  · rw [hTh, hBh]
    exact e3

/-- The `RL` double-rotation case of `rebalance`, on explicit components. -/
theorem rotateRL_case (v rv rlv : KV) (l rll rlr rr : btNode) (h0 rh : Nat)
    (hlOK : l.heightsOK = true) (hrllOK : rll.heightsOK = true)
    (hrlrOK : rlr.heightsOK = true) (hrrOK : rr.heightsOK = true)
    (hlB : l.balanced = true) (hrllB : rll.balanced = true)
    (hrlrB : rlr.balanced = true) (hrrB : rr.balanced = true)
    (hrb : (1 + max rll.hgt rlr.hgt) - rr.hgt = 1)
    (hrlbal : (rll.hgt - rlr.hgt).natAbs ≤ 1)
    (hdm2 : l.hgt - (1 + max (1 + max rll.hgt rlr.hgt) rr.hgt) = -2) :
    (btNode.node rlv ((btNode.node v l rll 0).setHeight)
        ((btNode.node rv rlr rr rh).setHeight) h0).setHeight.heightsOK = true ∧
    (btNode.node rlv ((btNode.node v l rll 0).setHeight)
        ((btNode.node rv rlr rr rh).setHeight) h0).setHeight.balanced = true ∧
    (btNode.node rlv ((btNode.node v l rll 0).setHeight)
        ((btNode.node rv rlr rr rh).setHeight) h0).setHeight.inorder =
      l.inorder ++ v :: ((rll.inorder ++ rlv :: rlr.inorder) ++ rv :: rr.inorder) ∧
    (btNode.node rlv ((btNode.node v l rll 0).setHeight)
        ((btNode.node rv rlr rr rh).setHeight) h0).setHeight.hgt =
      max l.hgt (1 + max (1 + max rll.hgt rlr.hgt) rr.hgt) := by
  obtain ⟨e1, e2, e3, e4⟩ := rlArith l.hgt rll.hgt rlr.hgt rr.hgt
    (btNode.hgt_ge_neg1 l) (btNode.hgt_ge_neg1 rll) (btNode.hgt_ge_neg1 rlr)
    (btNode.hgt_ge_neg1 rr) hrb hrlbal hdm2
  obtain ⟨hAOK, hAh, hAin, hAbal⟩ := setHeight_spec v l rll 0 hlOK hrllOK
  obtain ⟨hBOK, hBh, hBin, hBbal⟩ := setHeight_spec rv rlr rr rh hrlrOK hrrOK
  obtain ⟨hTOK, hTh, hTin, hTbal⟩ :=
    setHeight_spec rlv ((btNode.node v l rll 0).setHeight)
      ((btNode.node rv rlr rr rh).setHeight) h0 hAOK hBOK
  refine ⟨hTOK, ?_, ?_, ?_⟩
  · rw [hTbal]
    exact ⟨by rw [hAh, hBh]; exact e1, hAbal.mpr ⟨e2, hlB, hrllB⟩,
      hBbal.mpr ⟨e3, hrlrB, hrrB⟩⟩
  · rw [hTin, hAin, hBin]
    simp
  · rw [hTh, hAh, hBh]
    exact e4

/-- The single `L` rotation case of `rebalance`, on explicit components. -/
theorem rotateL_case (v rv : KV) (l rl rr : btNode) (h0 : Nat)
    (hlOK : l.heightsOK = true) (hrlOK : rl.heightsOK = true) (hrrOK : rr.heightsOK = true)
    (hlB : l.balanced = true) (hrlB : rl.balanced = true) (hrrB : rr.balanced = true)
    (hrbal : (rl.hgt - rr.hgt).natAbs ≤ 1)
    (hrb : ¬(rl.hgt - rr.hgt = 1))
    (hdm2 : l.hgt - (1 + max rl.hgt rr.hgt) = -2) :
    (btNode.node rv ((btNode.node v l rl 0).setHeight) rr h0).setHeight.heightsOK = true ∧
    (btNode.node rv ((btNode.node v l rl 0).setHeight) rr h0).setHeight.balanced = true ∧
    (btNode.node rv ((btNode.node v l rl 0).setHeight) rr h0).setHeight.inorder =
      l.inorder ++ v :: (rl.inorder ++ rv :: rr.inorder) ∧
    ((btNode.node rv ((btNode.node v l rl 0).setHeight) rr h0).setHeight.hgt =
        1 + max l.hgt (1 + max rl.hgt rr.hgt) ∨
      (btNode.node rv ((btNode.node v l rl 0).setHeight) rr h0).setHeight.hgt =
        max l.hgt (1 + max rl.hgt rr.hgt)) := by
  obtain ⟨e1, e2, e3⟩ := lArith l.hgt rl.hgt rr.hgt
    (btNode.hgt_ge_neg1 l) (btNode.hgt_ge_neg1 rl) (btNode.hgt_ge_neg1 rr) hrbal hrb hdm2
  obtain ⟨hAOK, hAh, hAin, hAbal⟩ := setHeight_spec v l rl 0 hlOK hrlOK
  obtain ⟨hTOK, hTh, hTin, hTbal⟩ :=
    setHeight_spec rv ((btNode.node v l rl 0).setHeight) rr h0 hAOK hrrOK
  refine ⟨hTOK, ?_, ?_, ?_⟩
  · rw [hTbal]
    exact ⟨by rw [hAh]; exact e1, hAbal.mpr ⟨e2, hlB, hrlB⟩, hrrB⟩
  · rw [hTin, hAin]
    simp
  · rw [hTh, hAh]
    exact e3

theorem rebalance_spec (v : KV) (l r : btNode) (h0 : Nat)
    (hlOK : l.heightsOK = true) (hrOK : r.heightsOK = true)
    (hlB : l.balanced = true) (hrB : r.balanced = true)
    (hd : (l.hgt - r.hgt).natAbs ≤ 2) :
    (btNode.node v l r h0).rebalance.heightsOK = true ∧
    (btNode.node v l r h0).rebalance.balanced = true ∧
    (btNode.node v l r h0).rebalance.inorder = l.inorder ++ v :: r.inorder ∧
    ((btNode.node v l r h0).rebalance.hgt = 1 + max l.hgt r.hgt ∨
      ((l.hgt - r.hgt).natAbs = 2 ∧
        (btNode.node v l r h0).rebalance.hgt = max l.hgt r.hgt)) := by
  have hbal : (btNode.node v l r h0).balance = l.hgt - r.hgt := by
    simp [btNode.balance, btNode.chI_eq_hgt l hlOK, btNode.chI_eq_hgt r hrOK]
  by_cases hd2 : l.hgt - r.hgt = 2
  · cases l with
    | nil =>
      exfalso
      have h1 := btNode.hgt_ge_neg1 r
      rw [btNode.hgt_nil] at hd2
      omega
    | node lv ll lr lh =>
      obtain ⟨hlh, hllOK, hlrOK⟩ := (heightsOK_node_iff lv ll lr lh).mp hlOK
      obtain ⟨hlbal, hllB, hlrB⟩ := (balanced_node_iff lv ll lr lh).mp hlB
      have hlbalEq : (btNode.node lv ll lr lh).balance = ll.hgt - lr.hgt := by
        simp [btNode.balance, btNode.chI_eq_hgt ll hllOK, btNode.chI_eq_hgt lr hlrOK]
      by_cases hlb : ll.hgt - lr.hgt = -1
      · cases lr with
        | nil =>
          exfalso
          have h1 := btNode.hgt_ge_neg1 ll
          rw [btNode.hgt_nil] at hlb
          omega
        | node lrv lrl lrr lrh =>
          obtain ⟨hlrh, hlrlOK, hlrrOK⟩ := (heightsOK_node_iff lrv lrl lrr lrh).mp hlrOK
          obtain ⟨hlrbal, hlrlB, hlrrB⟩ := (balanced_node_iff lrv lrl lrr lrh).mp hlrB
          have hrot : (btNode.node v (btNode.node lv ll (btNode.node lrv lrl lrr lrh) lh) r h0).rebalance
              = (btNode.node lrv (btNode.node lv ll lrl lh).setHeight
                  ((btNode.node v lrr r 0).setHeight) h0).setHeight := by
            simp only [btNode.rebalance, btNode.leftOf, hbal, hlbalEq]
            rw [if_pos hd2, if_pos hlb]
            simp only [btNode.rotateLR, newAVLNode, newBTNode]
          have el : (btNode.node lrv lrl lrr lrh).hgt = 1 + max lrl.hgt lrr.hgt := rfl
          have el2 : (btNode.node lv ll (btNode.node lrv lrl lrr lrh) lh).hgt
              = 1 + max ll.hgt (1 + max lrl.hgt lrr.hgt) := rfl
          obtain ⟨c1, c2, c3, c4⟩ := rotateLR_case v lv lrv ll lrl lrr r h0 lh
            hllOK hlrlOK hlrrOK hrOK hllB hlrlB hlrrB hrB
            (el ▸ hlb) hlrbal (el2 ▸ hd2)
          rw [hrot]
          refine ⟨c1, c2, ?_, ?_⟩
          · rw [c3]
            simp [btNode.inorder]
          · right
            refine ⟨by omega, ?_⟩
            rw [el2, c4]
      · cases lr with
        | nil =>
          have eh : (btNode.node lv ll btNode.nil lh).hgt
              = 1 + max ll.hgt btNode.nil.hgt := rfl
          obtain ⟨c1, c2, c3, c4⟩ := rotateR_case v lv ll .nil r h0
            hllOK (by rfl) hrOK hllB (by rfl) hrB hlbal hlb (eh ▸ hd2)
          have hrot : (btNode.node v (btNode.node lv ll .nil lh) r h0).rebalance
              = (btNode.node lv ll ((btNode.node v .nil r 0).setHeight) h0).setHeight := by
            simp only [btNode.rebalance, btNode.leftOf, hbal, hlbalEq]
            rw [if_pos hd2, if_neg hlb]
            simp only [btNode.rotateR, newAVLNode, newBTNode]
          rw [hrot]
          refine ⟨c1, c2, ?_, ?_⟩
          · rw [c3]
            simp [btNode.inorder]
          · rcases c4 with c | c
            · left; rw [eh, c]
            · right
              refine ⟨by omega, ?_⟩
              rw [eh, c]
        | node lrv lrl lrr lrh =>
          have eh : (btNode.node lv ll (btNode.node lrv lrl lrr lrh) lh).hgt
              = 1 + max ll.hgt (btNode.node lrv lrl lrr lrh).hgt := rfl
          obtain ⟨c1, c2, c3, c4⟩ := rotateR_case v lv ll (btNode.node lrv lrl lrr lrh) r h0
            hllOK hlrOK hrOK hllB hlrB hrB hlbal hlb (eh ▸ hd2)
          have hrot : (btNode.node v (btNode.node lv ll (btNode.node lrv lrl lrr lrh) lh) r h0).rebalance
              = (btNode.node lv ll
                  ((btNode.node v (btNode.node lrv lrl lrr lrh) r 0).setHeight) h0).setHeight := by
            simp only [btNode.rebalance, btNode.leftOf, hbal, hlbalEq]
            rw [if_pos hd2, if_neg hlb]
            simp only [btNode.rotateR, newAVLNode, newBTNode]
          rw [hrot]
          refine ⟨c1, c2, ?_, ?_⟩
          · rw [c3]
            simp [btNode.inorder]
          · rcases c4 with c | c
            · left; rw [eh, c]
            · right
              refine ⟨by omega, ?_⟩
              rw [eh, c]
  · by_cases hdm2 : l.hgt - r.hgt = -2
    · cases r with
      | nil =>
        exfalso
        have h1 := btNode.hgt_ge_neg1 l
        rw [btNode.hgt_nil] at hdm2
        omega
      | node rv rl rr rh =>
        obtain ⟨hrh, hrlOK, hrrOK⟩ := (heightsOK_node_iff rv rl rr rh).mp hrOK
        obtain ⟨hrbal, hrlB, hrrB⟩ := (balanced_node_iff rv rl rr rh).mp hrB
        have hrbalEq : (btNode.node rv rl rr rh).balance = rl.hgt - rr.hgt := by
          simp [btNode.balance, btNode.chI_eq_hgt rl hrlOK, btNode.chI_eq_hgt rr hrrOK]
        by_cases hrb : rl.hgt - rr.hgt = 1
        · cases rl with
          | nil =>
            exfalso
            have h1 := btNode.hgt_ge_neg1 rr
            rw [btNode.hgt_nil] at hrb
            omega
          | node rlv rll rlr rlh =>
            obtain ⟨hrlh, hrllOK, hrlrOK⟩ := (heightsOK_node_iff rlv rll rlr rlh).mp hrlOK
            obtain ⟨hrlbal, hrllB, hrlrB⟩ := (balanced_node_iff rlv rll rlr rlh).mp hrlB
            have hrot : (btNode.node v l (btNode.node rv (btNode.node rlv rll rlr rlh) rr rh) h0).rebalance
                = (btNode.node rlv ((btNode.node v l rll 0).setHeight)
                    ((btNode.node rv rlr rr rh).setHeight) h0).setHeight := by
              simp only [btNode.rebalance, btNode.rightOf, hbal, hrbalEq]
              rw [if_neg hd2, if_pos hdm2, if_pos hrb]
              simp only [btNode.rotateRL, newAVLNode, newBTNode]
            have el : (btNode.node rlv rll rlr rlh).hgt = 1 + max rll.hgt rlr.hgt := rfl
            have el2 : (btNode.node rv (btNode.node rlv rll rlr rlh) rr rh).hgt
                = 1 + max (1 + max rll.hgt rlr.hgt) rr.hgt := rfl
            obtain ⟨c1, c2, c3, c4⟩ := rotateRL_case v rv rlv l rll rlr rr h0 rh
              hlOK hrllOK hrlrOK hrrOK hlB hrllB hrlrB hrrB
              (el ▸ hrb) hrlbal (el2 ▸ hdm2)
            rw [hrot]
            refine ⟨c1, c2, ?_, ?_⟩
            · rw [c3]
              simp [btNode.inorder]
            · right
              refine ⟨by omega, ?_⟩
              rw [el2, c4]
        · cases rl with
          | nil =>
            have eh : (btNode.node rv btNode.nil rr rh).hgt
                = 1 + max btNode.nil.hgt rr.hgt := rfl
            obtain ⟨c1, c2, c3, c4⟩ := rotateL_case v rv l .nil rr h0
              hlOK (by rfl) hrrOK hlB (by rfl) hrrB hrbal hrb (eh ▸ hdm2)
            have hrot : (btNode.node v l (btNode.node rv .nil rr rh) h0).rebalance
                = (btNode.node rv ((btNode.node v l .nil 0).setHeight) rr h0).setHeight := by
              simp only [btNode.rebalance, btNode.rightOf, hbal, hrbalEq]
              rw [if_neg hd2, if_pos hdm2, if_neg hrb]
              simp only [btNode.rotateL, newAVLNode, newBTNode]
            rw [hrot]
            refine ⟨c1, c2, ?_, ?_⟩
            · rw [c3]
              simp [btNode.inorder]
            · rcases c4 with c | c
              · left; rw [eh, c]
              · right
                refine ⟨by omega, ?_⟩
                rw [eh, c]
          | node rlv rll rlr rlh =>
            have eh : (btNode.node rv (btNode.node rlv rll rlr rlh) rr rh).hgt
                = 1 + max (btNode.node rlv rll rlr rlh).hgt rr.hgt := rfl
            obtain ⟨c1, c2, c3, c4⟩ := rotateL_case v rv l (btNode.node rlv rll rlr rlh) rr h0
              hlOK hrlOK hrrOK hlB hrlB hrrB hrbal hrb (eh ▸ hdm2)
            have hrot : (btNode.node v l (btNode.node rv (btNode.node rlv rll rlr rlh) rr rh) h0).rebalance
                = (btNode.node rv
                    ((btNode.node v l (btNode.node rlv rll rlr rlh) 0).setHeight) rr h0).setHeight := by
              simp only [btNode.rebalance, btNode.rightOf, hbal, hrbalEq]
              rw [if_neg hd2, if_pos hdm2, if_neg hrb]
              simp only [btNode.rotateL, newAVLNode, newBTNode]
            rw [hrot]
            refine ⟨c1, c2, ?_, ?_⟩
            · rw [c3]
              simp [btNode.inorder]
            · rcases c4 with c | c
              · left; rw [eh, c]
              · right
                refine ⟨by omega, ?_⟩
                rw [eh, c]
    · have hrot : (btNode.node v l r h0).rebalance = (btNode.node v l r h0).setHeight := by
        simp only [btNode.rebalance, hbal]
        rw [if_neg hd2, if_neg hdm2]
      obtain ⟨hTOK, hTh, hTin, hTbal⟩ := setHeight_spec v l r h0 hlOK hrOK
      rw [hrot]
      refine ⟨hTOK, ?_, hTin, ?_⟩
      · rw [hTbal]
        exact ⟨by omega, hlB, hrB⟩
      · rw [hTh]
        left
        rfl

theorem growPre (hl hr hl2 : Int) (hb : (hl - hr).natAbs ≤ 1)
    (hg : hl2 = hl ∨ hl2 = hl + 1) : (hl2 - hr).natAbs ≤ 2 := by omega

theorem growPreR (hl hr hr2 : Int) (hb : (hl - hr).natAbs ≤ 1)
    (hg : hr2 = hr ∨ hr2 = hr + 1) : (hl - hr2).natAbs ≤ 2 := by omega

theorem growPost (hl hr hl2 res : Int) (hb : (hl - hr).natAbs ≤ 1)
    (hg : hl2 = hl ∨ hl2 = hl + 1)
    (hres : res = 1 + max hl2 hr ∨ ((hl2 - hr).natAbs = 2 ∧ res = max hl2 hr)) :
    res = 1 + max hl hr ∨ res = (1 + max hl hr) + 1 := by omega

theorem growPostR (hl hr hr2 res : Int) (hb : (hl - hr).natAbs ≤ 1)
    (hg : hr2 = hr ∨ hr2 = hr + 1)
    (hres : res = 1 + max hl hr2 ∨ ((hl - hr2).natAbs = 2 ∧ res = max hl hr2)) :
    res = 1 + max hl hr ∨ res = (1 + max hl hr) + 1 := by omega

theorem shrinkPre (hl hr hl2 : Int) (hb : (hl - hr).natAbs ≤ 1)
    (hg : hl2 = hl - 1 ∨ hl2 = hl) : (hl2 - hr).natAbs ≤ 2 := by omega

theorem shrinkPreR (hl hr hr2 : Int) (hb : (hl - hr).natAbs ≤ 1)
    (hg : hr2 = hr - 1 ∨ hr2 = hr) : (hl - hr2).natAbs ≤ 2 := by omega

theorem shrinkPost (hl hr hl2 res : Int) (hb : (hl - hr).natAbs ≤ 1)
    (hg : hl2 = hl - 1 ∨ hl2 = hl)
    (hres : res = 1 + max hl2 hr ∨ ((hl2 - hr).natAbs = 2 ∧ res = max hl2 hr)) :
    res = (1 + max hl hr) - 1 ∨ res = 1 + max hl hr := by omega

theorem shrinkPostR (hl hr hr2 res : Int) (hb : (hl - hr).natAbs ≤ 1)
    (hg : hr2 = hr - 1 ∨ hr2 = hr)
    (hres : res = 1 + max hl hr2 ∨ ((hl - hr2).natAbs = 2 ∧ res = max hl hr2)) :
    res = (1 + max hl hr) - 1 ∨ res = 1 + max hl hr := by omega

/-- `btNode.add` preserves the AVL invariants, inserts into the inorder list,
and grows the height by at most one. -/
theorem avlAdd_spec (v : KV) (t : btNode) :
    t.heightsOK = true → t.balanced = true → kvSorted t.inorder →
    (t.add v).heightsOK = true ∧ (t.add v).balanced = true ∧
    ((t.add v).inorder = if t = .nil then [] else listInsert v t.inorder) ∧
    ((t.add v).hgt = t.hgt ∨ (t.add v).hgt = t.hgt + 1) := by
  induction t using btNode.add.induct v with
  | case1 =>
    intro _ _ _
    exact ⟨rfl, rfl, by simp [btNode.add, btNode.inorder], Or.inl rfl⟩
  | case2 nv l r h h1 =>
    intro hOK hB hS
    obtain ⟨hOK1, hOK2, hOK3⟩ := (heightsOK_node_iff nv l r h).mp hOK
    obtain ⟨hB1, hB2, hB3⟩ := (balanced_node_iff nv l r h).mp hB
    have hred : (btNode.node nv l r h).add v = .node v l r h := by
      simp only [btNode.add, if_pos h1]
    rw [hred]
    have hk : v.key = nv.key := (KV.equal_iff _ _).mp h1
    simp only [btNode.inorder] at hS ⊢
    obtain ⟨hA, hB', hAx, hxB, _⟩ := (kvSorted_append_iff _ _ _).mp hS
    refine ⟨(heightsOK_node_iff v l r h).mpr ⟨hOK1, hOK2, hOK3⟩,
      (balanced_node_iff v l r h).mpr ⟨hB1, hB2, hB3⟩, ?_, Or.inl rfl⟩
    simp only [if_neg (by simp : btNode.node nv l r h ≠ btNode.nil)]
    rw [listInsert_append_eq v nv _ _ (fun a ha => hk ▸ hAx a ha) hk]
  | case3 nv r h h1 h2 =>
    intro hOK hB hS
    obtain ⟨hOK1, _, hOK3⟩ := (heightsOK_node_iff nv .nil r h).mp hOK
    obtain ⟨hB1, _, hB3⟩ := (balanced_node_iff nv .nil r h).mp hB
    have hred : (btNode.node nv .nil r h).add v
        = (btNode.node nv (newAVLNode v .nil .nil) r h).setHeight := by
      simp only [btNode.add, if_neg h1, if_pos h2]
    rw [hred]
    obtain ⟨hlfOK, hlfB, hlfH, hlfIn⟩ := newAVLNode_leaf_spec v
    obtain ⟨hTOK, hTh, hTin, hTbal⟩ :=
      setHeight_spec nv (newAVLNode v .nil .nil) r h hlfOK hOK3
    have hk : v.key < nv.key := (KV.less_iff _ _).mp h2
    rw [btNode.hgt_nil] at hB1
    have hgr := btNode.hgt_ge_neg1 r
    refine ⟨hTOK, ?_, ?_, ?_⟩
    · rw [hTbal, hlfH]
      exact ⟨by omega, hlfB, hB3⟩
    · rw [hTin, hlfIn]
      simp only [if_neg (by simp : btNode.node nv btNode.nil r h ≠ btNode.nil),
        btNode.inorder, List.nil_append]
      simp [listInsert, Nat.ne_of_lt hk, hk]
    · rw [hTh, hlfH, btNode.hgt_node, btNode.hgt_nil]
      omega
  | case4 nv r h h1 h2 lv ll lr lh ih =>
    intro hOK hB hS
    obtain ⟨hOK1, hOK2, hOK3⟩ := (heightsOK_node_iff nv _ r h).mp hOK
    obtain ⟨hB1, hB2, hB3⟩ := (balanced_node_iff nv _ r h).mp hB
    simp only [btNode.inorder] at hS
    obtain ⟨hA, hB', hAx, hxB, _⟩ := (kvSorted_append_iff _ _ _).mp hS
    obtain ⟨ihOK, ihB, ihIn, ihH⟩ := ih hOK2 hB2 hA
    rw [if_neg (by simp)] at ihIn
    have hred : (btNode.node nv (btNode.node lv ll lr lh) r h).add v
        = (btNode.node nv ((btNode.node lv ll lr lh).add v) r h).rebalance := by
      simp only [btNode.add, if_neg h1, if_pos h2]
    rw [hred]
    have hpre := growPre (btNode.node lv ll lr lh).hgt r.hgt
      ((btNode.node lv ll lr lh).add v).hgt hB1 ihH
    obtain ⟨c1, c2, c3, c4⟩ := rebalance_spec nv ((btNode.node lv ll lr lh).add v) r h
      ihOK hOK3 ihB hB3 hpre
    have hk : v.key < nv.key := (KV.less_iff _ _).mp h2
    refine ⟨c1, c2, ?_, ?_⟩
    · rw [c3, ihIn]
      simp only [if_neg (by simp : btNode.node nv (btNode.node lv ll lr lh) r h ≠ btNode.nil),
        btNode.inorder]
      rw [listInsert_append_lt v nv _ _ hk]
    · rw [btNode.hgt_node]
      exact growPost (btNode.node lv ll lr lh).hgt r.hgt
        ((btNode.node lv ll lr lh).add v).hgt _ hB1 ihH c4
  | case5 nv l h h1 h2 =>
    intro hOK hB hS
    obtain ⟨hOK1, hOK2, _⟩ := (heightsOK_node_iff nv l .nil h).mp hOK
    obtain ⟨hB1, hB2, _⟩ := (balanced_node_iff nv l .nil h).mp hB
    have hred : (btNode.node nv l .nil h).add v
        = (btNode.node nv l (newAVLNode v .nil .nil) h).setHeight := by
      simp only [btNode.add, if_neg h1, if_neg h2]
    rw [hred]
    obtain ⟨hlfOK, hlfB, hlfH, hlfIn⟩ := newAVLNode_leaf_spec v
    obtain ⟨hTOK, hTh, hTin, hTbal⟩ :=
      setHeight_spec nv l (newAVLNode v .nil .nil) h hOK2 hlfOK
    have hk : nv.key < v.key := key_order_cases v nv h1 h2
    rw [btNode.hgt_nil] at hB1
    have hgl := btNode.hgt_ge_neg1 l
    simp only [btNode.inorder] at hS
    obtain ⟨hA, _, hAx, _, _⟩ := (kvSorted_append_iff _ _ _).mp hS
    refine ⟨hTOK, ?_, ?_, ?_⟩
    · rw [hTbal, hlfH]
      exact ⟨by omega, hB2, hlfB⟩
    · rw [hTin, hlfIn]
      simp only [if_neg (by simp : btNode.node nv l btNode.nil h ≠ btNode.nil),
        btNode.inorder]
      rw [listInsert_append_gt v nv _ _ (fun a ha => Nat.lt_trans (hAx a ha) hk) hk]
      simp [listRemove, listInsert]
    · rw [hTh, hlfH, btNode.hgt_node, btNode.hgt_nil]
      omega
  | case6 nv l h h1 h2 rv rl rr rh ih =>
    intro hOK hB hS
    obtain ⟨hOK1, hOK2, hOK3⟩ := (heightsOK_node_iff nv l _ h).mp hOK
    obtain ⟨hB1, hB2, hB3⟩ := (balanced_node_iff nv l _ h).mp hB
    simp only [btNode.inorder] at hS
    obtain ⟨hA, hB', hAx, hxB, _⟩ := (kvSorted_append_iff _ _ _).mp hS
    obtain ⟨ihOK, ihB, ihIn, ihH⟩ := ih hOK3 hB3 hB'
    rw [if_neg (by simp)] at ihIn
    have hred : (btNode.node nv l (btNode.node rv rl rr rh) h).add v
        = (btNode.node nv l ((btNode.node rv rl rr rh).add v) h).rebalance := by
      simp only [btNode.add, if_neg h1, if_neg h2]
    rw [hred]
    have hpre := growPreR l.hgt (btNode.node rv rl rr rh).hgt
      ((btNode.node rv rl rr rh).add v).hgt hB1 ihH
    obtain ⟨c1, c2, c3, c4⟩ := rebalance_spec nv l ((btNode.node rv rl rr rh).add v) h
      hOK2 ihOK hB2 ihB hpre
    have hk : nv.key < v.key := key_order_cases v nv h1 h2
    refine ⟨c1, c2, ?_, ?_⟩
    · rw [c3, ihIn]
      simp only [if_neg (by simp : btNode.node nv l (btNode.node rv rl rr rh) h ≠ btNode.nil),
        btNode.inorder]
      rw [listInsert_append_gt v nv _ _ (fun a ha => Nat.lt_trans (hAx a ha) hk) hk]
    · rw [btNode.hgt_node]
      exact growPostR l.hgt (btNode.node rv rl rr rh).hgt
        ((btNode.node rv rl rr rh).add v).hgt _ hB1 ihH c4

/-- `btNode.removeSuccessor` removes exactly the leftmost (inorder-first)
value, preserving the AVL invariants and shrinking the height by at most 1. -/
theorem removeSuccessor_spec (t : btNode) :
    t ≠ .nil → t.heightsOK = true → t.balanced = true →
    t.removeSuccessor.2.heightsOK = true ∧ t.removeSuccessor.2.balanced = true ∧
    t.inorder = t.removeSuccessor.1 :: t.removeSuccessor.2.inorder ∧
    (t.removeSuccessor.2.hgt = t.hgt - 1 ∨ t.removeSuccessor.2.hgt = t.hgt) := by
  induction t using btNode.removeSuccessor.induct with
  | case1 => intro hne _ _; exact absurd rfl hne
  | case2 nv r h =>
    intro _ hOK hB
    obtain ⟨_, _, hOK3⟩ := (heightsOK_node_iff nv .nil r h).mp hOK
    obtain ⟨hB1, _, hB3⟩ := (balanced_node_iff nv .nil r h).mp hB
    have hred1 : (btNode.node nv .nil r h).removeSuccessor.1 = nv := by
      simp only [btNode.removeSuccessor]
    have hred2 : (btNode.node nv .nil r h).removeSuccessor.2 = r := by
      simp only [btNode.removeSuccessor]
    rw [hred1, hred2]
    rw [btNode.hgt_nil] at hB1
    have hgr := btNode.hgt_ge_neg1 r
    refine ⟨hOK3, hB3, by simp [btNode.inorder], ?_⟩
    rw [btNode.hgt_node, btNode.hgt_nil]
    omega
  | case3 nv r h lv ll lr lh ih =>
    intro _ hOK hB
    obtain ⟨hOK1, hOK2, hOK3⟩ := (heightsOK_node_iff nv _ r h).mp hOK
    obtain ⟨hB1, hB2, hB3⟩ := (balanced_node_iff nv _ r h).mp hB
    obtain ⟨ihOK, ihB, ihIn, ihH⟩ := ih (by simp) hOK2 hB2
    have hred1 : (btNode.node nv (btNode.node lv ll lr lh) r h).removeSuccessor.1
        = (btNode.node lv ll lr lh).removeSuccessor.1 := by
      simp only [btNode.removeSuccessor]
    have hred2 : (btNode.node nv (btNode.node lv ll lr lh) r h).removeSuccessor.2
        = (btNode.node nv (btNode.node lv ll lr lh).removeSuccessor.2 r h).rebalance := by
      simp only [btNode.removeSuccessor]
    rw [hred1, hred2]
    have hpre := shrinkPre (btNode.node lv ll lr lh).hgt r.hgt
      (btNode.node lv ll lr lh).removeSuccessor.2.hgt hB1 ihH
    obtain ⟨c1, c2, c3, c4⟩ := rebalance_spec nv
      ((btNode.node lv ll lr lh).removeSuccessor.2) r h ihOK hOK3 ihB hB3 hpre
    refine ⟨c1, c2, ?_, ?_⟩
    · rw [c3, btNode.inorder_node nv (btNode.node lv ll lr lh) r h, ihIn]
      simp
    · rw [btNode.hgt_node]
      exact shrinkPost (btNode.node lv ll lr lh).hgt r.hgt
        (btNode.node lv ll lr lh).removeSuccessor.2.hgt _ hB1 ihH c4

/-- `btNode.remove` preserves the AVL invariants, removes the value with the
matching key from the inorder list, and shrinks the height by at most 1. -/
theorem avlRemove_spec (v : KV) (t : btNode) :
    t.heightsOK = true → t.balanced = true → kvSorted t.inorder →
    (t.remove v).heightsOK = true ∧ (t.remove v).balanced = true ∧
    (t.remove v).inorder = listRemove v t.inorder ∧
    ((t.remove v).hgt = t.hgt - 1 ∨ (t.remove v).hgt = t.hgt) := by
  induction t using btNode.remove.induct v with
  | case1 =>
    intro _ _ _
    exact ⟨rfl, rfl, by simp [btNode.remove, btNode.inorder, listRemove], Or.inr rfl⟩
  | case2 nv h h1 r =>
    intro hOK hB hS
    obtain ⟨_, _, hOK3⟩ := (heightsOK_node_iff nv .nil r h).mp hOK
    obtain ⟨hB1, _, hB3⟩ := (balanced_node_iff nv .nil r h).mp hB
    have hred : (btNode.node nv .nil r h).remove v = r := by
      simp only [btNode.remove, if_pos h1]
    rw [hred]
    have hk : v.key = nv.key := (KV.equal_iff _ _).mp h1
    rw [btNode.hgt_nil] at hB1
    have hgr := btNode.hgt_ge_neg1 r
    refine ⟨hOK3, hB3, ?_, ?_⟩
    · simp [btNode.inorder, listRemove, hk]
    · rw [btNode.hgt_node, btNode.hgt_nil]
      omega
  | case3 nv h h1 lv ll lr lh =>
    intro hOK hB hS
    obtain ⟨_, hOK2, _⟩ := (heightsOK_node_iff nv _ .nil h).mp hOK
    obtain ⟨hB1, hB2, _⟩ := (balanced_node_iff nv _ .nil h).mp hB
    have hred : (btNode.node nv (btNode.node lv ll lr lh) .nil h).remove v
        = btNode.node lv ll lr lh := by
      simp only [btNode.remove, if_pos h1]
    rw [hred]
    have hk : v.key = nv.key := (KV.equal_iff _ _).mp h1
    simp only [btNode.inorder] at hS
    obtain ⟨hA, _, hAx, _, _⟩ := (kvSorted_append_iff _ _ _).mp hS
    rw [btNode.hgt_nil] at hB1
    have hgl := btNode.hgt_ge_neg1 (btNode.node lv ll lr lh)
    refine ⟨hOK2, hB2, ?_, ?_⟩
    · simp only [btNode.inorder]
      rw [listRemove_append_eq v nv _ _ (fun a ha => hk ▸ hAx a ha) hk]
      simp
    · have e : (btNode.node nv (btNode.node lv ll lr lh) btNode.nil h).hgt
          = 1 + max (btNode.node lv ll lr lh).hgt (-1) := rfl
      rw [e]
      omega
  | case4 nv h h1 lv ll lr lh rv rl rr rh =>
    intro hOK hB hS
    obtain ⟨hOK1, hOK2, hOK3⟩ := (heightsOK_node_iff nv _ _ h).mp hOK
    obtain ⟨hB1, hB2, hB3⟩ := (balanced_node_iff nv _ _ h).mp hB
    obtain ⟨sOK, sB, sIn, sH⟩ :=
      removeSuccessor_spec (btNode.node rv rl rr rh) (by simp) hOK3 hB3
    have hred : (btNode.node nv (btNode.node lv ll lr lh) (btNode.node rv rl rr rh) h).remove v
        = (btNode.node (btNode.node rv rl rr rh).removeSuccessor.1
            (btNode.node lv ll lr lh)
            (btNode.node rv rl rr rh).removeSuccessor.2 h).rebalance := by
      simp only [btNode.remove, if_pos h1]
    rw [hred]
    have hpre := shrinkPreR (btNode.node lv ll lr lh).hgt (btNode.node rv rl rr rh).hgt
      (btNode.node rv rl rr rh).removeSuccessor.2.hgt hB1 sH
    obtain ⟨c1, c2, c3, c4⟩ := rebalance_spec
      ((btNode.node rv rl rr rh).removeSuccessor.1)
      (btNode.node lv ll lr lh)
      ((btNode.node rv rl rr rh).removeSuccessor.2) h hOK2 sOK hB2 sB hpre
    have hk : v.key = nv.key := (KV.equal_iff _ _).mp h1
    simp only [btNode.inorder] at hS
    obtain ⟨hA, _, hAx, _, _⟩ := (kvSorted_append_iff _ _ _).mp hS
    refine ⟨c1, c2, ?_, ?_⟩
    · rw [c3]
      simp only [btNode.inorder]
      rw [listRemove_append_eq v nv _ _ (fun a ha => hk ▸ hAx a ha) hk]
      simp only [btNode.inorder] at sIn
      rw [← sIn]
    · rw [btNode.hgt_node]
      exact shrinkPostR (btNode.node lv ll lr lh).hgt (btNode.node rv rl rr rh).hgt
        (btNode.node rv rl rr rh).removeSuccessor.2.hgt _ hB1 sH c4
  | case5 nv r h h1 h2 =>
    intro hOK hB hS
    have hred : (btNode.node nv .nil r h).remove v = btNode.node nv .nil r h := by
      simp only [btNode.remove, if_neg h1, if_pos h2]
    rw [hred]
    have hk : v.key < nv.key := (KV.less_iff _ _).mp h2
    refine ⟨hOK, hB, ?_, Or.inr rfl⟩
    simp [btNode.inorder, listRemove, Nat.ne_of_lt hk, hk]
  | case6 nv r h h1 h2 lv ll lr lh ih =>
    intro hOK hB hS
    obtain ⟨hOK1, hOK2, hOK3⟩ := (heightsOK_node_iff nv _ r h).mp hOK
    obtain ⟨hB1, hB2, hB3⟩ := (balanced_node_iff nv _ r h).mp hB
    simp only [btNode.inorder] at hS
    obtain ⟨hA, hB', hAx, hxB, _⟩ := (kvSorted_append_iff _ _ _).mp hS
    obtain ⟨ihOK, ihB, ihIn, ihH⟩ := ih hOK2 hB2 hA
    have hred : (btNode.node nv (btNode.node lv ll lr lh) r h).remove v
        = (btNode.node nv ((btNode.node lv ll lr lh).remove v) r h).rebalance := by
      simp only [btNode.remove, if_neg h1, if_pos h2]
    rw [hred]
    have hpre := shrinkPre (btNode.node lv ll lr lh).hgt r.hgt
      ((btNode.node lv ll lr lh).remove v).hgt hB1 ihH
    obtain ⟨c1, c2, c3, c4⟩ := rebalance_spec nv ((btNode.node lv ll lr lh).remove v) r h
      ihOK hOK3 ihB hB3 hpre
    have hk : v.key < nv.key := (KV.less_iff _ _).mp h2
    refine ⟨c1, c2, ?_, ?_⟩
    · rw [c3, ihIn]
      simp only [btNode.inorder]
      rw [listRemove_append_lt v nv _ _ hk]
    · rw [btNode.hgt_node]
      exact shrinkPost (btNode.node lv ll lr lh).hgt r.hgt
        ((btNode.node lv ll lr lh).remove v).hgt _ hB1 ihH c4
  | case7 nv l h h1 h2 =>
    intro hOK hB hS
    have hred : (btNode.node nv l .nil h).remove v = btNode.node nv l .nil h := by
      simp only [btNode.remove, if_neg h1, if_neg h2]
    rw [hred]
    have hk : nv.key < v.key := key_order_cases v nv h1 h2
    simp only [btNode.inorder] at hS
    obtain ⟨hA, _, hAx, _, _⟩ := (kvSorted_append_iff _ _ _).mp hS
    refine ⟨hOK, hB, ?_, Or.inr rfl⟩
    simp only [btNode.inorder]
    rw [listRemove_append_gt v nv _ _ (fun a ha => Nat.lt_trans (hAx a ha) hk) hk]
    simp [listRemove]
  | case8 nv l h h1 h2 rv rl rr rh ih =>
    intro hOK hB hS
    obtain ⟨hOK1, hOK2, hOK3⟩ := (heightsOK_node_iff nv l _ h).mp hOK
    obtain ⟨hB1, hB2, hB3⟩ := (balanced_node_iff nv l _ h).mp hB
    simp only [btNode.inorder] at hS
    obtain ⟨hA, hB', hAx, hxB, _⟩ := (kvSorted_append_iff _ _ _).mp hS
    obtain ⟨ihOK, ihB, ihIn, ihH⟩ := ih hOK3 hB3 hB'
    have hred : (btNode.node nv l (btNode.node rv rl rr rh) h).remove v
        = (btNode.node nv l ((btNode.node rv rl rr rh).remove v) h).rebalance := by
      simp only [btNode.remove, if_neg h1, if_neg h2]
    rw [hred]
    have hpre := shrinkPreR l.hgt (btNode.node rv rl rr rh).hgt
      ((btNode.node rv rl rr rh).remove v).hgt hB1 ihH
    obtain ⟨c1, c2, c3, c4⟩ := rebalance_spec nv l ((btNode.node rv rl rr rh).remove v) h
      hOK2 ihOK hB2 ihB hpre
    have hk : nv.key < v.key := key_order_cases v nv h1 h2
    refine ⟨c1, c2, ?_, ?_⟩
    · rw [c3, ihIn]
      simp only [btNode.inorder]
      rw [listRemove_append_gt v nv _ _ (fun a ha => Nat.lt_trans (hAx a ha) hk) hk]
    · rw [btNode.hgt_node]
      exact shrinkPostR l.hgt (btNode.node rv rl rr rh).hgt
        ((btNode.node rv rl rr rh).remove v).hgt _ hB1 ihH c4

/-! ## The `AVLTree` representation invariant -/

/-- AVL representation invariant: stored heights are correct, every node is
height-balanced, and the inorder sequence is sorted. -/
def avlInv (t : BinaryTree) : Prop :=
  t.root.heightsOK = true ∧ t.root.balanced = true ∧ kvSorted t.root.inorder

theorem avlInv_empty : avlInv BinaryTree.empty :=
  ⟨rfl, rfl, List.Pairwise.nil⟩

theorem avlInv_add (t : BinaryTree) (v : KV) (h : avlInv t) :
    avlInv (AVLTree.Add t v) ∧
    (AVLTree.Add t v).root.inorder = listInsert v t.root.inorder := by
  obtain ⟨hOK, hB, hS⟩ := h
  cases hr : t.root with
  | nil =>
    unfold AVLTree.Add
    rw [hr]
    obtain ⟨c1, c2, c3, c4⟩ := newAVLNode_leaf_spec v
    refine ⟨⟨c1, c2, ?_⟩, ?_⟩
    · rw [c4]
      simp [kvSorted]
    · rw [c4]
      simp [btNode.inorder, listInsert]
  | node nv l r hh =>
    rw [hr] at hOK hB hS
    obtain ⟨c1, c2, c3, c4⟩ := avlAdd_spec v _ hOK hB hS
    rw [if_neg (by simp)] at c3
    unfold AVLTree.Add
    rw [hr]
    refine ⟨⟨c1, c2, ?_⟩, c3⟩
    rw [c3]
    exact kvSorted_listInsert v _ hS

theorem avlInv_remove (t : BinaryTree) (v : KV) (h : avlInv t) :
    avlInv (AVLTree.Remove t v) ∧
    (AVLTree.Remove t v).root.inorder = listRemove v t.root.inorder := by
  obtain ⟨hOK, hB, hS⟩ := h
  unfold AVLTree.Remove
  by_cases hc : BinarySearchTree.Contains t v = true
  · rw [if_pos hc]
    obtain ⟨c1, c2, c3, c4⟩ := avlRemove_spec v t.root hOK hB hS
    refine ⟨⟨c1, c2, ?_⟩, c3⟩
    rw [c3]
    exact kvSorted_listRemove v _ hS
  · rw [if_neg hc]
    have hns : (lookupKey v.key t.root.inorder).isSome = false := by
      cases hv : (lookupKey v.key t.root.inorder).isSome
      · rfl
      · exfalso
        apply hc
        show bsNodeContains v t.root = true
        rw [bsNodeContains_eq_get v t.root, bsNodeGet_eq_lookup v t.root hS]
        exact hv
    have hnone : ∀ a ∈ t.root.inorder, a.key ≠ v.key := by
      intro a ha hak
      have : (lookupKey v.key t.root.inorder).isSome = true :=
        (lookupKey_isSome_iff _ _).mpr ⟨a, ha, hak⟩
      rw [hns] at this
      cases this
    exact ⟨⟨hOK, hB, hS⟩, (listRemove_not_mem v _ hnone).symm⟩

theorem avlInv_clear (t : BinaryTree) : avlInv (BinaryTree.Clear t) :=
  ⟨rfl, rfl, List.Pairwise.nil⟩

theorem avlStep_inv (t : BinaryTree) (op : TreeOp) (h : avlInv t) :
    avlInv (avlStep t op) := by
  cases op with
  | add v => exact (avlInv_add t v h).1
  | rem v => exact (avlInv_remove t v h).1
  | clear => exact avlInv_clear t

theorem foldl_avlStep_inv (ops : List TreeOp) (t : BinaryTree) (h : avlInv t) :
    avlInv (ops.foldl avlStep t) := by
  induction ops generalizing t with
  | nil => exact h
  | cons op ops ih => exact ih _ (avlStep_inv t op h)

theorem runAVL_inv (ops : List TreeOp) : avlInv (runAVL ops) :=
  foldl_avlStep_inv ops BinaryTree.empty avlInv_empty

/-! ## 2-3 tree well-formedness infrastructure -/

/-- Result state of a recursive 2-3 deletion at a height-`h` slot: either a
well-formed subtree, or a transient 1-node wrapping the surviving content in
its `left` field (with the stale leaf fields `left`/`right` nil at height 0,
as the repairs require). -/
def uwfB (t : twoThreeNode) (h : Nat) : Bool :=
  ttWF t h ||
  (t.typeOf == 1 &&
    match h with
    | 0 => t.leftC == twoThreeNode.nil && t.rightC == twoThreeNode.nil
    | h0 + 1 => ttWF t.leftC h0)

/-- The value sequence a deletion-result stands for: a 1-node stands for the
subtree in its `left` field. -/
def uvals (t : twoThreeNode) : List KV :=
  if t.typeOf == 1 then t.leftC.vals else t.vals

theorem ttWF_zero_iff (nt : Nat) (v1 v2 : Option KV) (l m r : twoThreeNode) :
    ttWF (.node nt v1 v2 l m r) 0 = true ↔
      l = .nil ∧ m = .nil ∧ r = .nil ∧
      ((nt = 2 ∧ v1.isSome = true) ∨ (nt = 3 ∧ v1.isSome = true ∧ v2.isSome = true)) := by
  simp [ttWF, Bool.and_eq_true, Bool.or_eq_true, and_assoc]

theorem ttWF_succ_iff (nt : Nat) (v1 v2 : Option KV) (l m r : twoThreeNode) (h : Nat) :
    ttWF (.node nt v1 v2 l m r) (h + 1) = true ↔
      (nt = 2 ∧ v1.isSome = true ∧ ttWF l h = true ∧ ttWF m h = true) ∨
      (nt = 3 ∧ v1.isSome = true ∧ v2.isSome = true ∧
        ttWF l h = true ∧ ttWF m h = true ∧ ttWF r h = true) := by
  simp [ttWF, Bool.and_eq_true, Bool.or_eq_true, and_assoc]

theorem ttWF_ne_nil (t : twoThreeNode) (h : Nat) (hwf : ttWF t h = true) : t ≠ .nil := by
  intro he
  rw [he] at hwf
  cases h <;> simp [ttWF] at hwf

theorem ttWF_typeOf (t : twoThreeNode) (h : Nat) (hwf : ttWF t h = true) :
    t.typeOf = 2 ∨ t.typeOf = 3 := by
  cases t with
  | nil => exact absurd rfl (ttWF_ne_nil _ _ hwf)
  | node nt v1 v2 l m r =>
    cases h with
    | zero =>
      obtain ⟨_, _, _, hk⟩ := (ttWF_zero_iff nt v1 v2 l m r).mp hwf
      rcases hk with ⟨h2, _⟩ | ⟨h3, _⟩
      · exact Or.inl h2
      · exact Or.inr h3
    | succ h0 =>
      rcases (ttWF_succ_iff nt v1 v2 l m r h0).mp hwf with ⟨h2, _⟩ | ⟨h3, _⟩
      · exact Or.inl h2
      · exact Or.inr h3

theorem ttWF_uwfB (t : twoThreeNode) (h : Nat) (hwf : ttWF t h = true) :
    uwfB t h = true := by
  simp [uwfB, hwf]

/-- `vals` of a leaf 2-node. -/
theorem vals_leaf2 (v1 v2 : Option KV) :
    (twoThreeNode.node 2 v1 v2 .nil .nil .nil).vals = v1.toList := by
  simp [twoThreeNode.vals]

/-- `vals` of a leaf 3-node. -/
theorem vals_leaf3 (v1 v2 : Option KV) :
    (twoThreeNode.node 3 v1 v2 .nil .nil .nil).vals = v1.toList ++ v2.toList := by
  simp [twoThreeNode.vals]

/-- A well-formed subtree holds at least one value. -/
theorem ttWF_vals_ne_nil (t : twoThreeNode) (h : Nat) (hwf : ttWF t h = true) :
    t.vals ≠ [] := by
  cases t with
  | nil => exact absurd rfl (ttWF_ne_nil _ _ hwf)
  | node nt v1 v2 l m r =>
    cases h with
    | zero =>
      obtain ⟨hl, hm, hr, hk⟩ := (ttWF_zero_iff nt v1 v2 l m r).mp hwf
      subst hl hm hr
      rcases hk with ⟨h2, hv1⟩ | ⟨h3, hv1, hv2⟩
      · subst h2
        rw [vals_leaf2]
        obtain ⟨a, ha⟩ := Option.isSome_iff_exists.mp hv1
        simp [ha]
      · subst h3
        rw [vals_leaf3]
        obtain ⟨a, ha⟩ := Option.isSome_iff_exists.mp hv1
        simp [ha]
    | succ h0 =>
      rcases (ttWF_succ_iff nt v1 v2 l m r h0).mp hwf with
        ⟨h2, hv1, hwl, hwm⟩ | ⟨h3, hv1, hv2, hwl, hwm, hwr⟩
      · subst h2
        cases hle : l with
        | nil => exact absurd hle (ttWF_ne_nil l h0 hwl)
        | node a b c d e f =>
          rw [hle] at hwl
          simp only [twoThreeNode.vals]
          intro hcon
          exact (ttWF_vals_ne_nil _ h0 hwl) (by
            rcases List.append_eq_nil.mp (List.append_eq_nil.mp
              (List.append_eq_nil.mp hcon).1).1 with ⟨hv, _⟩
            exact hv)
      · subst h3
        cases hle : l with
        | nil => exact absurd hle (ttWF_ne_nil l h0 hwl)
        | node a b c d e f =>
          rw [hle] at hwl
          simp only [twoThreeNode.vals]
          intro hcon
          exact (ttWF_vals_ne_nil _ h0 hwl) (by
            rcases List.append_eq_nil.mp (List.append_eq_nil.mp
              (List.append_eq_nil.mp hcon).1).1 with ⟨hv, _⟩
            exact hv)

theorem typeOf_eq_one (t : twoThreeNode) (h1 : t.typeOf = 1) :
    ∃ a b l m r, t = .node 1 a b l m r := by
  cases t with
  | nil => simp [twoThreeNode.typeOf] at h1
  | node nt a b l m r =>
    simp only [twoThreeNode.typeOf] at h1
    exact ⟨a, b, l, m, r, by rw [h1]⟩

theorem uwfB_zero (t : twoThreeNode) (hu : uwfB t 0 = true) :
    ttWF t 0 = true ∨
      (t.typeOf = 1 ∧ t.leftC = .nil ∧ t.rightC = .nil) := by
  rcases Bool.or_eq_true _ _ |>.mp hu with hw | hx
  · exact Or.inl hw
  · rcases Bool.and_eq_true _ _ |>.mp hx with ⟨h1, h2⟩
    rcases Bool.and_eq_true _ _ |>.mp h2 with ⟨hl, hr⟩
    exact Or.inr ⟨eq_of_beq h1, eq_of_beq hl, eq_of_beq hr⟩

theorem uwfB_succ (t : twoThreeNode) (h0 : Nat) (hu : uwfB t (h0 + 1) = true) :
    ttWF t (h0 + 1) = true ∨
      (t.typeOf = 1 ∧ ttWF t.leftC h0 = true) := by
  rcases Bool.or_eq_true _ _ |>.mp hu with hw | hx
  · exact Or.inl hw
  · rcases Bool.and_eq_true _ _ |>.mp hx with ⟨h1, h2⟩
    exact Or.inr ⟨eq_of_beq h1, h2⟩

theorem uwfB_one_zero (a b : Option KV) (m : twoThreeNode) :
    uwfB (.node 1 a b .nil m .nil) 0 = true := by
  simp [uwfB, twoThreeNode.typeOf, twoThreeNode.leftC, twoThreeNode.rightC]

theorem uwfB_one_succ (a b : Option KV) (l m r : twoThreeNode) (h0 : Nat)
    (hl : ttWF l h0 = true) :
    uwfB (.node 1 a b l m r) (h0 + 1) = true := by
  simp [uwfB, twoThreeNode.typeOf, twoThreeNode.leftC, hl]

/-- `vals` of a node with a non-nil left child (the internal-node shape). -/
theorem vals_node_ne (nt : Nat) (v1 v2 : Option KV) (l m r : twoThreeNode)
    (hne : l ≠ .nil) :
    (twoThreeNode.node nt v1 v2 l m r).vals =
      l.vals ++ v1.toList ++ m.vals ++ (if nt == 3 then v2.toList ++ r.vals else []) := by
  cases l with
  | nil => exact absurd rfl hne
  | node a b c d e f => rfl

/-- `vals` of a node with a nil left child (the leaf shape). -/
theorem vals_node_nil (nt : Nat) (v1 v2 : Option KV) (m r : twoThreeNode) :
    (twoThreeNode.node nt v1 v2 .nil m r).vals =
      v1.toList ++ (if nt == 3 then v2.toList else []) := by
  simp [twoThreeNode.vals]

theorem uvals_of_wf (t : twoThreeNode) (h : Nat) (hwf : ttWF t h = true) :
    uvals t = t.vals := by
  rcases ttWF_typeOf t h hwf with h2 | h2 <;> simp [uvals, h2]

theorem uvals_node (nt : Nat) (v1 v2 : Option KV) (l m r : twoThreeNode) (hnt : nt ≠ 1) :
    uvals (.node nt v1 v2 l m r) = (twoThreeNode.node nt v1 v2 l m r).vals := by
  simp [uvals, twoThreeNode.typeOf, hnt]

theorem uvals_one (v1 v2 : Option KV) (l m r : twoThreeNode) :
    uvals (.node 1 v1 v2 l m r) = l.vals := by
  simp [uvals, twoThreeNode.typeOf, twoThreeNode.leftC]

/-- A well-formed subtree of positive height has non-nil kind-children. -/
theorem ttWF_succ_parts (nt : Nat) (v1 v2 : Option KV) (l m r : twoThreeNode) (h : Nat)
    (hwf : ttWF (.node nt v1 v2 l m r) (h + 1) = true) :
    v1.isSome = true ∧ ttWF l h = true ∧ ttWF m h = true ∧
      (nt = 2 ∨ (nt = 3 ∧ v2.isSome = true ∧ ttWF r h = true)) := by
  rcases (ttWF_succ_iff nt v1 v2 l m r h).mp hwf with
    ⟨h2, hv1, hwl, hwm⟩ | ⟨h3, hv1, hv2, hwl, hwm, hwr⟩
  · exact ⟨hv1, hwl, hwm, Or.inl h2⟩
  · exact ⟨hv1, hwl, hwm, Or.inr ⟨h3, hv2, hwr⟩⟩

theorem ttWF_build2 (v1 v2 : Option KV) (l m r : twoThreeNode) (h : Nat)
    (hv1 : v1.isSome = true)
    (hz : h = 0 → l = .nil ∧ m = .nil ∧ r = .nil)
    (hs : ∀ h0, h = h0 + 1 → ttWF l h0 = true ∧ ttWF m h0 = true) :
    ttWF (.node 2 v1 v2 l m r) h = true := by
  cases h with
  | zero =>
    obtain ⟨h1, h2, h3⟩ := hz rfl
    rw [ttWF_zero_iff]; exact ⟨h1, h2, h3, Or.inl ⟨rfl, hv1⟩⟩
  | succ h0 =>
    obtain ⟨h1, h2⟩ := hs h0 rfl
    rw [ttWF_succ_iff]; exact Or.inl ⟨rfl, hv1, h1, h2⟩

theorem ttWF_build3 (v1 v2 : Option KV) (l m r : twoThreeNode) (h : Nat)
    (hv1 : v1.isSome = true) (hv2 : v2.isSome = true)
    (hz : h = 0 → l = .nil ∧ m = .nil ∧ r = .nil)
    (hs : ∀ h0, h = h0 + 1 → ttWF l h0 = true ∧ ttWF m h0 = true ∧ ttWF r h0 = true) :
    ttWF (.node 3 v1 v2 l m r) h = true := by
  cases h with
  | zero =>
    obtain ⟨h1, h2, h3⟩ := hz rfl
    rw [ttWF_zero_iff]; exact ⟨h1, h2, h3, Or.inr ⟨rfl, hv1, hv2⟩⟩
  | succ h0 =>
    obtain ⟨h1, h2, h3⟩ := hs h0 rfl
    rw [ttWF_succ_iff]; exact Or.inr ⟨rfl, hv1, hv2, h1, h2, h3⟩

theorem ttWF_parts2 (v1 v2 : Option KV) (l m r : twoThreeNode) (h : Nat)
    (hwf : ttWF (.node 2 v1 v2 l m r) h = true) :
    v1.isSome = true ∧
    (h = 0 → l = .nil ∧ m = .nil ∧ r = .nil) ∧
    (∀ h0, h = h0 + 1 → ttWF l h0 = true ∧ ttWF m h0 = true) := by
  cases h with
  | zero =>
    obtain ⟨h1, h2, h3, hk⟩ := (ttWF_zero_iff _ _ _ _ _ _).mp hwf
    rcases hk with ⟨_, hv⟩ | ⟨hc, _⟩
    · exact ⟨hv, fun _ => ⟨h1, h2, h3⟩, fun h0 hc => by omega⟩
    · omega
  | succ h0 =>
    rcases (ttWF_succ_iff _ _ _ _ _ _ _).mp hwf with ⟨_, hv, hl, hm⟩ | ⟨hc, _⟩
    · refine ⟨hv, fun hc => by omega, fun h1 he => ?_⟩
      have he2 : h1 = h0 := by omega
      subst he2; exact ⟨hl, hm⟩
    · omega

theorem ttWF_parts3 (v1 v2 : Option KV) (l m r : twoThreeNode) (h : Nat)
    (hwf : ttWF (.node 3 v1 v2 l m r) h = true) :
    v1.isSome = true ∧ v2.isSome = true ∧
    (h = 0 → l = .nil ∧ m = .nil ∧ r = .nil) ∧
    (∀ h0, h = h0 + 1 → ttWF l h0 = true ∧ ttWF m h0 = true ∧ ttWF r h0 = true) := by
  cases h with
  | zero =>
    obtain ⟨h1, h2, h3, hk⟩ := (ttWF_zero_iff _ _ _ _ _ _).mp hwf
    rcases hk with ⟨hc, _⟩ | ⟨_, hv, hv2⟩
    · omega
    · exact ⟨hv, hv2, fun _ => ⟨h1, h2, h3⟩, fun h0 hc => by omega⟩
  | succ h0 =>
    rcases (ttWF_succ_iff _ _ _ _ _ _ _).mp hwf with ⟨hc, _⟩ | ⟨_, hv, hv2, hl, hm, hr⟩
    · omega
    · refine ⟨hv, hv2, fun hc => by omega, fun h1 he => ?_⟩
      have he2 : h1 = h0 := by omega
      subst he2; exact ⟨hl, hm, hr⟩

/-- `vals` of a node whose left child is shown non-nil. -/
theorem vals_intern {l : twoThreeNode} (hne : l ≠ .nil) (nt : Nat) (v1 v2 : Option KV)
    (m r : twoThreeNode) :
    (twoThreeNode.node nt v1 v2 l m r).vals =
      l.vals ++ v1.toList ++ m.vals ++ (if nt == 3 then v2.toList ++ r.vals else []) :=
  vals_node_ne nt v1 v2 l m r hne

/-- `vals` of a node whose left child is an explicit node. -/
theorem vals_intern2 (nt : Nat) (v1 v2 a2 b2 : Option KV) (c1 c2 c3 m r : twoThreeNode)
    (k : Nat) :
    (twoThreeNode.node nt v1 v2 (.node k a2 b2 c1 c2 c3) m r).vals =
      (twoThreeNode.node k a2 b2 c1 c2 c3).vals ++ v1.toList ++ m.vals ++
        (if nt == 3 then v2.toList ++ r.vals else []) := rfl

theorem vals_nil : (twoThreeNode.nil).vals = [] := rfl

theorem typeOf_node (nt : Nat) (v1 v2 : Option KV) (l m r : twoThreeNode) :
    (twoThreeNode.node nt v1 v2 l m r).typeOf = nt := rfl

theorem leftC_node (nt : Nat) (v1 v2 : Option KV) (l m r : twoThreeNode) :
    (twoThreeNode.node nt v1 v2 l m r).leftC = l := rfl

theorem midC_node (nt : Nat) (v1 v2 : Option KV) (l m r : twoThreeNode) :
    (twoThreeNode.node nt v1 v2 l m r).midC = m := rfl

theorem rightC_node (nt : Nat) (v1 v2 : Option KV) (l m r : twoThreeNode) :
    (twoThreeNode.node nt v1 v2 l m r).rightC = r := rfl

/-- `fixChildren` after a deletion in the left child: given well-formed mid
(and right, for a 3-node) children and a deletion result on the left, the
repaired node is a deletion result one level up holding the same values. -/
theorem fixChildren_specL (nt : Nat) (v1 v2 : Option KV) (l m r : twoThreeNode) (h : Nat)
    (hnt : nt = 2 ∨ nt = 3)
    (hv1 : v1.isSome = true) (hv2 : nt = 3 → v2.isSome = true)
    (hl : uwfB l h = true) (hm : ttWF m h = true) (hr : nt = 3 → ttWF r h = true) :
    uwfB ((twoThreeNode.node nt v1 v2 l m r).fixChildren) (h + 1) = true ∧
    uvals ((twoThreeNode.node nt v1 v2 l m r).fixChildren) =
      uvals l ++ v1.toList ++ m.vals ++ (if nt = 3 then v2.toList ++ r.vals else []) := by
  rcases Bool.or_eq_true _ _ |>.mp hl with hwl | hl1x
  · -- the left child is well formed: all three repair blocks are inert
    have hlt : (l.typeOf == 1) = false := by
      rcases ttWF_typeOf l h hwl with h2 | h2 <;> simp [h2]
    have hmt1 : (m.typeOf == 1) = false := by
      rcases ttWF_typeOf m h hm with h2 | h2 <;> simp [h2]
    have hred : (twoThreeNode.node nt v1 v2 l m r).fixChildren
        = twoThreeNode.node nt v1 v2 l m r := by
      rcases hnt with h2 | h3
      · subst h2
        simp [twoThreeNode.fixChildren, twoThreeNode.fixLeft, twoThreeNode.fixMid,
          twoThreeNode.fixRight, hlt, hmt1]
      · subst h3
        have hrt1 : (r.typeOf == 1) = false := by
          rcases ttWF_typeOf r h (hr rfl) with h2 | h2 <;> simp [h2]
        simp [twoThreeNode.fixChildren, twoThreeNode.fixLeft, twoThreeNode.fixMid,
          twoThreeNode.fixRight, hlt, hmt1, hrt1]
    rw [hred]
    constructor
    · apply ttWF_uwfB
      rw [ttWF_succ_iff]
      rcases hnt with h2 | h3
      · exact Or.inl ⟨h2, hv1, hwl, hm⟩
      · exact Or.inr ⟨h3, hv1, hv2 h3, hwl, hm, hr h3⟩
    · rw [uvals_node nt v1 v2 l m r (by omega),
        vals_node_ne nt v1 v2 l m r (ttWF_ne_nil l h hwl), uvals_of_wf l h hwl]
      rcases hnt with h2 | h3
      · subst h2; simp
      · subst h3; simp
  · -- the left child is a transient 1-node
    have hl1 := Bool.and_eq_true _ _ |>.mp hl1x
    obtain ⟨a, b, ll, lm, lr, rfl⟩ := typeOf_eq_one l (eq_of_beq hl1.1)
    have hllz : h = 0 → ll = .nil ∧ lr = .nil := by
      intro hh; subst hh
      have h2 := hl1.2
      simpa [leftC_node, rightC_node] using h2
    have hlls : ∀ h0, h = h0 + 1 → ttWF ll h0 = true := by
      intro h0 hh; subst hh
      have h2 := hl1.2
      simpa [leftC_node] using h2
    cases m with
    | nil => exact absurd rfl (ttWF_ne_nil _ _ hm)
    | node mnt mv1 mv2 ml mm mr =>
    rcases ttWF_typeOf _ h hm with hmt | hmt
    · -- the mid child is a 2-node
      simp only [typeOf_node] at hmt
      subst hmt
      obtain ⟨hmv1, hmz, hms⟩ := ttWF_parts2 mv1 mv2 ml mm mr h hm
      rcases hnt with h2 | h3
      · -- 2-node parent: merge left and mid into a single 1-node child
        subst h2
        have hred : (twoThreeNode.node 2 v1 v2 (.node 1 a b ll lm lr)
            (.node 2 mv1 mv2 ml mm mr) r).fixChildren
            = twoThreeNode.node 1 v1 v2 (.node 3 v1 mv1 ll ml mm)
                (.node 3 v1 mv1 ll ml mm) r := by
          simp [twoThreeNode.fixChildren, twoThreeNode.fixLeft, twoThreeNode.fixMid,
            twoThreeNode.fixRight, twoThreeNode.pushLeftIntoMid, typeOf_node,
            midC_node]
        rw [hred]
        have hMwf : ttWF (.node 3 v1 mv1 ll ml mm) h = true := by
          apply ttWF_build3 _ _ _ _ _ _ hv1 hmv1
          · intro hh
            obtain ⟨hz1, _⟩ := hllz hh
            obtain ⟨hz3, hz4, _⟩ := hmz hh
            exact ⟨hz1, hz3, hz4⟩
          · intro h0 hh
            exact ⟨hlls h0 hh, (hms h0 hh).1, (hms h0 hh).2⟩
        constructor
        · exact uwfB_one_succ _ _ _ _ _ _ hMwf
        · rw [uvals_one, uvals_one]
          cases h with
          | zero =>
            obtain ⟨hz1, hz2⟩ := hllz rfl
            obtain ⟨hz3, hz4, hz5⟩ := hmz rfl
            subst hz1 hz2 hz3 hz4 hz5
            simp [twoThreeNode.vals, List.append_assoc]
          | succ h0 =>
            have hnell := ttWF_ne_nil ll h0 (hlls h0 rfl)
            have hneml := ttWF_ne_nil ml h0 (hms h0 rfl).1
            simp [vals_intern hnell, vals_intern hneml, vals_intern2, List.append_assoc]
      · -- 3-node parent with a 2-node mid
        subst h3
        rcases ttWF_typeOf r h (hr rfl) with hrt | hrt
        · -- right is a 2-node: fold the left child into the mid
          have hred : (twoThreeNode.node 3 v1 v2 (.node 1 a b ll lm lr)
              (.node 2 mv1 mv2 ml mm mr) r).fixChildren
              = twoThreeNode.node 2 v2 v2 (.node 3 v1 mv1 ll ml mm) r r := by
            simp [twoThreeNode.fixChildren, twoThreeNode.fixLeft, twoThreeNode.fixMid,
              twoThreeNode.fixRight, twoThreeNode.foldLeftIntoMid, typeOf_node,
              midC_node, hrt]
          rw [hred]
          have hMwf : ttWF (.node 3 v1 mv1 ll ml mm) h = true := by
            apply ttWF_build3 _ _ _ _ _ _ hv1 hmv1
            · intro hh
              obtain ⟨hz1, _⟩ := hllz hh
              obtain ⟨hz3, hz4, _⟩ := hmz hh
              exact ⟨hz1, hz3, hz4⟩
            · intro h0 hh
              exact ⟨hlls h0 hh, (hms h0 hh).1, (hms h0 hh).2⟩
          constructor
          · apply ttWF_uwfB
            rw [ttWF_succ_iff]
            exact Or.inl ⟨rfl, hv2 rfl, hMwf, hr rfl⟩
          · rw [uvals_one]
            cases h with
            | zero =>
              obtain ⟨hz1, hz2⟩ := hllz rfl
              obtain ⟨hz3, hz4, hz5⟩ := hmz rfl
              subst hz1 hz2 hz3 hz4 hz5
              simp [uvals, typeOf_node, twoThreeNode.vals, List.append_assoc]
            | succ h0 =>
              have hnell := ttWF_ne_nil ll h0 (hlls h0 rfl)
              have hneml := ttWF_ne_nil ml h0 (hms h0 rfl).1
              simp [uvals, typeOf_node, vals_intern hnell, vals_intern hneml,
                vals_intern2, List.append_assoc]
        · -- right is a 3-node: borrow through the mid from the right
          cases r with
          | nil => exact absurd rfl (ttWF_ne_nil _ _ (hr rfl))
          | node rnt rv1 rv2 rl rm rr =>
          simp only [typeOf_node] at hrt
          subst hrt
          obtain ⟨hrv1, hrv2, hrz, hrs⟩ := ttWF_parts3 rv1 rv2 rl rm rr h (hr rfl)
          have hred : (twoThreeNode.node 3 v1 v2 (.node 1 a b ll lm lr)
              (.node 2 mv1 mv2 ml mm mr) (.node 3 rv1 rv2 rl rm rr)).fixChildren
              = twoThreeNode.node 3 mv1 rv1 (.node 2 v1 b ll ml lr)
                  (.node 2 v2 mv2 mm rl mr) (.node 2 rv2 rv2 rm rr rr) := by
            simp [twoThreeNode.fixChildren, twoThreeNode.fixLeft, twoThreeNode.fixMid,
              twoThreeNode.fixRight, twoThreeNode.leftBorrowsFromMid,
              twoThreeNode.midBorrowsFromRight, typeOf_node, midC_node]
          rw [hred]
          have hLwf : ttWF (.node 2 v1 b ll ml lr) h = true := by
            apply ttWF_build2 _ _ _ _ _ _ hv1
            · intro hh
              obtain ⟨hz1, hz2⟩ := hllz hh
              obtain ⟨hz3, _, _⟩ := hmz hh
              exact ⟨hz1, hz3, hz2⟩
            · intro h0 hh
              exact ⟨hlls h0 hh, (hms h0 hh).1⟩
          have hMwf : ttWF (.node 2 v2 mv2 mm rl mr) h = true := by
            apply ttWF_build2 _ _ _ _ _ _ (hv2 rfl)
            · intro hh
              obtain ⟨_, hz4, hz5⟩ := hmz hh
              obtain ⟨hz6, _, _⟩ := hrz hh
              exact ⟨hz4, hz6, hz5⟩
            · intro h0 hh
              exact ⟨(hms h0 hh).2, (hrs h0 hh).1⟩
          have hRwf : ttWF (.node 2 rv2 rv2 rm rr rr) h = true := by
            apply ttWF_build2 _ _ _ _ _ _ hrv2
            · intro hh
              obtain ⟨_, hz7, hz8⟩ := hrz hh
              exact ⟨hz7, hz8, hz8⟩
            · intro h0 hh
              exact ⟨(hrs h0 hh).2.1, (hrs h0 hh).2.2⟩
          constructor
          · apply ttWF_uwfB
            rw [ttWF_succ_iff]
            exact Or.inr ⟨rfl, hmv1, hrv1, hLwf, hMwf, hRwf⟩
          · rw [uvals_one]
            cases h with
            | zero =>
              obtain ⟨hz1, hz2⟩ := hllz rfl
              obtain ⟨hz3, hz4, hz5⟩ := hmz rfl
              obtain ⟨hz6, hz7, hz8⟩ := hrz rfl
              subst hz1 hz2 hz3 hz4 hz5 hz6 hz7 hz8
              simp [uvals, typeOf_node, twoThreeNode.vals, List.append_assoc]
            | succ h0 =>
              have hnell := ttWF_ne_nil ll h0 (hlls h0 rfl)
              have hneml := ttWF_ne_nil ml h0 (hms h0 rfl).1
              have hnemm := ttWF_ne_nil mm h0 (hms h0 rfl).2
              have hnerl := ttWF_ne_nil rl h0 (hrs h0 rfl).1
              have hnerm := ttWF_ne_nil rm h0 (hrs h0 rfl).2.1
              simp [uvals, typeOf_node, vals_intern hnell, vals_intern hneml,
                vals_intern hnemm, vals_intern hnerl, vals_intern hnerm, vals_intern2,
                List.append_assoc]
    · -- the mid child is a 3-node: the left borrows from it
      simp only [typeOf_node] at hmt
      subst hmt
      obtain ⟨hmv1, hmv2, hmz, hms⟩ := ttWF_parts3 mv1 mv2 ml mm mr h hm
      have hLwf : ttWF (.node 2 v1 b ll ml lr) h = true := by
        apply ttWF_build2 _ _ _ _ _ _ hv1
        · intro hh
          obtain ⟨hz1, hz2⟩ := hllz hh
          obtain ⟨hz3, _, _⟩ := hmz hh
          exact ⟨hz1, hz3, hz2⟩
        · intro h0 hh
          exact ⟨hlls h0 hh, (hms h0 hh).1⟩
      have hMwf : ttWF (.node 2 mv2 mv2 mm mr mr) h = true := by
        apply ttWF_build2 _ _ _ _ _ _ hmv2
        · intro hh
          obtain ⟨_, hz4, hz5⟩ := hmz hh
          exact ⟨hz4, hz5, hz5⟩
        · intro h0 hh
          exact ⟨(hms h0 hh).2.1, (hms h0 hh).2.2⟩
      rcases hnt with h2 | h3
      · subst h2
        have hred : (twoThreeNode.node 2 v1 v2 (.node 1 a b ll lm lr)
            (.node 3 mv1 mv2 ml mm mr) r).fixChildren
            = twoThreeNode.node 2 mv1 v2 (.node 2 v1 b ll ml lr)
                (.node 2 mv2 mv2 mm mr mr) r := by
          simp [twoThreeNode.fixChildren, twoThreeNode.fixLeft, twoThreeNode.fixMid,
            twoThreeNode.fixRight, twoThreeNode.leftBorrowsFromMid, typeOf_node,
            midC_node]
        rw [hred]
        constructor
        · apply ttWF_uwfB
          rw [ttWF_succ_iff]
          exact Or.inl ⟨rfl, hmv1, hLwf, hMwf⟩
        · rw [uvals_one]
          cases h with
          | zero =>
            obtain ⟨hz1, hz2⟩ := hllz rfl
            obtain ⟨hz3, hz4, hz5⟩ := hmz rfl
            subst hz1 hz2 hz3 hz4 hz5
            simp [uvals, typeOf_node, twoThreeNode.vals, List.append_assoc]
          | succ h0 =>
            have hnell := ttWF_ne_nil ll h0 (hlls h0 rfl)
            obtain ⟨hwml, hwmm, hwmr⟩ := hms h0 rfl
            have hneml := ttWF_ne_nil ml h0 hwml
            have hnemm := ttWF_ne_nil mm h0 hwmm
            simp [uvals, typeOf_node, vals_intern hnell, vals_intern hneml,
              vals_intern hnemm, vals_intern2, List.append_assoc]
      · subst h3
        have hrt1 : (r.typeOf == 1) = false := by
          rcases ttWF_typeOf r h (hr rfl) with h2 | h2 <;> simp [h2]
        have hred : (twoThreeNode.node 3 v1 v2 (.node 1 a b ll lm lr)
            (.node 3 mv1 mv2 ml mm mr) r).fixChildren
            = twoThreeNode.node 3 mv1 v2 (.node 2 v1 b ll ml lr)
                (.node 2 mv2 mv2 mm mr mr) r := by
          simp [twoThreeNode.fixChildren, twoThreeNode.fixLeft, twoThreeNode.fixMid,
            twoThreeNode.fixRight, twoThreeNode.leftBorrowsFromMid, typeOf_node,
            midC_node, hrt1]
        rw [hred]
        constructor
        · apply ttWF_uwfB
          rw [ttWF_succ_iff]
          exact Or.inr ⟨rfl, hmv1, hv2 rfl, hLwf, hMwf, hr rfl⟩
        · rw [uvals_one]
          cases h with
          | zero =>
            obtain ⟨hz1, hz2⟩ := hllz rfl
            obtain ⟨hz3, hz4, hz5⟩ := hmz rfl
            subst hz1 hz2 hz3 hz4 hz5
            simp [uvals, typeOf_node, twoThreeNode.vals, List.append_assoc]
          | succ h0 =>
            have hnell := ttWF_ne_nil ll h0 (hlls h0 rfl)
            obtain ⟨hwml, hwmm, hwmr⟩ := hms h0 rfl
            have hneml := ttWF_ne_nil ml h0 hwml
            have hnemm := ttWF_ne_nil mm h0 hwmm
            simp [uvals, typeOf_node, vals_intern hnell, vals_intern hneml,
              vals_intern hnemm, vals_intern2, List.append_assoc]

/-- `fixChildren` after a deletion in the mid child. -/
theorem fixChildren_specM (nt : Nat) (v1 v2 : Option KV) (l m r : twoThreeNode) (h : Nat)
    (hnt : nt = 2 ∨ nt = 3)
    (hv1 : v1.isSome = true) (hv2 : nt = 3 → v2.isSome = true)
    (hl : ttWF l h = true) (hm : uwfB m h = true) (hr : nt = 3 → ttWF r h = true) :
    uwfB ((twoThreeNode.node nt v1 v2 l m r).fixChildren) (h + 1) = true ∧
    uvals ((twoThreeNode.node nt v1 v2 l m r).fixChildren) =
      l.vals ++ v1.toList ++ uvals m ++ (if nt = 3 then v2.toList ++ r.vals else []) := by
  rcases Bool.or_eq_true _ _ |>.mp hm with hwm | hm1x
  · -- the mid child is well formed: all three repair blocks are inert
    have hlt : (l.typeOf == 1) = false := by
      rcases ttWF_typeOf l h hl with h2 | h2 <;> simp [h2]
    have hmt1 : (m.typeOf == 1) = false := by
      rcases ttWF_typeOf m h hwm with h2 | h2 <;> simp [h2]
    have hred : (twoThreeNode.node nt v1 v2 l m r).fixChildren
        = twoThreeNode.node nt v1 v2 l m r := by
      rcases hnt with h2 | h3
      · subst h2
        simp [twoThreeNode.fixChildren, twoThreeNode.fixLeft, twoThreeNode.fixMid,
          twoThreeNode.fixRight, hlt, hmt1]
      · subst h3
        have hrt1 : (r.typeOf == 1) = false := by
          rcases ttWF_typeOf r h (hr rfl) with h2 | h2 <;> simp [h2]
        simp [twoThreeNode.fixChildren, twoThreeNode.fixLeft, twoThreeNode.fixMid,
          twoThreeNode.fixRight, hlt, hmt1, hrt1]
    rw [hred]
    constructor
    · apply ttWF_uwfB
      rw [ttWF_succ_iff]
      rcases hnt with h2 | h3
      · exact Or.inl ⟨h2, hv1, hl, hwm⟩
      · exact Or.inr ⟨h3, hv1, hv2 h3, hl, hwm, hr h3⟩
    · rw [uvals_node nt v1 v2 l m r (by omega),
        vals_node_ne nt v1 v2 l m r (ttWF_ne_nil l h hl), uvals_of_wf m h hwm]
      rcases hnt with h2 | h3
      · subst h2; simp
      · subst h3; simp
  · -- the mid child is a transient 1-node
    have hm1 := Bool.and_eq_true _ _ |>.mp hm1x
    obtain ⟨ma, mb, ml0, mm0, mr0, rfl⟩ := typeOf_eq_one m (eq_of_beq hm1.1)
    have hmz : h = 0 → ml0 = .nil ∧ mr0 = .nil := by
      intro hh; subst hh
      have h2 := hm1.2
      simpa [leftC_node, rightC_node] using h2
    have hms : ∀ h0, h = h0 + 1 → ttWF ml0 h0 = true := by
      intro h0 hh; subst hh
      have h2 := hm1.2
      simpa [leftC_node] using h2
    rcases ttWF_typeOf _ h hl with hlt | hlt
    · -- the left sibling is a 2-node
      rcases hnt with h2 | h3
      · -- 2-node parent: push the mid into the left
        subst h2
        cases l with
        | nil => exact absurd rfl (ttWF_ne_nil _ _ hl)
        | node lnt lv1 lv2 ll lm lr =>
        simp only [typeOf_node] at hlt
        subst hlt
        obtain ⟨hlv1, hlz, hls⟩ := ttWF_parts2 lv1 lv2 ll lm lr h hl
        have hred : (twoThreeNode.node 2 v1 v2 (.node 2 lv1 lv2 ll lm lr)
            (.node 1 ma mb ml0 mm0 mr0) r).fixChildren
            = twoThreeNode.node 1 v1 v2 (.node 3 lv1 v1 ll lm ml0)
                (.node 1 ma mb ml0 mm0 mr0) r := by
          simp [twoThreeNode.fixChildren, twoThreeNode.fixLeft, twoThreeNode.fixMid,
            twoThreeNode.fixRight, twoThreeNode.pushMidIntoLeft, typeOf_node, midC_node,
            leftC_node]
        rw [hred]
        have hMwf : ttWF (.node 3 lv1 v1 ll lm ml0) h = true := by
          apply ttWF_build3 _ _ _ _ _ _ hlv1 hv1
          · intro hh
            obtain ⟨hz1, hz2, _⟩ := hlz hh
            exact ⟨hz1, hz2, (hmz hh).1⟩
          · intro h0 hh
            exact ⟨(hls h0 hh).1, (hls h0 hh).2, hms h0 hh⟩
        constructor
        · exact uwfB_one_succ _ _ _ _ _ _ hMwf
        · rw [uvals_one, uvals_one]
          cases h with
          | zero =>
            obtain ⟨hz1, hz2⟩ := hmz rfl
            obtain ⟨hz3, hz4, hz5⟩ := hlz rfl
            subst hz1 hz2 hz3 hz4 hz5
            simp [twoThreeNode.vals, List.append_assoc]
          | succ h0 =>
            have hnell := ttWF_ne_nil ll h0 (hls h0 rfl).1
            simp [vals_intern hnell, vals_intern2, List.append_assoc]
      · -- 3-node parent with a 2-node left sibling
        subst h3
        rcases ttWF_typeOf r h (hr rfl) with hrt | hrt
        · -- right is a 2-node: fold the mid into the right
          cases r with
          | nil => exact absurd rfl (ttWF_ne_nil _ _ (hr rfl))
          | node rnt rv1 rv2 rl rm rr =>
          simp only [typeOf_node] at hrt
          subst hrt
          obtain ⟨hrv1, hrz, hrs⟩ := ttWF_parts2 rv1 rv2 rl rm rr h (hr rfl)
          have hlt3 : (l.typeOf == 3) = false := by simp [hlt]
          have hred : (twoThreeNode.node 3 v1 v2 l (.node 1 ma mb ml0 mm0 mr0)
              (.node 2 rv1 rv2 rl rm rr)).fixChildren
              = twoThreeNode.node 2 v1 v2 l (.node 3 v2 rv1 ml0 rl rm)
                  (.node 3 v2 rv1 ml0 rl rm) := by
            have hlt1 : (l.typeOf == 1) = false := by simp [hlt]
            simp [twoThreeNode.fixChildren, twoThreeNode.fixLeft, twoThreeNode.fixMid,
              twoThreeNode.fixRight, twoThreeNode.foldMidIntoRight, typeOf_node, midC_node,
              hlt1, hlt3]
          rw [hred]
          have hMwf : ttWF (.node 3 v2 rv1 ml0 rl rm) h = true := by
            apply ttWF_build3 _ _ _ _ _ _ (hv2 rfl) hrv1
            · intro hh
              obtain ⟨hz1, hz2, _⟩ := hrz hh
              exact ⟨(hmz hh).1, hz1, hz2⟩
            · intro h0 hh
              exact ⟨hms h0 hh, (hrs h0 hh).1, (hrs h0 hh).2⟩
          constructor
          · apply ttWF_uwfB
            rw [ttWF_succ_iff]
            exact Or.inl ⟨rfl, hv1, hl, hMwf⟩
          · rw [uvals_one]
            have hnel := ttWF_ne_nil l h hl
            cases h with
            | zero =>
              obtain ⟨hz1, hz2⟩ := hmz rfl
              obtain ⟨hz3, hz4, hz5⟩ := hrz rfl
              subst hz1 hz2 hz3 hz4 hz5
              simp [uvals, typeOf_node, vals_intern hnel, vals_node_nil, vals_nil,
                List.append_assoc]
            | succ h0 =>
              have hnerl := ttWF_ne_nil rl h0 (hrs h0 rfl).1
              have hneml0 := ttWF_ne_nil ml0 h0 (hms h0 rfl)
              simp [uvals, typeOf_node, vals_intern hnel, vals_intern hnerl,
                vals_intern hneml0, vals_intern2, List.append_assoc]
        · -- right is a 3-node: the mid borrows from the right
          cases r with
          | nil => exact absurd rfl (ttWF_ne_nil _ _ (hr rfl))
          | node rnt rv1 rv2 rl rm rr =>
          simp only [typeOf_node] at hrt
          subst hrt
          obtain ⟨hrv1, hrv2, hrz, hrs⟩ := ttWF_parts3 rv1 rv2 rl rm rr h (hr rfl)
          have hlt3 : (l.typeOf == 3) = false := by simp [hlt]
          have hred : (twoThreeNode.node 3 v1 v2 l (.node 1 ma mb ml0 mm0 mr0)
              (.node 3 rv1 rv2 rl rm rr)).fixChildren
              = twoThreeNode.node 3 v1 rv1 l (.node 2 v2 mb ml0 rl mr0)
                  (.node 2 rv2 rv2 rm rr rr) := by
            have hlt1 : (l.typeOf == 1) = false := by simp [hlt]
            simp [twoThreeNode.fixChildren, twoThreeNode.fixLeft, twoThreeNode.fixMid,
              twoThreeNode.fixRight, twoThreeNode.midBorrowsFromRight, typeOf_node,
              midC_node, hlt1, hlt3]
          rw [hred]
          have hMwf : ttWF (.node 2 v2 mb ml0 rl mr0) h = true := by
            apply ttWF_build2 _ _ _ _ _ _ (hv2 rfl)
            · intro hh
              obtain ⟨hz1, hz2⟩ := hmz hh
              exact ⟨hz1, (hrz hh).1, hz2⟩
            · intro h0 hh
              exact ⟨hms h0 hh, (hrs h0 hh).1⟩
          have hRwf : ttWF (.node 2 rv2 rv2 rm rr rr) h = true := by
            apply ttWF_build2 _ _ _ _ _ _ hrv2
            · intro hh
              obtain ⟨_, hz2, hz3⟩ := hrz hh
              exact ⟨hz2, hz3, hz3⟩
            · intro h0 hh
              exact ⟨(hrs h0 hh).2.1, (hrs h0 hh).2.2⟩
          constructor
          · apply ttWF_uwfB
            rw [ttWF_succ_iff]
            exact Or.inr ⟨rfl, hv1, hrv1, hl, hMwf, hRwf⟩
          · rw [uvals_one]
            have hnel := ttWF_ne_nil l h hl
            cases h with
            | zero =>
              obtain ⟨hz1, hz2⟩ := hmz rfl
              obtain ⟨hz3, hz4, hz5⟩ := hrz rfl
              subst hz1 hz2 hz3 hz4 hz5
              simp [uvals, typeOf_node, vals_intern hnel, vals_node_nil, vals_nil,
                List.append_assoc]
            | succ h0 =>
              have hnerl := ttWF_ne_nil rl h0 (hrs h0 rfl).1
              have hnerm := ttWF_ne_nil rm h0 (hrs h0 rfl).2.1
              have hneml0 := ttWF_ne_nil ml0 h0 (hms h0 rfl)
              simp [uvals, typeOf_node, vals_intern hnel, vals_intern hnerl,
                vals_intern hnerm, vals_intern hneml0, vals_intern2, List.append_assoc]
    · -- the left sibling is a 3-node: the mid borrows from the left
      cases l with
      | nil => exact absurd rfl (ttWF_ne_nil _ _ hl)
      | node lnt lv1 lv2 ll lm lr =>
      simp only [typeOf_node] at hlt
      subst hlt
      obtain ⟨hlv1, hlv2, hlz, hls⟩ := ttWF_parts3 lv1 lv2 ll lm lr h hl
      have hLwf : ttWF (.node 2 lv1 lv2 ll lm lr) h = true := by
        apply ttWF_build2 _ _ _ _ _ _ hlv1
        · intro hh
          exact hlz hh
        · intro h0 hh
          exact ⟨(hls h0 hh).1, (hls h0 hh).2.1⟩
      have hMwf : ttWF (.node 2 v1 mb lr ml0 mr0) h = true := by
        apply ttWF_build2 _ _ _ _ _ _ hv1
        · intro hh
          obtain ⟨hz1, hz2⟩ := hmz hh
          exact ⟨(hlz hh).2.2, hz1, hz2⟩
        · intro h0 hh
          exact ⟨(hls h0 hh).2.2, hms h0 hh⟩
      rcases hnt with h2 | h3
      · subst h2
        have hred : (twoThreeNode.node 2 v1 v2 (.node 3 lv1 lv2 ll lm lr)
            (.node 1 ma mb ml0 mm0 mr0) r).fixChildren
            = twoThreeNode.node 2 lv2 v2 (.node 2 lv1 lv2 ll lm lr)
                (.node 2 v1 mb lr ml0 mr0) r := by
          simp [twoThreeNode.fixChildren, twoThreeNode.fixLeft, twoThreeNode.fixMid,
            twoThreeNode.fixRight, twoThreeNode.midBorrowsFromLeft, typeOf_node, midC_node]
        rw [hred]
        constructor
        · apply ttWF_uwfB
          rw [ttWF_succ_iff]
          exact Or.inl ⟨rfl, hlv2, hLwf, hMwf⟩
        · rw [uvals_one]
          cases h with
          | zero =>
            obtain ⟨hz1, hz2⟩ := hmz rfl
            obtain ⟨hz3, hz4, hz5⟩ := hlz rfl
            subst hz1 hz2 hz3 hz4 hz5
            simp [uvals, typeOf_node, twoThreeNode.vals, List.append_assoc]
          | succ h0 =>
            have hnell := ttWF_ne_nil ll h0 (hls h0 rfl).1
            have hnelr := ttWF_ne_nil lr h0 (hls h0 rfl).2.2
            simp [uvals, typeOf_node, vals_intern hnell, vals_intern hnelr,
              vals_intern2, List.append_assoc]
      · subst h3
        have hrt1 : (r.typeOf == 1) = false := by
          rcases ttWF_typeOf r h (hr rfl) with h2 | h2 <;> simp [h2]
        have hred : (twoThreeNode.node 3 v1 v2 (.node 3 lv1 lv2 ll lm lr)
            (.node 1 ma mb ml0 mm0 mr0) r).fixChildren
            = twoThreeNode.node 3 lv2 v2 (.node 2 lv1 lv2 ll lm lr)
                (.node 2 v1 mb lr ml0 mr0) r := by
          simp [twoThreeNode.fixChildren, twoThreeNode.fixLeft, twoThreeNode.fixMid,
            twoThreeNode.fixRight, twoThreeNode.midBorrowsFromLeft, typeOf_node,
            midC_node, hrt1]
        rw [hred]
        constructor
        · apply ttWF_uwfB
          rw [ttWF_succ_iff]
          exact Or.inr ⟨rfl, hlv2, hv2 rfl, hLwf, hMwf, hr rfl⟩
        · rw [uvals_one]
          cases h with
          | zero =>
            obtain ⟨hz1, hz2⟩ := hmz rfl
            obtain ⟨hz3, hz4, hz5⟩ := hlz rfl
            subst hz1 hz2 hz3 hz4 hz5
            simp [uvals, typeOf_node, twoThreeNode.vals, List.append_assoc]
          | succ h0 =>
            have hnell := ttWF_ne_nil ll h0 (hls h0 rfl).1
            have hnelr := ttWF_ne_nil lr h0 (hls h0 rfl).2.2
            simp [uvals, typeOf_node, vals_intern hnell, vals_intern hnelr,
              vals_intern2, List.append_assoc]

/-- `fixChildren` after a deletion in the right child of a 3-node. -/
theorem fixChildren_specR (v1 v2 : Option KV) (l m r : twoThreeNode) (h : Nat)
    (hv1 : v1.isSome = true) (hv2 : v2.isSome = true)
    (hl : ttWF l h = true) (hm : ttWF m h = true) (hr : uwfB r h = true) :
    uwfB ((twoThreeNode.node 3 v1 v2 l m r).fixChildren) (h + 1) = true ∧
    uvals ((twoThreeNode.node 3 v1 v2 l m r).fixChildren) =
      l.vals ++ v1.toList ++ m.vals ++ v2.toList ++ uvals r := by
  rcases Bool.or_eq_true _ _ |>.mp hr with hwr | hr1x
  · -- the right child is well formed: all three repair blocks are inert
    have hlt : (l.typeOf == 1) = false := by
      rcases ttWF_typeOf l h hl with h2 | h2 <;> simp [h2]
    have hmt1 : (m.typeOf == 1) = false := by
      rcases ttWF_typeOf m h hm with h2 | h2 <;> simp [h2]
    have hrt1 : (r.typeOf == 1) = false := by
      rcases ttWF_typeOf r h hwr with h2 | h2 <;> simp [h2]
    have hred : (twoThreeNode.node 3 v1 v2 l m r).fixChildren
        = twoThreeNode.node 3 v1 v2 l m r := by
      simp [twoThreeNode.fixChildren, twoThreeNode.fixLeft, twoThreeNode.fixMid,
        twoThreeNode.fixRight, hlt, hmt1, hrt1]
    rw [hred]
    constructor
    · apply ttWF_uwfB
      rw [ttWF_succ_iff]
      exact Or.inr ⟨rfl, hv1, hv2, hl, hm, hwr⟩
    · rw [uvals_node 3 v1 v2 l m r (by omega),
        vals_node_ne 3 v1 v2 l m r (ttWF_ne_nil l h hl), uvals_of_wf r h hwr]
      simp
  · -- the right child is a transient 1-node
    have hr1 := Bool.and_eq_true _ _ |>.mp hr1x
    obtain ⟨ra, rb, rl0, rm0, rr0, rfl⟩ := typeOf_eq_one r (eq_of_beq hr1.1)
    have hrz : h = 0 → rl0 = .nil ∧ rr0 = .nil := by
      intro hh; subst hh
      have h2 := hr1.2
      simpa [leftC_node, rightC_node] using h2
    have hrs : ∀ h0, h = h0 + 1 → ttWF rl0 h0 = true := by
      intro h0 hh; subst hh
      have h2 := hr1.2
      simpa [leftC_node] using h2
    rcases ttWF_typeOf _ h hm with hmt | hmt
    · -- the mid sibling is a 2-node
      cases m with
      | nil => exact absurd rfl (ttWF_ne_nil _ _ hm)
      | node mnt mv1 mv2 ml mm mr =>
      simp only [typeOf_node] at hmt
      subst hmt
      obtain ⟨hmv1, hmz, hms⟩ := ttWF_parts2 mv1 mv2 ml mm mr h hm
      rcases ttWF_typeOf _ h hl with hlt | hlt
      · -- both siblings are 2-nodes: fold the right into the mid
        have hlt1 : (l.typeOf == 1) = false := by simp [hlt]
        have hlt3 : (l.typeOf == 3) = false := by simp [hlt]
        have hred : (twoThreeNode.node 3 v1 v2 l (.node 2 mv1 mv2 ml mm mr)
            (.node 1 ra rb rl0 rm0 rr0)).fixChildren
            = twoThreeNode.node 2 v1 v2 l (.node 3 mv1 v2 ml mm rl0)
                (.node 1 ra rb rl0 rm0 rr0) := by
          simp [twoThreeNode.fixChildren, twoThreeNode.fixLeft, twoThreeNode.fixMid,
            twoThreeNode.fixRight, twoThreeNode.foldRightIntoMid, typeOf_node, midC_node,
            hlt1, hlt3]
        rw [hred]
        have hMwf : ttWF (.node 3 mv1 v2 ml mm rl0) h = true := by
          apply ttWF_build3 _ _ _ _ _ _ hmv1 hv2
          · intro hh
            obtain ⟨hz1, hz2, _⟩ := hmz hh
            exact ⟨hz1, hz2, (hrz hh).1⟩
          · intro h0 hh
            exact ⟨(hms h0 hh).1, (hms h0 hh).2, hrs h0 hh⟩
        constructor
        · apply ttWF_uwfB
          rw [ttWF_succ_iff]
          exact Or.inl ⟨rfl, hv1, hl, hMwf⟩
        · rw [uvals_one]
          have hnel := ttWF_ne_nil l h hl
          cases h with
          | zero =>
            obtain ⟨hz1, hz2⟩ := hrz rfl
            obtain ⟨hz3, hz4, hz5⟩ := hmz rfl
            subst hz1 hz2 hz3 hz4 hz5
            simp [uvals, typeOf_node, vals_intern hnel, vals_node_nil, vals_nil,
              List.append_assoc]
          | succ h0 =>
            have hneml := ttWF_ne_nil ml h0 (hms h0 rfl).1
            have hnerl0 := ttWF_ne_nil rl0 h0 (hrs h0 rfl)
            simp [uvals, typeOf_node, vals_intern hnel, vals_intern hneml,
              vals_intern hnerl0, vals_intern2, List.append_assoc]
      · -- a 3-node left with a 2-node mid: borrow through the mid, then fix it
        cases l with
        | nil => exact absurd rfl (ttWF_ne_nil _ _ hl)
        | node lnt lv1 lv2 ll lm lr =>
        simp only [typeOf_node] at hlt
        subst hlt
        obtain ⟨hlv1, hlv2, hlz, hls⟩ := ttWF_parts3 lv1 lv2 ll lm lr h hl
        have hred : (twoThreeNode.node 3 v1 v2 (.node 3 lv1 lv2 ll lm lr)
            (.node 2 mv1 mv2 ml mm mr) (.node 1 ra rb rl0 rm0 rr0)).fixChildren
            = twoThreeNode.node 3 lv2 mv1 (.node 2 lv1 lv2 ll lm lr)
                (.node 2 v1 mv2 lr ml mr) (.node 2 v2 rb mm rl0 rr0) := by
          simp [twoThreeNode.fixChildren, twoThreeNode.fixLeft, twoThreeNode.fixMid,
            twoThreeNode.fixRight, twoThreeNode.rightBorrowsFromMid,
            twoThreeNode.midBorrowsFromLeft, typeOf_node, midC_node]
        rw [hred]
        have hLwf : ttWF (.node 2 lv1 lv2 ll lm lr) h = true := by
          apply ttWF_build2 _ _ _ _ _ _ hlv1
          · intro hh
            exact hlz hh
          · intro h0 hh
            exact ⟨(hls h0 hh).1, (hls h0 hh).2.1⟩
        have hMwf : ttWF (.node 2 v1 mv2 lr ml mr) h = true := by
          apply ttWF_build2 _ _ _ _ _ _ hv1
          · intro hh
            obtain ⟨hz1, _, hz3⟩ := hmz hh
            exact ⟨(hlz hh).2.2, hz1, hz3⟩
          · intro h0 hh
            exact ⟨(hls h0 hh).2.2, (hms h0 hh).1⟩
        have hRwf : ttWF (.node 2 v2 rb mm rl0 rr0) h = true := by
          apply ttWF_build2 _ _ _ _ _ _ hv2
          · intro hh
            obtain ⟨hz1, hz2⟩ := hrz hh
            exact ⟨(hmz hh).2.1, hz1, hz2⟩
          · intro h0 hh
            exact ⟨(hms h0 hh).2, hrs h0 hh⟩
        constructor
        · apply ttWF_uwfB
          rw [ttWF_succ_iff]
          exact Or.inr ⟨rfl, hlv2, hmv1, hLwf, hMwf, hRwf⟩
        · rw [uvals_one]
          cases h with
          | zero =>
            obtain ⟨hz1, hz2⟩ := hrz rfl
            obtain ⟨hz3, hz4, hz5⟩ := hmz rfl
            obtain ⟨hz6, hz7, hz8⟩ := hlz rfl
            subst hz1 hz2 hz3 hz4 hz5 hz6 hz7 hz8
            simp [uvals, typeOf_node, vals_node_nil, vals_nil, vals_intern2,
              List.append_assoc]
          | succ h0 =>
            have hnell := ttWF_ne_nil ll h0 (hls h0 rfl).1
            have hnelr := ttWF_ne_nil lr h0 (hls h0 rfl).2.2
            have hnemm := ttWF_ne_nil mm h0 (hms h0 rfl).2
            have hneml := ttWF_ne_nil ml h0 (hms h0 rfl).1
            simp [uvals, typeOf_node, vals_intern hnell, vals_intern hnelr,
              vals_intern hnemm, vals_intern hneml, vals_intern2, List.append_assoc]
    · -- the mid sibling is a 3-node: the right borrows from it
      cases m with
      | nil => exact absurd rfl (ttWF_ne_nil _ _ hm)
      | node mnt mv1 mv2 ml mm mr =>
      simp only [typeOf_node] at hmt
      subst hmt
      obtain ⟨hmv1, hmv2, hmz, hms⟩ := ttWF_parts3 mv1 mv2 ml mm mr h hm
      have hred : (twoThreeNode.node 3 v1 v2 l (.node 3 mv1 mv2 ml mm mr)
          (.node 1 ra rb rl0 rm0 rr0)).fixChildren
          = twoThreeNode.node 3 v1 mv2 l (.node 2 mv1 mv2 ml mm mr)
              (.node 2 v2 rb mr rl0 rr0) := by
        have hlt1 : (l.typeOf == 1) = false := by
          rcases ttWF_typeOf l h hl with h2 | h2 <;> simp [h2]
        simp [twoThreeNode.fixChildren, twoThreeNode.fixLeft, twoThreeNode.fixMid,
          twoThreeNode.fixRight, twoThreeNode.rightBorrowsFromMid, typeOf_node,
          midC_node, hlt1]
      rw [hred]
      have hMwf : ttWF (.node 2 mv1 mv2 ml mm mr) h = true := by
        apply ttWF_build2 _ _ _ _ _ _ hmv1
        · intro hh
          obtain ⟨hz1, hz2, _⟩ := hmz hh
          exact ⟨hz1, hz2, (hmz hh).2.2⟩
        · intro h0 hh
          exact ⟨(hms h0 hh).1, (hms h0 hh).2.1⟩
      have hRwf : ttWF (.node 2 v2 rb mr rl0 rr0) h = true := by
        apply ttWF_build2 _ _ _ _ _ _ hv2
        · intro hh
          obtain ⟨hz1, hz2⟩ := hrz hh
          exact ⟨(hmz hh).2.2, hz1, hz2⟩
        · intro h0 hh
          exact ⟨(hms h0 hh).2.2, hrs h0 hh⟩
      constructor
      · apply ttWF_uwfB
        rw [ttWF_succ_iff]
        exact Or.inr ⟨rfl, hv1, hmv2, hl, hMwf, hRwf⟩
      · rw [uvals_one]
        have hnel := ttWF_ne_nil l h hl
        cases h with
        | zero =>
          obtain ⟨hz1, hz2⟩ := hrz rfl
          obtain ⟨hz3, hz4, hz5⟩ := hmz rfl
          subst hz1 hz2 hz3 hz4 hz5
          simp [uvals, typeOf_node, vals_intern hnel, vals_node_nil, vals_nil,
            List.append_assoc]
        | succ h0 =>
          have hneml := ttWF_ne_nil ml h0 (hms h0 rfl).1
          have hnemr := ttWF_ne_nil mr h0 (hms h0 rfl).2.2
          simp [uvals, typeOf_node, vals_intern hnel, vals_intern hneml,
            vals_intern hnemr, vals_intern2, List.append_assoc]

/-- `removeLeftmost` on a well-formed subtree: it hands back the first stored
value and leaves a deletion result holding the remaining values. -/
theorem removeLeftmost_spec (t : twoThreeNode) :
    ∀ h : Nat, ttWF t h = true →
    uwfB (t.removeLeftmost).1 h = true ∧
    ∃ w, (t.removeLeftmost).2 = some w ∧ t.vals = w :: uvals (t.removeLeftmost).1 := by
  induction t using twoThreeNode.removeLeftmost.induct with
  | case1 =>
    intro h hwf
    exact absurd rfl (ttWF_ne_nil _ _ hwf)
  | case2 nt v1 v2 m r =>
    intro h hwf
    cases h with
    | succ h0 =>
      have := (ttWF_succ_parts nt v1 v2 .nil m r h0 hwf).2.1
      simp [ttWF] at this
    | zero =>
      obtain ⟨_, hmn, hrn, hk⟩ := (ttWF_zero_iff nt v1 v2 .nil m r).mp hwf
      subst hmn hrn
      simp only [twoThreeNode.removeLeftmost]
      rcases hk with ⟨h2, hv1⟩ | ⟨h3, hv1, hv2⟩
      · subst h2
        obtain ⟨w1, hw1⟩ := Option.isSome_iff_exists.mp hv1
        refine ⟨uwfB_one_zero v2 v2 .nil, w1, hw1, ?_⟩
        rw [uvals_one, vals_node_nil, hw1, vals_nil]
        simp
      · subst h3
        obtain ⟨w1, hw1⟩ := Option.isSome_iff_exists.mp hv1
        refine ⟨?_, w1, hw1, ?_⟩
        · apply ttWF_uwfB
          rw [ttWF_zero_iff]
          exact ⟨rfl, rfl, rfl, Or.inl ⟨rfl, hv2⟩⟩
        · rw [uvals_node 2 v2 v2 .nil .nil .nil (by omega), vals_node_nil, vals_node_nil,
            hw1]
          simp
  | case3 nt v1 v2 m r lnt lv1 lv2 ll lm lr ih =>
    intro h hwf
    cases h with
    | zero =>
      obtain ⟨hln, _, _, _⟩ := (ttWF_zero_iff nt v1 v2 _ m r).mp hwf
      exact absurd hln (by simp)
    | succ h0 =>
      obtain ⟨hv1, hwl, hwm, hk⟩ := ttWF_succ_parts nt v1 v2 _ m r h0 hwf
      obtain ⟨hu, w, hw, hveq⟩ := ih h0 hwl
      have hnt : nt = 2 ∨ nt = 3 := by
        rcases hk with h2 | ⟨h3, _, _⟩
        · exact Or.inl h2
        · exact Or.inr h3
      have hv2 : nt = 3 → v2.isSome = true := by
        intro h3
        rcases hk with h2 | ⟨_, hs, _⟩
        · omega
        · exact hs
      have hr : nt = 3 → ttWF r h0 = true := by
        intro h3
        rcases hk with h2 | ⟨_, _, hs⟩
        · omega
        · exact hs
      obtain ⟨hu2, hvals2⟩ := fixChildren_specL nt v1 v2
        ((twoThreeNode.node lnt lv1 lv2 ll lm lr).removeLeftmost).1 m r h0
        hnt hv1 hv2 hu hwm hr
      have hred1 : ((twoThreeNode.node nt v1 v2 (.node lnt lv1 lv2 ll lm lr) m
          r).removeLeftmost).1
          = (twoThreeNode.node nt v1 v2
              ((twoThreeNode.node lnt lv1 lv2 ll lm lr).removeLeftmost).1 m
              r).fixChildren := rfl
      have hred2 : ((twoThreeNode.node nt v1 v2 (.node lnt lv1 lv2 ll lm lr) m
          r).removeLeftmost).2
          = ((twoThreeNode.node lnt lv1 lv2 ll lm lr).removeLeftmost).2 := rfl
      refine ⟨?_, w, ?_, ?_⟩
      · rw [hred1]; exact hu2
      · rw [hred2]; exact hw
      · rw [hred1, vals_intern2, hvals2, hveq, List.cons_append, List.cons_append,
          List.cons_append]
        rcases hnt with h2 | h3
        · subst h2; simp
        · subst h3; simp

theorem lessO_iff (v w : KV) : lessO v (some w) = true ↔ v.key < w.key := by
  simp [lessO, KV.less]

theorem equalO_iff (v w : KV) : equalO v (some w) = true ↔ v.key = w.key := by
  simp [equalO, KV.equal]

/-! Branch equations of `twoThreeNode.remove`, one per control path. -/

theorem remove_nil_lt (v : KV) (nt : Nat) (v1 v2 : Option KV) (m r : twoThreeNode)
    (h1 : lessO v v1 = true) :
    (twoThreeNode.node nt v1 v2 .nil m r).remove v
      = (.node nt v1 v2 .nil m r, false) := by
  simp only [twoThreeNode.remove]
  rw [if_pos h1]

theorem remove_nil_eq1 (v : KV) (nt : Nat) (v1 v2 : Option KV) (m r : twoThreeNode)
    (h1 : ¬ lessO v v1 = true) (h2 : equalO v v1 = true) :
    (twoThreeNode.node nt v1 v2 .nil m r).remove v
      = (.node (nt - 1) v2 v2 .nil m r, true) := by
  simp only [twoThreeNode.remove]
  rw [if_neg h1, if_pos h2]

theorem remove_nil_mid (v : KV) (nt : Nat) (v1 v2 : Option KV) (m r : twoThreeNode)
    (h1 : ¬ lessO v v1 = true) (h2 : ¬ equalO v v1 = true)
    (h3 : (nt == 2 || lessO v v2) = true) :
    (twoThreeNode.node nt v1 v2 .nil m r).remove v
      = (.node nt v1 v2 .nil m r, false) := by
  simp only [twoThreeNode.remove]
  rw [if_neg h1, if_neg h2, if_pos h3]

theorem remove_nil_ne2 (v : KV) (nt : Nat) (v1 v2 : Option KV) (m r : twoThreeNode)
    (h1 : ¬ lessO v v1 = true) (h2 : ¬ equalO v v1 = true)
    (h3 : ¬ (nt == 2 || lessO v v2) = true) (h4 : (!equalO v v2) = true) :
    (twoThreeNode.node nt v1 v2 .nil m r).remove v
      = (.node nt v1 v2 .nil m r, false) := by
  simp only [twoThreeNode.remove]
  rw [if_neg h1, if_neg h2, if_neg h3, if_pos h4]

theorem remove_nil_eq2 (v : KV) (nt : Nat) (v1 v2 : Option KV) (m r : twoThreeNode)
    (h1 : ¬ lessO v v1 = true) (h2 : ¬ equalO v v1 = true)
    (h3 : ¬ (nt == 2 || lessO v v2) = true) (h4 : ¬ (!equalO v v2) = true) :
    (twoThreeNode.node nt v1 v2 .nil m r).remove v
      = (.node (nt - 1) v1 v2 .nil m r, true) := by
  simp only [twoThreeNode.remove]
  rw [if_neg h1, if_neg h2, if_neg h3, if_neg h4]

theorem remove_int_lt (v : KV) (nt : Nat) (v1 v2 : Option KV) (lnt : Nat)
    (lv1 lv2 : Option KV) (ll lm lr m r : twoThreeNode) (h1 : lessO v v1 = true) :
    (twoThreeNode.node nt v1 v2 (.node lnt lv1 lv2 ll lm lr) m r).remove v
      = ((twoThreeNode.node nt v1 v2
            ((twoThreeNode.node lnt lv1 lv2 ll lm lr).remove v).1 m r).fixChildren,
         ((twoThreeNode.node lnt lv1 lv2 ll lm lr).remove v).2) := by
  simp only [twoThreeNode.remove]
  rw [if_pos h1]

theorem remove_int_eq1 (v : KV) (nt : Nat) (v1 v2 : Option KV) (lnt : Nat)
    (lv1 lv2 : Option KV) (ll lm lr m r : twoThreeNode)
    (h1 : ¬ lessO v v1 = true) (h2 : equalO v v1 = true) :
    (twoThreeNode.node nt v1 v2 (.node lnt lv1 lv2 ll lm lr) m r).remove v
      = ((twoThreeNode.node nt (m.removeLeftmost).2 v2 (.node lnt lv1 lv2 ll lm lr)
            (m.removeLeftmost).1 r).fixChildren, true) := by
  simp only [twoThreeNode.remove]
  rw [if_neg h1, if_pos h2]

theorem remove_int_mid (v : KV) (nt : Nat) (v1 v2 : Option KV) (lnt : Nat)
    (lv1 lv2 : Option KV) (ll lm lr m r : twoThreeNode)
    (h1 : ¬ lessO v v1 = true) (h2 : ¬ equalO v v1 = true)
    (h3 : (nt == 2 || lessO v v2) = true) :
    (twoThreeNode.node nt v1 v2 (.node lnt lv1 lv2 ll lm lr) m r).remove v
      = ((twoThreeNode.node nt v1 v2 (.node lnt lv1 lv2 ll lm lr)
            ((m.remove v).1) r).fixChildren, (m.remove v).2) := by
  simp only [twoThreeNode.remove]
  rw [if_neg h1, if_neg h2, if_pos h3]

theorem remove_int_eq2 (v : KV) (nt : Nat) (v1 v2 : Option KV) (lnt : Nat)
    (lv1 lv2 : Option KV) (ll lm lr m r : twoThreeNode)
    (h1 : ¬ lessO v v1 = true) (h2 : ¬ equalO v v1 = true)
    (h3 : ¬ (nt == 2 || lessO v v2) = true) (h4 : equalO v v2 = true) :
    (twoThreeNode.node nt v1 v2 (.node lnt lv1 lv2 ll lm lr) m r).remove v
      = ((twoThreeNode.node nt v1 (r.removeLeftmost).2 (.node lnt lv1 lv2 ll lm lr)
            m (r.removeLeftmost).1).fixChildren, true) := by
  simp only [twoThreeNode.remove]
  rw [if_neg h1, if_neg h2, if_neg h3, if_pos h4]

theorem remove_int_gt (v : KV) (nt : Nat) (v1 v2 : Option KV) (lnt : Nat)
    (lv1 lv2 : Option KV) (ll lm lr m r : twoThreeNode)
    (h1 : ¬ lessO v v1 = true) (h2 : ¬ equalO v v1 = true)
    (h3 : ¬ (nt == 2 || lessO v v2) = true) (h4 : ¬ equalO v v2 = true) :
    (twoThreeNode.node nt v1 v2 (.node lnt lv1 lv2 ll lm lr) m r).remove v
      = ((twoThreeNode.node nt v1 v2 (.node lnt lv1 lv2 ll lm lr)
            m ((r.remove v).1)).fixChildren, (r.remove v).2) := by
  simp only [twoThreeNode.remove]
  rw [if_neg h1, if_neg h2, if_neg h3, if_neg h4]

/-- `twoThreeNode.remove` on a well-formed subtree with sorted values: the
result is a deletion result of the same height holding `listRemove` of the
values, and the `deletion` flag reports whether the key was present. -/
theorem ttRemove_spec (v : KV) (t : twoThreeNode) :
    ∀ h : Nat, ttWF t h = true → kvSorted t.vals →
    uwfB ((t.remove v).1) h = true ∧
    uvals (t.remove v).1 = listRemove v t.vals ∧
    ((t.remove v).2 = true ↔ (lookupKey v.key t.vals).isSome = true) := by
  induction t using twoThreeNode.remove.induct v with
  | case1 =>
    intro h hwf _
    exact absurd rfl (ttWF_ne_nil _ _ hwf)
  | case2 nt v1 v2 m r h1 =>
    intro h hwf hsort
    cases h with
    | succ h0 =>
      have hx := (ttWF_succ_parts nt v1 v2 .nil m r h0 hwf).2.1
      simp [ttWF] at hx
    | zero =>
      obtain ⟨_, hmn, hrn, hk⟩ := (ttWF_zero_iff nt v1 v2 .nil m r).mp hwf
      subst hmn hrn
      rw [remove_nil_lt v nt v1 v2 .nil .nil h1]
      refine ⟨ttWF_uwfB _ _ hwf, ?_, ?_⟩
      · rcases hk with ⟨h2, hv1⟩ | ⟨h3, hv1, hv2⟩
        · subst h2
          obtain ⟨w1, hw1⟩ := Option.isSome_iff_exists.mp hv1
          have hlt1 : v.key < w1.key := (lessO_iff v w1).mp (hw1 ▸ h1)
          rw [uvals_node 2 v1 v2 .nil .nil .nil (by omega), vals_node_nil, hw1]
          simp [listRemove, Nat.ne_of_lt hlt1, hlt1]
        · subst h3
          obtain ⟨w1, hw1⟩ := Option.isSome_iff_exists.mp hv1
          obtain ⟨w2, hw2⟩ := Option.isSome_iff_exists.mp hv2
          have hlt1 : v.key < w1.key := (lessO_iff v w1).mp (hw1 ▸ h1)
          rw [uvals_node 3 v1 v2 .nil .nil .nil (by omega), vals_node_nil, hw1, hw2]
          simp [listRemove, Nat.ne_of_lt hlt1, hlt1]
      · rcases hk with ⟨h2, hv1⟩ | ⟨h3, hv1, hv2⟩
        · subst h2
          obtain ⟨w1, hw1⟩ := Option.isSome_iff_exists.mp hv1
          have hlt1 : v.key < w1.key := (lessO_iff v w1).mp (hw1 ▸ h1)
          rw [vals_node_nil, hw1]
          simp [lookupKey, Nat.ne_of_lt hlt1]
        · subst h3
          obtain ⟨w1, hw1⟩ := Option.isSome_iff_exists.mp hv1
          obtain ⟨w2, hw2⟩ := Option.isSome_iff_exists.mp hv2
          have hlt1 : v.key < w1.key := (lessO_iff v w1).mp (hw1 ▸ h1)
          rw [vals_node_nil, hw1, hw2] at hsort ⊢
          simp [kvSorted] at hsort
          simp [lookupKey, Nat.ne_of_lt hlt1, Nat.ne_of_lt (Nat.lt_trans hlt1 hsort)]
  | case3 nt v1 v2 m r h1 h2 =>
    intro h hwf hsort
    cases h with
    | succ h0 =>
      have hx := (ttWF_succ_parts nt v1 v2 .nil m r h0 hwf).2.1
      simp [ttWF] at hx
    | zero =>
      obtain ⟨_, hmn, hrn, hk⟩ := (ttWF_zero_iff nt v1 v2 .nil m r).mp hwf
      subst hmn hrn
      rw [remove_nil_eq1 v nt v1 v2 .nil .nil h1 h2]
      rcases hk with ⟨h2n, hv1⟩ | ⟨h3n, hv1, hv2⟩
      · subst h2n
        obtain ⟨w1, hw1⟩ := Option.isSome_iff_exists.mp hv1
        have hkey : v.key = w1.key := (equalO_iff v w1).mp (hw1 ▸ h2)
        refine ⟨uwfB_one_zero v2 v2 .nil, ?_, ?_⟩
        · rw [uvals_one, vals_nil, vals_node_nil, hw1]
          simp [listRemove, hkey]
        · rw [vals_node_nil, hw1]
          simp [lookupKey, hkey]
      · subst h3n
        obtain ⟨w1, hw1⟩ := Option.isSome_iff_exists.mp hv1
        obtain ⟨w2, hw2⟩ := Option.isSome_iff_exists.mp hv2
        have hkey : v.key = w1.key := (equalO_iff v w1).mp (hw1 ▸ h2)
        refine ⟨?_, ?_, ?_⟩
        · apply ttWF_uwfB
          rw [ttWF_zero_iff]
          exact ⟨rfl, rfl, rfl, Or.inl ⟨rfl, hv2⟩⟩
        · rw [uvals_node 2 v2 v2 .nil .nil .nil (by omega), vals_node_nil,
            vals_node_nil, hw1, hw2]
          simp [listRemove, hkey]
        · rw [vals_node_nil, hw1, hw2]
          simp [lookupKey, hkey]
  | case4 nt v1 v2 m r h1 h2 h3 =>
    intro h hwf hsort
    cases h with
    | succ h0 =>
      have hx := (ttWF_succ_parts nt v1 v2 .nil m r h0 hwf).2.1
      simp [ttWF] at hx
    | zero =>
      obtain ⟨_, hmn, hrn, hk⟩ := (ttWF_zero_iff nt v1 v2 .nil m r).mp hwf
      subst hmn hrn
      rw [remove_nil_mid v nt v1 v2 .nil .nil h1 h2 h3]
      rcases hk with ⟨h2n, hv1⟩ | ⟨h3n, hv1, hv2⟩
      · subst h2n
        obtain ⟨w1, hw1⟩ := Option.isSome_iff_exists.mp hv1
        have hnlt : ¬ v.key < w1.key := by
          have := hw1 ▸ h1; simpa [lessO_iff] using this
        have hne : ¬ v.key = w1.key := by
          have := hw1 ▸ h2; simpa [equalO_iff] using this
        refine ⟨ttWF_uwfB _ _ hwf, ?_, ?_⟩
        · rw [uvals_node 2 v1 v2 .nil .nil .nil (by omega), vals_node_nil, hw1]
          simp [listRemove, hne, hnlt]
        · rw [vals_node_nil, hw1]
          simp [lookupKey, hne]
      · subst h3n
        obtain ⟨w1, hw1⟩ := Option.isSome_iff_exists.mp hv1
        obtain ⟨w2, hw2⟩ := Option.isSome_iff_exists.mp hv2
        have hnlt : ¬ v.key < w1.key := by
          have := hw1 ▸ h1; simpa [lessO_iff] using this
        have hne : ¬ v.key = w1.key := by
          have := hw1 ▸ h2; simpa [equalO_iff] using this
        have hlt2 : v.key < w2.key := by
          rw [hw2] at h3
          simpa [lessO_iff] using h3
        refine ⟨ttWF_uwfB _ _ hwf, ?_, ?_⟩
        · rw [uvals_node 3 v1 v2 .nil .nil .nil (by omega), vals_node_nil, hw1, hw2]
          simp [listRemove, hne, hnlt, Nat.ne_of_lt hlt2, hlt2]
        · rw [vals_node_nil, hw1, hw2]
          simp [lookupKey, hne, Nat.ne_of_lt hlt2]
  | case5 nt v1 v2 m r h1 h2 h3 h4 =>
    intro h hwf hsort
    cases h with
    | succ h0 =>
      have hx := (ttWF_succ_parts nt v1 v2 .nil m r h0 hwf).2.1
      simp [ttWF] at hx
    | zero =>
      obtain ⟨_, hmn, hrn, hk⟩ := (ttWF_zero_iff nt v1 v2 .nil m r).mp hwf
      subst hmn hrn
      rw [remove_nil_ne2 v nt v1 v2 .nil .nil h1 h2 h3 h4]
      simp only [Bool.or_eq_true, beq_iff_eq, not_or] at h3
      rcases hk with ⟨h2n, hv1⟩ | ⟨h3n, hv1, hv2⟩
      · exact absurd h2n h3.1
      subst h3n
      obtain ⟨w1, hw1⟩ := Option.isSome_iff_exists.mp hv1
      obtain ⟨w2, hw2⟩ := Option.isSome_iff_exists.mp hv2
      have hnlt : ¬ v.key < w1.key := by
        have := hw1 ▸ h1; simpa [lessO_iff] using this
      have hne : ¬ v.key = w1.key := by
        have := hw1 ▸ h2; simpa [equalO_iff] using this
      have hnlt2 : ¬ v.key < w2.key := by
        have := h3.2
        rw [hw2] at this
        simpa [lessO_iff] using this
      have hne2 : ¬ v.key = w2.key := by
        intro hc
        have h6 : equalO v (some w2) = true := (equalO_iff v w2).mpr hc
        rw [hw2, h6] at h4
        simp at h4
      refine ⟨ttWF_uwfB _ _ hwf, ?_, ?_⟩
      · rw [uvals_node 3 v1 v2 .nil .nil .nil (by omega), vals_node_nil, hw1, hw2]
        simp [listRemove, hne, hnlt, hne2, hnlt2]
      · rw [vals_node_nil, hw1, hw2]
        simp [lookupKey, hne, hne2]
  | case6 nt v1 v2 m r h1 h2 h3 h4 =>
    intro h hwf hsort
    cases h with
    | succ h0 =>
      have hx := (ttWF_succ_parts nt v1 v2 .nil m r h0 hwf).2.1
      simp [ttWF] at hx
    | zero =>
      obtain ⟨_, hmn, hrn, hk⟩ := (ttWF_zero_iff nt v1 v2 .nil m r).mp hwf
      subst hmn hrn
      rw [remove_nil_eq2 v nt v1 v2 .nil .nil h1 h2 h3 h4]
      simp only [Bool.or_eq_true, beq_iff_eq, not_or] at h3
      rcases hk with ⟨h2n, hv1⟩ | ⟨h3n, hv1, hv2⟩
      · exact absurd h2n h3.1
      subst h3n
      obtain ⟨w1, hw1⟩ := Option.isSome_iff_exists.mp hv1
      obtain ⟨w2, hw2⟩ := Option.isSome_iff_exists.mp hv2
      have hnlt : ¬ v.key < w1.key := by
        have := hw1 ▸ h1; simpa [lessO_iff] using this
      have hne : ¬ v.key = w1.key := by
        have := hw1 ▸ h2; simpa [equalO_iff] using this
      have hkey2 : v.key = w2.key := by
        have := hw2 ▸ h4
        simpa [equalO_iff] using this
      rw [vals_node_nil, hw1, hw2] at hsort
      simp [kvSorted] at hsort
      refine ⟨?_, ?_, ?_⟩
      · apply ttWF_uwfB
        rw [ttWF_zero_iff]
        exact ⟨rfl, rfl, rfl, Or.inl ⟨rfl, hv1⟩⟩
      · rw [uvals_node 2 v1 v2 .nil .nil .nil (by omega), vals_node_nil,
          vals_node_nil, hw1, hw2]
        simp [listRemove, hne, hnlt, hkey2, Nat.ne_of_gt hsort, Nat.lt_asymm hsort]
      · rw [vals_node_nil, hw1, hw2]
        simp [lookupKey, hne, hkey2, Nat.ne_of_gt hsort]
  | case7 nt v1 v2 m r lnt lv1 lv2 ll lm lr h1 ih =>
    intro h hwf hsort
    cases h with
    | zero =>
      obtain ⟨hln, _, _, _⟩ := (ttWF_zero_iff nt v1 v2 _ m r).mp hwf
      exact absurd hln (by simp)
    | succ h0 =>
      obtain ⟨hv1, hwl, hwm, hk⟩ := ttWF_succ_parts nt v1 v2 _ m r h0 hwf
      obtain ⟨w1, hw1⟩ := Option.isSome_iff_exists.mp hv1
      have hlt1 : v.key < w1.key := (lessO_iff v w1).mp (hw1 ▸ h1)
      rw [remove_int_lt v nt v1 v2 lnt lv1 lv2 ll lm lr m r h1]
      rcases hk with h2n | ⟨h3n, hv2s, hwr⟩
      · subst h2n
        have hvt : (twoThreeNode.node 2 v1 v2 (.node lnt lv1 lv2 ll lm lr) m r).vals
            = (twoThreeNode.node lnt lv1 lv2 ll lm lr).vals ++ w1 :: m.vals := by
          rw [vals_intern2, hw1]; simp
        rw [hvt] at hsort ⊢
        obtain ⟨hsl, hsm, hAx, hxB, hAB⟩ := (kvSorted_append_iff _ _ _).mp hsort
        obtain ⟨hu, hvals, hflag⟩ := ih h0 hwl hsl
        obtain ⟨hu2, hvals2⟩ := fixChildren_specL 2 v1 v2
          ((twoThreeNode.node lnt lv1 lv2 ll lm lr).remove v).1 m r h0 (Or.inl rfl)
          hv1 (fun h3 => absurd h3 (by decide)) hu hwm (fun h3 => absurd h3 (by decide))
        refine ⟨hu2, ?_, ?_⟩
        · rw [hvals2, hvals, listRemove_append_lt v w1 _ _ hlt1, hw1]
          simp [List.append_assoc]
        · rw [lookupKey_append_lt v.key w1 _ _
            (fun b hb => Nat.lt_trans hlt1 (hxB b hb)) hlt1]
          exact hflag
      · subst h3n
        obtain ⟨w2, hw2⟩ := Option.isSome_iff_exists.mp hv2s
        have hvt : (twoThreeNode.node 3 v1 v2 (.node lnt lv1 lv2 ll lm lr) m r).vals
            = (twoThreeNode.node lnt lv1 lv2 ll lm lr).vals
              ++ w1 :: (m.vals ++ w2 :: r.vals) := by
          rw [vals_intern2, hw1, hw2]; simp [List.append_assoc]
        rw [hvt] at hsort ⊢
        obtain ⟨hsl, hsB, hAx, hxB, hAB⟩ := (kvSorted_append_iff _ _ _).mp hsort
        obtain ⟨hu, hvals, hflag⟩ := ih h0 hwl hsl
        obtain ⟨hu2, hvals2⟩ := fixChildren_specL 3 v1 v2
          ((twoThreeNode.node lnt lv1 lv2 ll lm lr).remove v).1 m r h0 (Or.inr rfl)
          hv1 (fun _ => hv2s) hu hwm (fun _ => hwr)
        refine ⟨hu2, ?_, ?_⟩
        · rw [hvals2, hvals, listRemove_append_lt v w1 _ _ hlt1, hw1, hw2]
          simp [List.append_assoc]
        · rw [lookupKey_append_lt v.key w1 _ _
            (fun b hb => Nat.lt_trans hlt1 (hxB b hb)) hlt1]
          exact hflag
  | case8 nt v1 v2 m r lnt lv1 lv2 ll lm lr h1 h2 =>
    intro h hwf hsort
    cases h with
    | zero =>
      obtain ⟨hln, _, _, _⟩ := (ttWF_zero_iff nt v1 v2 _ m r).mp hwf
      exact absurd hln (by simp)
    | succ h0 =>
      obtain ⟨hv1, hwl, hwm, hk⟩ := ttWF_succ_parts nt v1 v2 _ m r h0 hwf
      obtain ⟨w1, hw1⟩ := Option.isSome_iff_exists.mp hv1
      have hkey : v.key = w1.key := (equalO_iff v w1).mp (hw1 ▸ h2)
      rw [remove_int_eq1 v nt v1 v2 lnt lv1 lv2 ll lm lr m r h1 h2]
      obtain ⟨hu, w, hwsucc, hveqm⟩ := removeLeftmost_spec m h0 hwm
      rw [hwsucc]
      rcases hk with h2n | ⟨h3n, hv2s, hwr⟩
      · subst h2n
        have hvt : (twoThreeNode.node 2 v1 v2 (.node lnt lv1 lv2 ll lm lr) m r).vals
            = (twoThreeNode.node lnt lv1 lv2 ll lm lr).vals ++ w1 :: m.vals := by
          rw [vals_intern2, hw1]; simp
        rw [hvt] at hsort ⊢
        obtain ⟨hsl, hsm, hAx, hxB, hAB⟩ := (kvSorted_append_iff _ _ _).mp hsort
        obtain ⟨hu2, hvals2⟩ := fixChildren_specM 2 (some w) v2
          (.node lnt lv1 lv2 ll lm lr) (m.removeLeftmost).1 r h0 (Or.inl rfl)
          (by simp) (fun h3 => absurd h3 (by decide)) hwl hu
          (fun h3 => absurd h3 (by decide))
        refine ⟨hu2, ?_, ?_⟩
        · rw [hvals2, listRemove_append_eq v w1 _ _
            (fun a ha => by have h5 := hAx a ha; omega) hkey, hveqm]
          simp [List.append_assoc]
        · rw [lookupKey_append_eq v.key w1 _ _
            (fun a ha => by have h5 := hAx a ha; omega) hkey]
          simp
      · subst h3n
        obtain ⟨w2, hw2⟩ := Option.isSome_iff_exists.mp hv2s
        have hvt : (twoThreeNode.node 3 v1 v2 (.node lnt lv1 lv2 ll lm lr) m r).vals
            = (twoThreeNode.node lnt lv1 lv2 ll lm lr).vals
              ++ w1 :: (m.vals ++ w2 :: r.vals) := by
          rw [vals_intern2, hw1, hw2]; simp [List.append_assoc]
        rw [hvt] at hsort ⊢
        obtain ⟨hsl, hsB, hAx, hxB, hAB⟩ := (kvSorted_append_iff _ _ _).mp hsort
        obtain ⟨hu2, hvals2⟩ := fixChildren_specM 3 (some w) v2
          (.node lnt lv1 lv2 ll lm lr) (m.removeLeftmost).1 r h0 (Or.inr rfl)
          (by simp) (fun _ => hv2s) hwl hu (fun _ => hwr)
        refine ⟨hu2, ?_, ?_⟩
        · rw [hvals2, listRemove_append_eq v w1 _ _
            (fun a ha => by have h5 := hAx a ha; omega) hkey, hveqm, hw2]
          simp [List.append_assoc]
        · rw [lookupKey_append_eq v.key w1 _ _
            (fun a ha => by have h5 := hAx a ha; omega) hkey]
          simp
  | case9 nt v1 v2 m r lnt lv1 lv2 ll lm lr h1 h2 h3 ih =>
    intro h hwf hsort
    cases h with
    | zero =>
      obtain ⟨hln, _, _, _⟩ := (ttWF_zero_iff nt v1 v2 _ m r).mp hwf
      exact absurd hln (by simp)
    | succ h0 =>
      obtain ⟨hv1, hwl, hwm, hk⟩ := ttWF_succ_parts nt v1 v2 _ m r h0 hwf
      obtain ⟨w1, hw1⟩ := Option.isSome_iff_exists.mp hv1
      have hnlt : ¬ v.key < w1.key := by
        have := hw1 ▸ h1; simpa [lessO_iff] using this
      have hne : ¬ v.key = w1.key := by
        have := hw1 ▸ h2; simpa [equalO_iff] using this
      have hgt1 : w1.key < v.key := by omega
      rw [remove_int_mid v nt v1 v2 lnt lv1 lv2 ll lm lr m r h1 h2 h3]
      rcases hk with h2n | ⟨h3n, hv2s, hwr⟩
      · subst h2n
        have hvt : (twoThreeNode.node 2 v1 v2 (.node lnt lv1 lv2 ll lm lr) m r).vals
            = (twoThreeNode.node lnt lv1 lv2 ll lm lr).vals ++ w1 :: m.vals := by
          rw [vals_intern2, hw1]; simp
        rw [hvt] at hsort ⊢
        obtain ⟨hsl, hsm, hAx, hxB, hAB⟩ := (kvSorted_append_iff _ _ _).mp hsort
        obtain ⟨hu, hvals, hflag⟩ := ih h0 hwm hsm
        obtain ⟨hu2, hvals2⟩ := fixChildren_specM 2 v1 v2
          (.node lnt lv1 lv2 ll lm lr) ((m.remove v).1) r h0 (Or.inl rfl)
          hv1 (fun h3x => absurd h3x (by decide)) hwl hu
          (fun h3x => absurd h3x (by decide))
        refine ⟨hu2, ?_, ?_⟩
        · rw [hvals2, hvals, listRemove_append_gt v w1 _ _
            (fun a ha => by have h5 := hAx a ha; omega) hgt1, hw1]
          simp [List.append_assoc]
        · rw [lookupKey_append_gt v.key w1 _ _
            (fun a ha => by have h5 := hAx a ha; omega) hgt1]
          exact hflag
      · subst h3n
        obtain ⟨w2, hw2⟩ := Option.isSome_iff_exists.mp hv2s
        have hlt2 : v.key < w2.key := by
          rw [hw2] at h3
          simpa [lessO_iff] using h3
        have hvt : (twoThreeNode.node 3 v1 v2 (.node lnt lv1 lv2 ll lm lr) m r).vals
            = (twoThreeNode.node lnt lv1 lv2 ll lm lr).vals
              ++ w1 :: (m.vals ++ w2 :: r.vals) := by
          rw [vals_intern2, hw1, hw2]; simp [List.append_assoc]
        rw [hvt] at hsort ⊢
        obtain ⟨hsl, hsB, hAx, hxB, hAB⟩ := (kvSorted_append_iff _ _ _).mp hsort
        obtain ⟨hsm, hsr, hmx2, hx2r, hmr⟩ := (kvSorted_append_iff _ _ _).mp hsB
        obtain ⟨hu, hvals, hflag⟩ := ih h0 hwm hsm
        obtain ⟨hu2, hvals2⟩ := fixChildren_specM 3 v1 v2
          (.node lnt lv1 lv2 ll lm lr) ((m.remove v).1) r h0 (Or.inr rfl)
          hv1 (fun _ => hv2s) hwl hu (fun _ => hwr)
        refine ⟨hu2, ?_, ?_⟩
        · rw [hvals2, hvals, listRemove_append_gt v w1 _ _
            (fun a ha => by have h5 := hAx a ha; omega) hgt1,
            listRemove_append_lt v w2 _ _ hlt2, hw1, hw2]
          simp [List.append_assoc]
        · rw [lookupKey_append_gt v.key w1 _ _
            (fun a ha => by have h5 := hAx a ha; omega) hgt1,
            lookupKey_append_lt v.key w2 _ _
            (fun b hb => Nat.lt_trans hlt2 (hx2r b hb)) hlt2]
          exact hflag
  | case10 nt v1 v2 m r lnt lv1 lv2 ll lm lr h1 h2 h3 h4 =>
    intro h hwf hsort
    cases h with
    | zero =>
      obtain ⟨hln, _, _, _⟩ := (ttWF_zero_iff nt v1 v2 _ m r).mp hwf
      exact absurd hln (by simp)
    | succ h0 =>
      obtain ⟨hv1, hwl, hwm, hk⟩ := ttWF_succ_parts nt v1 v2 _ m r h0 hwf
      obtain ⟨w1, hw1⟩ := Option.isSome_iff_exists.mp hv1
      have hnlt : ¬ v.key < w1.key := by
        have := hw1 ▸ h1; simpa [lessO_iff] using this
      have hne : ¬ v.key = w1.key := by
        have := hw1 ▸ h2; simpa [equalO_iff] using this
      have hgt1 : w1.key < v.key := by omega
      rw [remove_int_eq2 v nt v1 v2 lnt lv1 lv2 ll lm lr m r h1 h2 h3 h4]
      simp only [Bool.or_eq_true, beq_iff_eq, not_or] at h3
      rcases hk with h2n | ⟨h3n, hv2s, hwr⟩
      · exact absurd h2n h3.1
      subst h3n
      obtain ⟨w2, hw2⟩ := Option.isSome_iff_exists.mp hv2s
      have hkey2 : v.key = w2.key := (equalO_iff v w2).mp (hw2 ▸ h4)
      obtain ⟨hu, w, hwsucc, hveqr⟩ := removeLeftmost_spec r h0 hwr
      rw [hwsucc]
      have hvt : (twoThreeNode.node 3 v1 v2 (.node lnt lv1 lv2 ll lm lr) m r).vals
          = (twoThreeNode.node lnt lv1 lv2 ll lm lr).vals
            ++ w1 :: (m.vals ++ w2 :: r.vals) := by
        rw [vals_intern2, hw1, hw2]; simp [List.append_assoc]
      rw [hvt] at hsort ⊢
      obtain ⟨hsl, hsB, hAx, hxB, hAB⟩ := (kvSorted_append_iff _ _ _).mp hsort
      obtain ⟨hsm, hsr, hmx2, hx2r, hmr⟩ := (kvSorted_append_iff _ _ _).mp hsB
      obtain ⟨hu2, hvals2⟩ := fixChildren_specR v1 (some w)
        (.node lnt lv1 lv2 ll lm lr) m ((r.removeLeftmost).1) h0
        hv1 (by simp) hwl hwm hu
      refine ⟨hu2, ?_, ?_⟩
      · rw [hvals2, listRemove_append_gt v w1 _ _
          (fun a ha => by have h5 := hAx a ha; omega) hgt1,
          listRemove_append_eq v w2 _ _
          (fun a ha => by have h5 := hmx2 a ha; omega) hkey2, hveqr, hw1]
        simp [List.append_assoc]
      · rw [lookupKey_append_gt v.key w1 _ _
          (fun a ha => by have h5 := hAx a ha; omega) hgt1,
          lookupKey_append_eq v.key w2 _ _
          (fun a ha => by have h5 := hmx2 a ha; omega) hkey2]
        simp
  | case11 nt v1 v2 m r lnt lv1 lv2 ll lm lr h1 h2 h3 h4 ih =>
    intro h hwf hsort
    cases h with
    | zero =>
      obtain ⟨hln, _, _, _⟩ := (ttWF_zero_iff nt v1 v2 _ m r).mp hwf
      exact absurd hln (by simp)
    | succ h0 =>
      obtain ⟨hv1, hwl, hwm, hk⟩ := ttWF_succ_parts nt v1 v2 _ m r h0 hwf
      obtain ⟨w1, hw1⟩ := Option.isSome_iff_exists.mp hv1
      have hnlt : ¬ v.key < w1.key := by
        have := hw1 ▸ h1; simpa [lessO_iff] using this
      have hne : ¬ v.key = w1.key := by
        have := hw1 ▸ h2; simpa [equalO_iff] using this
      have hgt1 : w1.key < v.key := by omega
      rw [remove_int_gt v nt v1 v2 lnt lv1 lv2 ll lm lr m r h1 h2 h3 h4]
      simp only [Bool.or_eq_true, beq_iff_eq, not_or] at h3
      rcases hk with h2n | ⟨h3n, hv2s, hwr⟩
      · exact absurd h2n h3.1
      subst h3n
      obtain ⟨w2, hw2⟩ := Option.isSome_iff_exists.mp hv2s
      have hnlt2 : ¬ v.key < w2.key := by
        have := h3.2
        rw [hw2] at this
        simpa [lessO_iff] using this
      have hne2 : ¬ v.key = w2.key := by
        have := hw2 ▸ h4
        simpa [equalO_iff] using this
      have hgt2 : w2.key < v.key := by omega
      have hvt : (twoThreeNode.node 3 v1 v2 (.node lnt lv1 lv2 ll lm lr) m r).vals
          = (twoThreeNode.node lnt lv1 lv2 ll lm lr).vals
            ++ w1 :: (m.vals ++ w2 :: r.vals) := by
        rw [vals_intern2, hw1, hw2]; simp [List.append_assoc]
      rw [hvt] at hsort ⊢
      obtain ⟨hsl, hsB, hAx, hxB, hAB⟩ := (kvSorted_append_iff _ _ _).mp hsort
      obtain ⟨hsm, hsr, hmx2, hx2r, hmr⟩ := (kvSorted_append_iff _ _ _).mp hsB
      obtain ⟨hu, hvals, hflag⟩ := ih h0 hwr hsr
      obtain ⟨hu2, hvals2⟩ := fixChildren_specR v1 v2
        (.node lnt lv1 lv2 ll lm lr) m ((r.remove v).1) h0 hv1 hv2s hwl hwm hu
      refine ⟨hu2, ?_, ?_⟩
      · rw [hvals2, hvals, listRemove_append_gt v w1 _ _
          (fun a ha => by have h5 := hAx a ha; omega) hgt1,
          listRemove_append_gt v w2 _ _
          (fun a ha => by have h5 := hmx2 a ha; omega) hgt2, hw1, hw2]
        simp [List.append_assoc]
      · rw [lookupKey_append_gt v.key w1 _ _
          (fun a ha => by have h5 := hAx a ha; omega) hgt1,
          lookupKey_append_gt v.key w2 _ _
          (fun a ha => by have h5 := hmx2 a ha; omega) hgt2]
        exact hflag

theorem newTwoThreeNode_def (v : Option KV) (l m : twoThreeNode) :
    newTwoThreeNode v l m = .node 2 v none l m .nil := rfl

theorem typeOf_eq_two (t : twoThreeNode) (h1 : t.typeOf = 2) :
    ∃ a b l m r, t = .node 2 a b l m r := by
  cases t with
  | nil => simp [twoThreeNode.typeOf] at h1
  | node nt a b l m r =>
    simp only [twoThreeNode.typeOf] at h1
    exact ⟨a, b, l, m, r, by rw [h1]⟩

/-! Branch equations of `twoThreeNode.add`, one per control path. -/

theorem add_nil_lt3 (v : KV) (nt : Nat) (v1 v2 : Option KV) (m r : twoThreeNode)
    (h1 : lessO v v1 = true) (h2 : (nt == 3) = true) :
    (twoThreeNode.node nt v1 v2 .nil m r).add v
      = (newTwoThreeNode v1 (newTwoThreeNode (some v) .nil .nil)
          (newTwoThreeNode v2 .nil .nil), true, true) := by
  rw [twoThreeNode.add.eq_def]
  dsimp only []
  rw [if_pos h1, if_pos h2]

theorem add_nil_lt2 (v : KV) (nt : Nat) (v1 v2 : Option KV) (m r : twoThreeNode)
    (h1 : lessO v v1 = true) (h2 : ¬ (nt == 3) = true) :
    (twoThreeNode.node nt v1 v2 .nil m r).add v
      = (.node 3 (some v) v1 .nil m r, true, false) := by
  rw [twoThreeNode.add.eq_def]
  dsimp only []
  rw [if_pos h1, if_neg h2]

theorem add_int_lt_s3 (v : KV) (nt : Nat) (v1 v2 : Option KV) (lnt : Nat)
    (lv1 lv2 : Option KV) (ll lm lr m r : twoThreeNode)
    (h1 : lessO v v1 = true) (h2 : (nt == 3) = true)
    (hs : (((twoThreeNode.node lnt lv1 lv2 ll lm lr).add v).2).2 = true) :
    (twoThreeNode.node nt v1 v2 (.node lnt lv1 lv2 ll lm lr) m r).add v
      = (newTwoThreeNode v1 (((twoThreeNode.node lnt lv1 lv2 ll lm lr).add v).1)
          (newTwoThreeNode v2 m r), true, true) := by
  rw [twoThreeNode.add.eq_def]
  dsimp only []
  rw [if_pos h1, if_pos hs, if_pos h2]

theorem add_int_lt_s2 (v : KV) (nt : Nat) (v1 v2 : Option KV) (lnt : Nat)
    (lv1 lv2 : Option KV) (ll lm lr m r : twoThreeNode)
    (h1 : lessO v v1 = true) (h2 : ¬ (nt == 3) = true)
    (hs : (((twoThreeNode.node lnt lv1 lv2 ll lm lr).add v).2).2 = true) :
    (twoThreeNode.node nt v1 v2 (.node lnt lv1 lv2 ll lm lr) m r).add v
      = (.node 3 (((twoThreeNode.node lnt lv1 lv2 ll lm lr).add v).1).val1 v1
          (((twoThreeNode.node lnt lv1 lv2 ll lm lr).add v).1).leftC
          (((twoThreeNode.node lnt lv1 lv2 ll lm lr).add v).1).midC m, true, false) := by
  rw [twoThreeNode.add.eq_def]
  dsimp only []
  rw [if_pos h1, if_pos hs, if_neg h2]

theorem add_int_lt_ns (v : KV) (nt : Nat) (v1 v2 : Option KV) (lnt : Nat)
    (lv1 lv2 : Option KV) (ll lm lr m r : twoThreeNode)
    (h1 : lessO v v1 = true)
    (hs : ¬ (((twoThreeNode.node lnt lv1 lv2 ll lm lr).add v).2).2 = true) :
    (twoThreeNode.node nt v1 v2 (.node lnt lv1 lv2 ll lm lr) m r).add v
      = (.node nt v1 v2 (((twoThreeNode.node lnt lv1 lv2 ll lm lr).add v).1) m r,
         (((twoThreeNode.node lnt lv1 lv2 ll lm lr).add v).2).1, false) := by
  rw [twoThreeNode.add.eq_def]
  dsimp only []
  rw [if_pos h1, if_neg hs]

theorem add_eq1 (v : KV) (nt : Nat) (v1 v2 : Option KV) (l m r : twoThreeNode)
    (h1 : ¬ lessO v v1 = true) (h2 : equalO v v1 = true) :
    (twoThreeNode.node nt v1 v2 l m r).add v
      = (.node nt (some v) v2 l m r, false, false) := by
  rw [twoThreeNode.add.eq_def]
  dsimp only []
  rw [if_neg h1, if_pos h2]

theorem add_nil_2 (v : KV) (nt : Nat) (v1 v2 : Option KV) (m r : twoThreeNode)
    (h1 : ¬ lessO v v1 = true) (h2 : ¬ equalO v v1 = true) (h3 : (nt == 2) = true) :
    (twoThreeNode.node nt v1 v2 .nil m r).add v
      = (.node 3 v1 (some v) .nil m r, true, false) := by
  rw [twoThreeNode.add.eq_def]
  dsimp only []
  rw [if_neg h1, if_neg h2, if_pos h3]

theorem add_int_mid2_s (v : KV) (nt : Nat) (v1 v2 : Option KV) (lnt : Nat)
    (lv1 lv2 : Option KV) (ll lm lr m r : twoThreeNode)
    (h1 : ¬ lessO v v1 = true) (h2 : ¬ equalO v v1 = true) (h3 : (nt == 2) = true)
    (hs : ((m.add v).2).2 = true) :
    (twoThreeNode.node nt v1 v2 (.node lnt lv1 lv2 ll lm lr) m r).add v
      = (.node 3 v1 (((m.add v).1).val1) (.node lnt lv1 lv2 ll lm lr)
          (((m.add v).1).leftC) (((m.add v).1).midC), ((m.add v).2).1, false) := by
  rw [twoThreeNode.add.eq_def]
  dsimp only []
  rw [if_neg h1, if_neg h2, if_pos h3, if_pos hs]

theorem add_int_mid2_ns (v : KV) (nt : Nat) (v1 v2 : Option KV) (lnt : Nat)
    (lv1 lv2 : Option KV) (ll lm lr m r : twoThreeNode)
    (h1 : ¬ lessO v v1 = true) (h2 : ¬ equalO v v1 = true) (h3 : (nt == 2) = true)
    (hs : ¬ ((m.add v).2).2 = true) :
    (twoThreeNode.node nt v1 v2 (.node lnt lv1 lv2 ll lm lr) m r).add v
      = (.node nt v1 v2 (.node lnt lv1 lv2 ll lm lr) ((m.add v).1) r,
         ((m.add v).2).1, false) := by
  rw [twoThreeNode.add.eq_def]
  dsimp only []
  rw [if_neg h1, if_neg h2, if_pos h3, if_neg hs]

theorem add_nil_mid3 (v : KV) (nt : Nat) (v1 v2 : Option KV) (m r : twoThreeNode)
    (h1 : ¬ lessO v v1 = true) (h2 : ¬ equalO v v1 = true) (h3 : ¬ (nt == 2) = true)
    (h4 : lessO v v2 = true) :
    (twoThreeNode.node nt v1 v2 .nil m r).add v
      = (newTwoThreeNode (some v) (newTwoThreeNode v1 .nil .nil)
          (newTwoThreeNode v2 .nil .nil), true, true) := by
  rw [twoThreeNode.add.eq_def]
  dsimp only []
  rw [if_neg h1, if_neg h2, if_neg h3, if_pos h4]

theorem add_int_mid3_s (v : KV) (nt : Nat) (v1 v2 : Option KV) (lnt : Nat)
    (lv1 lv2 : Option KV) (ll lm lr m r : twoThreeNode)
    (h1 : ¬ lessO v v1 = true) (h2 : ¬ equalO v v1 = true) (h3 : ¬ (nt == 2) = true)
    (h4 : lessO v v2 = true) (hs : ((m.add v).2).2 = true) :
    (twoThreeNode.node nt v1 v2 (.node lnt lv1 lv2 ll lm lr) m r).add v
      = (newTwoThreeNode (((m.add v).1).val1)
          (newTwoThreeNode v1 (.node lnt lv1 lv2 ll lm lr) (((m.add v).1).leftC))
          (newTwoThreeNode v2 (((m.add v).1).midC) r), true, true) := by
  rw [twoThreeNode.add.eq_def]
  dsimp only []
  rw [if_neg h1, if_neg h2, if_neg h3, if_pos h4, if_pos hs]

theorem add_int_mid3_ns (v : KV) (nt : Nat) (v1 v2 : Option KV) (lnt : Nat)
    (lv1 lv2 : Option KV) (ll lm lr m r : twoThreeNode)
    (h1 : ¬ lessO v v1 = true) (h2 : ¬ equalO v v1 = true) (h3 : ¬ (nt == 2) = true)
    (h4 : lessO v v2 = true) (hs : ¬ ((m.add v).2).2 = true) :
    (twoThreeNode.node nt v1 v2 (.node lnt lv1 lv2 ll lm lr) m r).add v
      = (.node nt v1 v2 (.node lnt lv1 lv2 ll lm lr) ((m.add v).1) r,
         ((m.add v).2).1, false) := by
  rw [twoThreeNode.add.eq_def]
  dsimp only []
  rw [if_neg h1, if_neg h2, if_neg h3, if_pos h4, if_neg hs]

theorem add_eq2 (v : KV) (nt : Nat) (v1 v2 : Option KV) (l m r : twoThreeNode)
    (h1 : ¬ lessO v v1 = true) (h2 : ¬ equalO v v1 = true) (h3 : ¬ (nt == 2) = true)
    (h4 : ¬ lessO v v2 = true) (h5 : equalO v v2 = true) :
    (twoThreeNode.node nt v1 v2 l m r).add v
      = (.node nt v1 (some v) l m r, false, false) := by
  rw [twoThreeNode.add.eq_def]
  dsimp only []
  rw [if_neg h1, if_neg h2, if_neg h3, if_neg h4, if_pos h5]

theorem add_nil_gt (v : KV) (nt : Nat) (v1 v2 : Option KV) (m r : twoThreeNode)
    (h1 : ¬ lessO v v1 = true) (h2 : ¬ equalO v v1 = true) (h3 : ¬ (nt == 2) = true)
    (h4 : ¬ lessO v v2 = true) (h5 : ¬ equalO v v2 = true) :
    (twoThreeNode.node nt v1 v2 .nil m r).add v
      = (newTwoThreeNode v2 (newTwoThreeNode v1 .nil .nil)
          (newTwoThreeNode (some v) .nil .nil), true, true) := by
  rw [twoThreeNode.add.eq_def]
  dsimp only []
  rw [if_neg h1, if_neg h2, if_neg h3, if_neg h4, if_neg h5]

theorem add_int_gt_s (v : KV) (nt : Nat) (v1 v2 : Option KV) (lnt : Nat)
    (lv1 lv2 : Option KV) (ll lm lr m r : twoThreeNode)
    (h1 : ¬ lessO v v1 = true) (h2 : ¬ equalO v v1 = true) (h3 : ¬ (nt == 2) = true)
    (h4 : ¬ lessO v v2 = true) (h5 : ¬ equalO v v2 = true)
    (hs : ((r.add v).2).2 = true) :
    (twoThreeNode.node nt v1 v2 (.node lnt lv1 lv2 ll lm lr) m r).add v
      = (newTwoThreeNode v2 (newTwoThreeNode v1 (.node lnt lv1 lv2 ll lm lr) m)
          ((r.add v).1), true, true) := by
  rw [twoThreeNode.add.eq_def]
  dsimp only []
  rw [if_neg h1, if_neg h2, if_neg h3, if_neg h4, if_neg h5, if_pos hs]

theorem add_int_gt_ns (v : KV) (nt : Nat) (v1 v2 : Option KV) (lnt : Nat)
    (lv1 lv2 : Option KV) (ll lm lr m r : twoThreeNode)
    (h1 : ¬ lessO v v1 = true) (h2 : ¬ equalO v v1 = true) (h3 : ¬ (nt == 2) = true)
    (h4 : ¬ lessO v v2 = true) (h5 : ¬ equalO v v2 = true)
    (hs : ¬ ((r.add v).2).2 = true) :
    (twoThreeNode.node nt v1 v2 (.node lnt lv1 lv2 ll lm lr) m r).add v
      = (.node nt v1 v2 (.node lnt lv1 lv2 ll lm lr) m ((r.add v).1),
         ((r.add v).2).1, false) := by
  rw [twoThreeNode.add.eq_def]
  dsimp only []
  rw [if_neg h1, if_neg h2, if_neg h3, if_neg h4, if_neg h5, if_neg hs]

theorem val1_node (nt : Nat) (v1 v2 : Option KV) (l m r : twoThreeNode) :
    (twoThreeNode.node nt v1 v2 l m r).val1 = v1 := rfl

theorem val2_node (nt : Nat) (v1 v2 : Option KV) (l m r : twoThreeNode) :
    (twoThreeNode.node nt v1 v2 l m r).val2 = v2 := rfl

/-- Destructure the fresh 2-node produced by a split. -/
theorem split_parts (p1 : twoThreeNode) (h0 : Nat)
    (hw : ttWF p1 (h0 + 1) = true) (ht : p1.typeOf = 2) :
    ∃ a b l2 m2 r2, p1 = .node 2 a b l2 m2 r2 ∧ a.isSome = true ∧
      ttWF l2 h0 = true ∧ ttWF m2 h0 = true := by
  obtain ⟨a, b, l2, m2, r2, rfl⟩ := typeOf_eq_two p1 ht
  obtain ⟨ha, _, hsx⟩ := ttWF_parts2 a b l2 m2 r2 (h0 + 1) hw
  obtain ⟨h1x, h2x⟩ := hsx h0 rfl
  exact ⟨a, b, l2, m2, r2, rfl, ha, h1x, h2x⟩

/-- `twoThreeNode.add` on a well-formed subtree with sorted values: a split
hands back a fresh 2-node one level up, otherwise the height is unchanged;
the values become `listInsert` and the `addition` flag reports a fresh key. -/
theorem ttAdd_spec (v : KV) (t : twoThreeNode) :
    ∀ h : Nat, ttWF t h = true → kvSorted t.vals →
    ((t.add v).2.2 = true →
        ttWF (t.add v).1 (h + 1) = true ∧ (t.add v).1.typeOf = 2 ∧
        (t.add v).2.1 = true) ∧
    ((t.add v).2.2 = false → ttWF (t.add v).1 h = true) ∧
    (t.add v).1.vals = listInsert v t.vals ∧
    ((t.add v).2.1 = true ↔ lookupKey v.key t.vals = none) := by
  induction t using twoThreeNode.add.induct v with
  | case1 =>
    intro h hwf _
    exact absurd rfl (ttWF_ne_nil _ _ hwf)
  | case2 nt v1 v2 m r h1 h2 =>
    intro h hwf hsort
    cases h with
    | succ h0 =>
      have hx := (ttWF_succ_parts nt v1 v2 .nil m r h0 hwf).2.1
      simp [ttWF] at hx
    | zero =>
      obtain ⟨_, hmn, hrn, hk⟩ := (ttWF_zero_iff nt v1 v2 .nil m r).mp hwf
      subst hmn hrn
      rw [add_nil_lt3 v nt v1 v2 .nil .nil h1 h2]
      rcases hk with ⟨h2n, hv1⟩ | ⟨h3n, hv1, hv2⟩
      · rw [h2n] at h2; simp at h2
      subst h3n
      obtain ⟨w1, hw1⟩ := Option.isSome_iff_exists.mp hv1
      obtain ⟨w2, hw2⟩ := Option.isSome_iff_exists.mp hv2
      have hlt1 : v.key < w1.key := (lessO_iff v w1).mp (hw1 ▸ h1)
      rw [vals_node_nil, hw1, hw2] at hsort
      simp [kvSorted] at hsort
      refine ⟨fun _ => ⟨?_, rfl, rfl⟩, fun hc => by simp at hc, ?_, ?_⟩
      · simp [ttWF, newTwoThreeNode_def, hv1, hv2]
      · rw [vals_node_nil, hw1, hw2]
        simp [newTwoThreeNode_def, twoThreeNode.vals, listInsert,
          Nat.ne_of_lt hlt1, hlt1]
      · rw [vals_node_nil, hw1, hw2]
        simp [lookupKey, Nat.ne_of_lt hlt1, Nat.ne_of_lt (Nat.lt_trans hlt1 hsort)]
  | case3 nt v1 v2 m r h1 h2 =>
    intro h hwf hsort
    cases h with
    | succ h0 =>
      have hx := (ttWF_succ_parts nt v1 v2 .nil m r h0 hwf).2.1
      simp [ttWF] at hx
    | zero =>
      obtain ⟨_, hmn, hrn, hk⟩ := (ttWF_zero_iff nt v1 v2 .nil m r).mp hwf
      subst hmn hrn
      rw [add_nil_lt2 v nt v1 v2 .nil .nil h1 h2]
      rcases hk with ⟨h2n, hv1⟩ | ⟨h3n, hv1, hv2⟩
      on_goal 2 => rw [h3n] at h2; simp at h2
      subst h2n
      obtain ⟨w1, hw1⟩ := Option.isSome_iff_exists.mp hv1
      have hlt1 : v.key < w1.key := (lessO_iff v w1).mp (hw1 ▸ h1)
      refine ⟨fun hc => by simp at hc, fun _ => ?_, ?_, ?_⟩
      · simp [ttWF, hv1]
      · rw [vals_node_nil, vals_node_nil, hw1]
        simp [listInsert, Nat.ne_of_lt hlt1, hlt1]
      · rw [vals_node_nil, hw1]
        simp [lookupKey, Nat.ne_of_lt hlt1]
  | case4 nt v1 v2 m r h1 lnt lv1 lv2 ll lm lr h2 p hs ih =>
    intro h hwf hsort
    cases h with
    | zero =>
      obtain ⟨hln, _, _, _⟩ := (ttWF_zero_iff nt v1 v2 _ m r).mp hwf
      exact absurd hln (by simp)
    | succ h0 =>
      obtain ⟨hv1, hwl, hwm, hk⟩ := ttWF_succ_parts nt v1 v2 _ m r h0 hwf
      obtain ⟨w1, hw1⟩ := Option.isSome_iff_exists.mp hv1
      have hlt1 : v.key < w1.key := (lessO_iff v w1).mp (hw1 ▸ h1)
      have hs2 : (((twoThreeNode.node lnt lv1 lv2 ll lm lr).add v).2).2 = true := hs
      rw [add_int_lt_s3 v nt v1 v2 lnt lv1 lv2 ll lm lr m r h1 h2 hs2]
      rcases hk with h2n | ⟨h3n, hv2s, hwr⟩
      · rw [h2n] at h2; simp at h2
      subst h3n
      obtain ⟨w2, hw2⟩ := Option.isSome_iff_exists.mp hv2s
      have hvt : (twoThreeNode.node 3 v1 v2 (.node lnt lv1 lv2 ll lm lr) m r).vals
          = (twoThreeNode.node lnt lv1 lv2 ll lm lr).vals
            ++ w1 :: (m.vals ++ w2 :: r.vals) := by
        rw [vals_intern2, hw1, hw2]; simp [List.append_assoc]
      rw [hvt] at hsort ⊢
      obtain ⟨hsl, hsB, hAx, hxB, hAB⟩ := (kvSorted_append_iff _ _ _).mp hsort
      obtain ⟨ihs, _, ihv, ihf⟩ := ih h0 hwl hsl
      obtain ⟨hpw, _, hpa⟩ := ihs hs2
      have hpne : ((twoThreeNode.node lnt lv1 lv2 ll lm lr).add v).1 ≠ .nil :=
        ttWF_ne_nil _ _ hpw
      refine ⟨fun _ => ⟨?_, rfl, rfl⟩, fun hc => by simp at hc, ?_, ?_⟩
      · rw [newTwoThreeNode_def, newTwoThreeNode_def, ttWF_succ_iff]
        refine Or.inl ⟨rfl, hv1, hpw, ?_⟩
        rw [ttWF_succ_iff]
        exact Or.inl ⟨rfl, hv2s, hwm, hwr⟩
      · rw [newTwoThreeNode_def, newTwoThreeNode_def,
          vals_intern hpne, vals_intern (ttWF_ne_nil m h0 hwm), ihv,
          listInsert_append_lt v w1 _ _ hlt1, hw1, hw2]
        simp [List.append_assoc]
      · rw [lookupKey_append_lt v.key w1 _ _
          (fun b hb => Nat.lt_trans hlt1 (hxB b hb)) hlt1]
        exact ⟨fun _ => ihf.mp hpa, fun _ => rfl⟩
  | case5 nt v1 v2 m r h1 lnt lv1 lv2 ll lm lr h2 p hs ih =>
    intro h hwf hsort
    cases h with
    | zero =>
      obtain ⟨hln, _, _, _⟩ := (ttWF_zero_iff nt v1 v2 _ m r).mp hwf
      exact absurd hln (by simp)
    | succ h0 =>
      obtain ⟨hv1, hwl, hwm, hk⟩ := ttWF_succ_parts nt v1 v2 _ m r h0 hwf
      obtain ⟨w1, hw1⟩ := Option.isSome_iff_exists.mp hv1
      have hlt1 : v.key < w1.key := (lessO_iff v w1).mp (hw1 ▸ h1)
      have hs2 : (((twoThreeNode.node lnt lv1 lv2 ll lm lr).add v).2).2 = true := hs
      rw [add_int_lt_s2 v nt v1 v2 lnt lv1 lv2 ll lm lr m r h1 h2 hs2]
      rcases hk with h2n | ⟨h3n, hv2s, hwr⟩
      on_goal 2 => rw [h3n] at h2; simp at h2
      subst h2n
      have hvt : (twoThreeNode.node 2 v1 v2 (.node lnt lv1 lv2 ll lm lr) m r).vals
          = (twoThreeNode.node lnt lv1 lv2 ll lm lr).vals ++ w1 :: m.vals := by
        rw [vals_intern2, hw1]; simp
      rw [hvt] at hsort ⊢
      obtain ⟨hsl, hsm, hAx, hxB, hAB⟩ := (kvSorted_append_iff _ _ _).mp hsort
      obtain ⟨ihs, _, ihv, ihf⟩ := ih h0 hwl hsl
      obtain ⟨hpw, hpt, hpa⟩ := ihs hs2
      obtain ⟨a, b, l2, m2, r2, hp1, ha, hwl2, hwm2⟩ :=
        split_parts (((twoThreeNode.node lnt lv1 lv2 ll lm lr).add v).1) h0 hpw hpt
      rw [hp1] at ihv ⊢
      simp only [val1_node, leftC_node, midC_node]
      rw [vals_intern (ttWF_ne_nil l2 h0 hwl2) 2 a b m2 r2] at ihv
      refine ⟨fun hc => by simp at hc, fun _ => ?_, ?_, ?_⟩
      · rw [ttWF_succ_iff]
        exact Or.inr ⟨rfl, ha, hv1, hwl2, hwm2, hwm⟩
      · rw [vals_intern (ttWF_ne_nil l2 h0 hwl2) 3 a v1 m2 m,
          listInsert_append_lt v w1 _ _ hlt1, ← ihv, hw1]
        simp [List.append_assoc]
      · rw [lookupKey_append_lt v.key w1 _ _
          (fun b hb => Nat.lt_trans hlt1 (hxB b hb)) hlt1]
        exact iff_of_true trivial (ihf.mp hpa)
  | case6 nt v1 v2 m r h1 lnt lv1 lv2 ll lm lr p hs ih =>
    intro h hwf hsort
    cases h with
    | zero =>
      obtain ⟨hln, _, _, _⟩ := (ttWF_zero_iff nt v1 v2 _ m r).mp hwf
      exact absurd hln (by simp)
    | succ h0 =>
      obtain ⟨hv1, hwl, hwm, hk⟩ := ttWF_succ_parts nt v1 v2 _ m r h0 hwf
      obtain ⟨w1, hw1⟩ := Option.isSome_iff_exists.mp hv1
      have hlt1 : v.key < w1.key := (lessO_iff v w1).mp (hw1 ▸ h1)
      have hs2 : ¬ (((twoThreeNode.node lnt lv1 lv2 ll lm lr).add v).2).2 = true := hs
      rw [add_int_lt_ns v nt v1 v2 lnt lv1 lv2 ll lm lr m r h1 hs2]
      have hnt : nt = 2 ∨ nt = 3 := by
        rcases hk with h2n | ⟨h3n, _, _⟩
        · exact Or.inl h2n
        · exact Or.inr h3n
      rcases hk with h2n | ⟨h3n, hv2s, hwr⟩
      · subst h2n
        have hvt : (twoThreeNode.node 2 v1 v2 (.node lnt lv1 lv2 ll lm lr) m r).vals
            = (twoThreeNode.node lnt lv1 lv2 ll lm lr).vals ++ w1 :: m.vals := by
          rw [vals_intern2, hw1]; simp
        rw [hvt] at hsort ⊢
        obtain ⟨hsl, hsm, hAx, hxB, hAB⟩ := (kvSorted_append_iff _ _ _).mp hsort
        obtain ⟨ihs, ihns, ihv, ihf⟩ := ih h0 hwl hsl
        have hpw := ihns (Bool.eq_false_iff.mpr hs2)
        refine ⟨fun hc => by simp at hc, fun _ => ?_, ?_, ?_⟩
        · rw [ttWF_succ_iff]
          exact Or.inl ⟨rfl, hv1, hpw, hwm⟩
        · rw [vals_intern (ttWF_ne_nil _ h0 hpw) 2 v1 v2 m r, ihv,
            listInsert_append_lt v w1 _ _ hlt1, hw1]
          simp [List.append_assoc]
        · rw [lookupKey_append_lt v.key w1 _ _
            (fun b hb => Nat.lt_trans hlt1 (hxB b hb)) hlt1]
          exact ihf
      · subst h3n
        obtain ⟨w2, hw2⟩ := Option.isSome_iff_exists.mp hv2s
        have hvt : (twoThreeNode.node 3 v1 v2 (.node lnt lv1 lv2 ll lm lr) m r).vals
            = (twoThreeNode.node lnt lv1 lv2 ll lm lr).vals
              ++ w1 :: (m.vals ++ w2 :: r.vals) := by
          rw [vals_intern2, hw1, hw2]; simp [List.append_assoc]
        rw [hvt] at hsort ⊢
        obtain ⟨hsl, hsB, hAx, hxB, hAB⟩ := (kvSorted_append_iff _ _ _).mp hsort
        obtain ⟨ihs, ihns, ihv, ihf⟩ := ih h0 hwl hsl
        have hpw := ihns (Bool.eq_false_iff.mpr hs2)
        refine ⟨fun hc => by simp at hc, fun _ => ?_, ?_, ?_⟩
        · rw [ttWF_succ_iff]
          exact Or.inr ⟨rfl, hv1, hv2s, hpw, hwm, hwr⟩
        · rw [vals_intern (ttWF_ne_nil _ h0 hpw) 3 v1 v2 m r, ihv,
            listInsert_append_lt v w1 _ _ hlt1, hw1, hw2]
          simp [List.append_assoc]
        · rw [lookupKey_append_lt v.key w1 _ _
            (fun b hb => Nat.lt_trans hlt1 (hxB b hb)) hlt1]
          exact ihf
  | case7 nt v1 v2 l m r h1 h2 =>
    intro h hwf hsort
    rw [add_eq1 v nt v1 v2 l m r h1 h2]
    cases h with
    | zero =>
      obtain ⟨hln, hmn, hrn, hk⟩ := (ttWF_zero_iff nt v1 v2 l m r).mp hwf
      subst hln hmn hrn
      rcases hk with ⟨h2n, hv1⟩ | ⟨h3n, hv1, hv2⟩
      · subst h2n
        obtain ⟨w1, hw1⟩ := Option.isSome_iff_exists.mp hv1
        have hkey : v.key = w1.key := (equalO_iff v w1).mp (hw1 ▸ h2)
        refine ⟨fun hc => by simp at hc, fun _ => ?_, ?_, ?_⟩
        · simp [ttWF]
        · rw [vals_node_nil, vals_node_nil, hw1]
          simp [listInsert, hkey]
        · rw [vals_node_nil, hw1]
          simp [lookupKey, hkey]
      · subst h3n
        obtain ⟨w1, hw1⟩ := Option.isSome_iff_exists.mp hv1
        obtain ⟨w2, hw2⟩ := Option.isSome_iff_exists.mp hv2
        have hkey : v.key = w1.key := (equalO_iff v w1).mp (hw1 ▸ h2)
        refine ⟨fun hc => by simp at hc, fun _ => ?_, ?_, ?_⟩
        · simp [ttWF, hv2]
        · rw [vals_node_nil, vals_node_nil, hw1, hw2]
          simp [listInsert, hkey]
        · rw [vals_node_nil, hw1, hw2]
          simp [lookupKey, hkey]
    | succ h0 =>
      obtain ⟨hv1, hwl, hwm, hk⟩ := ttWF_succ_parts nt v1 v2 l m r h0 hwf
      obtain ⟨w1, hw1⟩ := Option.isSome_iff_exists.mp hv1
      have hkey : v.key = w1.key := (equalO_iff v w1).mp (hw1 ▸ h2)
      have hlne := ttWF_ne_nil l h0 hwl
      rcases hk with h2n | ⟨h3n, hv2s, hwr⟩
      · subst h2n
        have hvt : (twoThreeNode.node 2 v1 v2 l m r).vals
            = l.vals ++ w1 :: m.vals := by
          rw [vals_intern hlne, hw1]; simp
        rw [hvt] at hsort ⊢
        obtain ⟨hsl, hsm, hAx, hxB, hAB⟩ := (kvSorted_append_iff _ _ _).mp hsort
        refine ⟨fun hc => by simp at hc, fun _ => ?_, ?_, ?_⟩
        · rw [ttWF_succ_iff]
          exact Or.inl ⟨rfl, rfl, hwl, hwm⟩
        · rw [vals_intern hlne 2 (some v) v2 m r,
            listInsert_append_eq v w1 _ _
            (fun a ha => by have h5 := hAx a ha; omega) hkey]
          simp
        · rw [lookupKey_append_eq v.key w1 _ _
            (fun a ha => by have h5 := hAx a ha; omega) hkey]
          simp
      · subst h3n
        obtain ⟨w2, hw2⟩ := Option.isSome_iff_exists.mp hv2s
        have hvt : (twoThreeNode.node 3 v1 v2 l m r).vals
            = l.vals ++ w1 :: (m.vals ++ w2 :: r.vals) := by
          rw [vals_intern hlne, hw1, hw2]; simp [List.append_assoc]
        rw [hvt] at hsort ⊢
        obtain ⟨hsl, hsB, hAx, hxB, hAB⟩ := (kvSorted_append_iff _ _ _).mp hsort
        refine ⟨fun hc => by simp at hc, fun _ => ?_, ?_, ?_⟩
        · rw [ttWF_succ_iff]
          exact Or.inr ⟨rfl, rfl, hv2s, hwl, hwm, hwr⟩
        · rw [vals_intern hlne 3 (some v) v2 m r,
            listInsert_append_eq v w1 _ _
            (fun a ha => by have h5 := hAx a ha; omega) hkey, hw2]
          simp [List.append_assoc]
        · rw [lookupKey_append_eq v.key w1 _ _
            (fun a ha => by have h5 := hAx a ha; omega) hkey]
          simp
  | case8 nt v1 v2 m r h1 h2 h3 =>
    intro h hwf hsort
    cases h with
    | succ h0 =>
      have hx := (ttWF_succ_parts nt v1 v2 .nil m r h0 hwf).2.1
      simp [ttWF] at hx
    | zero =>
      obtain ⟨_, hmn, hrn, hk⟩ := (ttWF_zero_iff nt v1 v2 .nil m r).mp hwf
      subst hmn hrn
      rw [add_nil_2 v nt v1 v2 .nil .nil h1 h2 h3]
      rcases hk with ⟨h2n, hv1⟩ | ⟨h3n, hv1, hv2⟩
      on_goal 2 => rw [h3n] at h3; simp at h3
      subst h2n
      obtain ⟨w1, hw1⟩ := Option.isSome_iff_exists.mp hv1
      have hnlt : ¬ v.key < w1.key := by
        have := hw1 ▸ h1; simpa [lessO_iff] using this
      have hne : ¬ v.key = w1.key := by
        have := hw1 ▸ h2; simpa [equalO_iff] using this
      refine ⟨fun hc => by simp at hc, fun _ => ?_, ?_, ?_⟩
      · simp [ttWF, hv1]
      · rw [vals_node_nil, vals_node_nil, hw1]
        simp [listInsert, hne, hnlt]
      · rw [vals_node_nil, hw1]
        simp [lookupKey, hne]
  | case9 nt v1 v2 m r h1 h2 h3 lnt lv1 lv2 ll lm lr p hs ih =>
    intro h hwf hsort
    cases h with
    | zero =>
      obtain ⟨hln, _, _, _⟩ := (ttWF_zero_iff nt v1 v2 _ m r).mp hwf
      exact absurd hln (by simp)
    | succ h0 =>
      obtain ⟨hv1, hwl, hwm, hk⟩ := ttWF_succ_parts nt v1 v2 _ m r h0 hwf
      obtain ⟨w1, hw1⟩ := Option.isSome_iff_exists.mp hv1
      have hnlt : ¬ v.key < w1.key := by
        have := hw1 ▸ h1; simpa [lessO_iff] using this
      have hne : ¬ v.key = w1.key := by
        have := hw1 ▸ h2; simpa [equalO_iff] using this
      have hgt1 : w1.key < v.key := by omega
      have hs2 : ((m.add v).2).2 = true := hs
      rw [add_int_mid2_s v nt v1 v2 lnt lv1 lv2 ll lm lr m r h1 h2 h3 hs2]
      have h2n : nt = 2 := eq_of_beq h3
      subst h2n
      have hvt : (twoThreeNode.node 2 v1 v2 (.node lnt lv1 lv2 ll lm lr) m r).vals
          = (twoThreeNode.node lnt lv1 lv2 ll lm lr).vals ++ w1 :: m.vals := by
        rw [vals_intern2, hw1]; simp
      rw [hvt] at hsort ⊢
      obtain ⟨hsl, hsm, hAx, hxB, hAB⟩ := (kvSorted_append_iff _ _ _).mp hsort
      obtain ⟨ihs, _, ihv, ihf⟩ := ih h0 hwm hsm
      obtain ⟨hpw, hpt, hpa⟩ := ihs hs2
      obtain ⟨a, b, l2, m2, r2, hp1, ha, hwl2, hwm2⟩ :=
        split_parts ((m.add v).1) h0 hpw hpt
      rw [hp1] at ihv ⊢
      simp only [val1_node, leftC_node, midC_node]
      rw [vals_intern (ttWF_ne_nil l2 h0 hwl2) 2 a b m2 r2] at ihv
      refine ⟨fun hc => by simp at hc, fun _ => ?_, ?_, ?_⟩
      · rw [ttWF_succ_iff]
        exact Or.inr ⟨rfl, hv1, ha, hwl, hwl2, hwm2⟩
      · rw [vals_intern (ttWF_ne_nil _ h0 hwl) 3 v1 a l2 m2,
          listInsert_append_gt v w1 _ _
          (fun a2 ha2 => by have h5 := hAx a2 ha2; omega) hgt1, ← ihv, hw1]
        simp [List.append_assoc]
      · rw [lookupKey_append_gt v.key w1 _ _
          (fun a2 ha2 => by have h5 := hAx a2 ha2; omega) hgt1]
        exact ihf
  | case10 nt v1 v2 m r h1 h2 h3 lnt lv1 lv2 ll lm lr p hs ih =>
    intro h hwf hsort
    cases h with
    | zero =>
      obtain ⟨hln, _, _, _⟩ := (ttWF_zero_iff nt v1 v2 _ m r).mp hwf
      exact absurd hln (by simp)
    | succ h0 =>
      obtain ⟨hv1, hwl, hwm, hk⟩ := ttWF_succ_parts nt v1 v2 _ m r h0 hwf
      obtain ⟨w1, hw1⟩ := Option.isSome_iff_exists.mp hv1
      have hnlt : ¬ v.key < w1.key := by
        have := hw1 ▸ h1; simpa [lessO_iff] using this
      have hne : ¬ v.key = w1.key := by
        have := hw1 ▸ h2; simpa [equalO_iff] using this
      have hgt1 : w1.key < v.key := by omega
      have hs2 : ¬ ((m.add v).2).2 = true := hs
      rw [add_int_mid2_ns v nt v1 v2 lnt lv1 lv2 ll lm lr m r h1 h2 h3 hs2]
      have h2n : nt = 2 := eq_of_beq h3
      subst h2n
      have hvt : (twoThreeNode.node 2 v1 v2 (.node lnt lv1 lv2 ll lm lr) m r).vals
          = (twoThreeNode.node lnt lv1 lv2 ll lm lr).vals ++ w1 :: m.vals := by
        rw [vals_intern2, hw1]; simp
      rw [hvt] at hsort ⊢
      obtain ⟨hsl, hsm, hAx, hxB, hAB⟩ := (kvSorted_append_iff _ _ _).mp hsort
      obtain ⟨_, ihns, ihv, ihf⟩ := ih h0 hwm hsm
      have hpw := ihns (Bool.eq_false_iff.mpr hs2)
      refine ⟨fun hc => by simp at hc, fun _ => ?_, ?_, ?_⟩
      · rw [ttWF_succ_iff]
        exact Or.inl ⟨rfl, hv1, hwl, hpw⟩
      · rw [vals_intern (ttWF_ne_nil _ h0 hwl) 2 v1 v2 ((m.add v).1) r, ihv,
          listInsert_append_gt v w1 _ _
          (fun a2 ha2 => by have h5 := hAx a2 ha2; omega) hgt1, hw1]
        simp [List.append_assoc]
      · rw [lookupKey_append_gt v.key w1 _ _
          (fun a2 ha2 => by have h5 := hAx a2 ha2; omega) hgt1]
        exact ihf
  | case11 nt v1 v2 m r h1 h2 h3 h4 =>
    intro h hwf hsort
    cases h with
    | succ h0 =>
      have hx := (ttWF_succ_parts nt v1 v2 .nil m r h0 hwf).2.1
      simp [ttWF] at hx
    | zero =>
      obtain ⟨_, hmn, hrn, hk⟩ := (ttWF_zero_iff nt v1 v2 .nil m r).mp hwf
      subst hmn hrn
      rw [add_nil_mid3 v nt v1 v2 .nil .nil h1 h2 h3 h4]
      rcases hk with ⟨h2n, hv1⟩ | ⟨h3n, hv1, hv2⟩
      on_goal 1 => rw [h2n] at h3; simp at h3
      subst h3n
      obtain ⟨w1, hw1⟩ := Option.isSome_iff_exists.mp hv1
      obtain ⟨w2, hw2⟩ := Option.isSome_iff_exists.mp hv2
      have hnlt : ¬ v.key < w1.key := by
        have := hw1 ▸ h1; simpa [lessO_iff] using this
      have hne : ¬ v.key = w1.key := by
        have := hw1 ▸ h2; simpa [equalO_iff] using this
      have hlt2 : v.key < w2.key := (lessO_iff v w2).mp (hw2 ▸ h4)
      refine ⟨fun _ => ⟨?_, rfl, rfl⟩, fun hc => by simp at hc, ?_, ?_⟩
      · simp [ttWF, newTwoThreeNode_def, hv1, hv2]
      · rw [vals_node_nil, hw1, hw2]
        simp [newTwoThreeNode_def, twoThreeNode.vals, listInsert, hne, hnlt,
          Nat.ne_of_lt hlt2, hlt2]
      · rw [vals_node_nil, hw1, hw2]
        simp [lookupKey, hne, Nat.ne_of_lt hlt2]
  | case12 nt v1 v2 m r h1 h2 h3 h4 lnt lv1 lv2 ll lm lr p hs ih =>
    intro h hwf hsort
    cases h with
    | zero =>
      obtain ⟨hln, _, _, _⟩ := (ttWF_zero_iff nt v1 v2 _ m r).mp hwf
      exact absurd hln (by simp)
    | succ h0 =>
      obtain ⟨hv1, hwl, hwm, hk⟩ := ttWF_succ_parts nt v1 v2 _ m r h0 hwf
      obtain ⟨w1, hw1⟩ := Option.isSome_iff_exists.mp hv1
      have hnlt : ¬ v.key < w1.key := by
        have := hw1 ▸ h1; simpa [lessO_iff] using this
      have hne : ¬ v.key = w1.key := by
        have := hw1 ▸ h2; simpa [equalO_iff] using this
      have hgt1 : w1.key < v.key := by omega
      have hs2 : ((m.add v).2).2 = true := hs
      rw [add_int_mid3_s v nt v1 v2 lnt lv1 lv2 ll lm lr m r h1 h2 h3 h4 hs2]
      rcases hk with h2n | ⟨h3n, hv2s, hwr⟩
      on_goal 1 => rw [h2n] at h3; simp at h3
      subst h3n
      obtain ⟨w2, hw2⟩ := Option.isSome_iff_exists.mp hv2s
      have hlt2 : v.key < w2.key := (lessO_iff v w2).mp (hw2 ▸ h4)
      have hvt : (twoThreeNode.node 3 v1 v2 (.node lnt lv1 lv2 ll lm lr) m r).vals
          = (twoThreeNode.node lnt lv1 lv2 ll lm lr).vals
            ++ w1 :: (m.vals ++ w2 :: r.vals) := by
        rw [vals_intern2, hw1, hw2]; simp [List.append_assoc]
      rw [hvt] at hsort ⊢
      obtain ⟨hsl, hsB, hAx, hxB, hAB⟩ := (kvSorted_append_iff _ _ _).mp hsort
      obtain ⟨hsm, hsr, hmx2, hx2r, hmr⟩ := (kvSorted_append_iff _ _ _).mp hsB
      obtain ⟨ihs, _, ihv, ihf⟩ := ih h0 hwm hsm
      obtain ⟨hpw, hpt, hpa⟩ := ihs hs2
      obtain ⟨a, b, l2, m2, r2, hp1, ha, hwl2, hwm2⟩ :=
        split_parts ((m.add v).1) h0 hpw hpt
      rw [hp1] at ihv ⊢
      simp only [val1_node, leftC_node, midC_node]
      rw [vals_intern (ttWF_ne_nil l2 h0 hwl2) 2 a b m2 r2] at ihv
      refine ⟨fun _ => ⟨?_, by trivial, by trivial⟩, fun hc => by simp at hc, ?_, ?_⟩
      · rw [newTwoThreeNode_def, newTwoThreeNode_def, newTwoThreeNode_def,
          ttWF_succ_iff]
        refine Or.inl ⟨rfl, ha, ?_, ?_⟩
        · rw [ttWF_succ_iff]
          exact Or.inl ⟨rfl, hv1, hwl, hwl2⟩
        · rw [ttWF_succ_iff]
          exact Or.inl ⟨rfl, hv2s, hwm2, hwr⟩
      · rw [newTwoThreeNode_def, newTwoThreeNode_def, newTwoThreeNode_def,
          vals_intern2, vals_intern2, vals_intern (ttWF_ne_nil m2 h0 hwm2),
          listInsert_append_gt v w1 _ _
          (fun a2 ha2 => by have h5 := hAx a2 ha2; omega) hgt1,
          listInsert_append_lt v w2 _ _ hlt2, ← ihv, hw1, hw2]
        simp [List.append_assoc]
      · rw [lookupKey_append_gt v.key w1 _ _
          (fun a2 ha2 => by have h5 := hAx a2 ha2; omega) hgt1,
          lookupKey_append_lt v.key w2 _ _
          (fun b2 hb2 => Nat.lt_trans hlt2 (hx2r b2 hb2)) hlt2]
        exact iff_of_true trivial (ihf.mp hpa)
  | case13 nt v1 v2 m r h1 h2 h3 h4 lnt lv1 lv2 ll lm lr p hs ih =>
    intro h hwf hsort
    cases h with
    | zero =>
      obtain ⟨hln, _, _, _⟩ := (ttWF_zero_iff nt v1 v2 _ m r).mp hwf
      exact absurd hln (by simp)
    | succ h0 =>
      obtain ⟨hv1, hwl, hwm, hk⟩ := ttWF_succ_parts nt v1 v2 _ m r h0 hwf
      obtain ⟨w1, hw1⟩ := Option.isSome_iff_exists.mp hv1
      have hnlt : ¬ v.key < w1.key := by
        have := hw1 ▸ h1; simpa [lessO_iff] using this
      have hne : ¬ v.key = w1.key := by
        have := hw1 ▸ h2; simpa [equalO_iff] using this
      have hgt1 : w1.key < v.key := by omega
      have hs2 : ¬ ((m.add v).2).2 = true := hs
      rw [add_int_mid3_ns v nt v1 v2 lnt lv1 lv2 ll lm lr m r h1 h2 h3 h4 hs2]
      rcases hk with h2n | ⟨h3n, hv2s, hwr⟩
      on_goal 1 => rw [h2n] at h3; simp at h3
      subst h3n
      obtain ⟨w2, hw2⟩ := Option.isSome_iff_exists.mp hv2s
      have hlt2 : v.key < w2.key := (lessO_iff v w2).mp (hw2 ▸ h4)
      have hvt : (twoThreeNode.node 3 v1 v2 (.node lnt lv1 lv2 ll lm lr) m r).vals
          = (twoThreeNode.node lnt lv1 lv2 ll lm lr).vals
            ++ w1 :: (m.vals ++ w2 :: r.vals) := by
        rw [vals_intern2, hw1, hw2]; simp [List.append_assoc]
      rw [hvt] at hsort ⊢
      obtain ⟨hsl, hsB, hAx, hxB, hAB⟩ := (kvSorted_append_iff _ _ _).mp hsort
      obtain ⟨hsm, hsr, hmx2, hx2r, hmr⟩ := (kvSorted_append_iff _ _ _).mp hsB
      obtain ⟨_, ihns, ihv, ihf⟩ := ih h0 hwm hsm
      have hpw := ihns (Bool.eq_false_iff.mpr hs2)
      refine ⟨fun hc => by simp at hc, fun _ => ?_, ?_, ?_⟩
      · rw [ttWF_succ_iff]
        exact Or.inr ⟨rfl, hv1, hv2s, hwl, hpw, hwr⟩
      · rw [vals_intern (ttWF_ne_nil _ h0 hwl) 3 v1 v2 ((m.add v).1) r, ihv,
          listInsert_append_gt v w1 _ _
          (fun a2 ha2 => by have h5 := hAx a2 ha2; omega) hgt1,
          listInsert_append_lt v w2 _ _ hlt2, hw1, hw2]
        simp [List.append_assoc]
      · rw [lookupKey_append_gt v.key w1 _ _
          (fun a2 ha2 => by have h5 := hAx a2 ha2; omega) hgt1,
          lookupKey_append_lt v.key w2 _ _
          (fun b2 hb2 => Nat.lt_trans hlt2 (hx2r b2 hb2)) hlt2]
        exact ihf
  | case14 nt v1 v2 l m r h1 h2 h3 h4 h5 =>
    intro h hwf hsort
    rw [add_eq2 v nt v1 v2 l m r h1 h2 h3 h4 h5]
    cases h with
    | zero =>
      obtain ⟨hln, hmn, hrn, hk⟩ := (ttWF_zero_iff nt v1 v2 l m r).mp hwf
      subst hln hmn hrn
      rcases hk with ⟨h2n, hv1⟩ | ⟨h3n, hv1, hv2⟩
      on_goal 1 => rw [h2n] at h3; simp at h3
      subst h3n
      obtain ⟨w1, hw1⟩ := Option.isSome_iff_exists.mp hv1
      obtain ⟨w2, hw2⟩ := Option.isSome_iff_exists.mp hv2
      have hnlt : ¬ v.key < w1.key := by
        have := hw1 ▸ h1; simpa [lessO_iff] using this
      have hne : ¬ v.key = w1.key := by
        have := hw1 ▸ h2; simpa [equalO_iff] using this
      have hkey2 : v.key = w2.key := (equalO_iff v w2).mp (hw2 ▸ h5)
      rw [vals_node_nil, hw1, hw2] at hsort
      simp [kvSorted] at hsort
      refine ⟨fun hc => by simp at hc, fun _ => ?_, ?_, ?_⟩
      · simp [ttWF, hv1]
      · rw [vals_node_nil, vals_node_nil, hw1, hw2]
        simp [listInsert, hne, hnlt, hkey2, Nat.ne_of_gt hsort, Nat.lt_asymm hsort]
      · rw [vals_node_nil, hw1, hw2]
        simp [lookupKey, hne, hkey2, Nat.ne_of_gt hsort]
    | succ h0 =>
      obtain ⟨hv1, hwl, hwm, hk⟩ := ttWF_succ_parts nt v1 v2 l m r h0 hwf
      obtain ⟨w1, hw1⟩ := Option.isSome_iff_exists.mp hv1
      have hnlt : ¬ v.key < w1.key := by
        have := hw1 ▸ h1; simpa [lessO_iff] using this
      have hne : ¬ v.key = w1.key := by
        have := hw1 ▸ h2; simpa [equalO_iff] using this
      have hgt1 : w1.key < v.key := by omega
      have hlne := ttWF_ne_nil l h0 hwl
      rcases hk with h2n | ⟨h3n, hv2s, hwr⟩
      on_goal 1 => rw [h2n] at h3; simp at h3
      subst h3n
      obtain ⟨w2, hw2⟩ := Option.isSome_iff_exists.mp hv2s
      have hkey2 : v.key = w2.key := (equalO_iff v w2).mp (hw2 ▸ h5)
      have hvt : (twoThreeNode.node 3 v1 v2 l m r).vals
          = l.vals ++ w1 :: (m.vals ++ w2 :: r.vals) := by
        rw [vals_intern hlne, hw1, hw2]; simp [List.append_assoc]
      rw [hvt] at hsort ⊢
      obtain ⟨hsl, hsB, hAx, hxB, hAB⟩ := (kvSorted_append_iff _ _ _).mp hsort
      obtain ⟨hsm, hsr, hmx2, hx2r, hmr⟩ := (kvSorted_append_iff _ _ _).mp hsB
      refine ⟨fun hc => by simp at hc, fun _ => ?_, ?_, ?_⟩
      · rw [ttWF_succ_iff]
        exact Or.inr ⟨rfl, hv1, rfl, hwl, hwm, hwr⟩
      · rw [vals_intern hlne 3 v1 (some v) m r,
          listInsert_append_gt v w1 _ _
          (fun a2 ha2 => by have h5x := hAx a2 ha2; omega) hgt1,
          listInsert_append_eq v w2 _ _
          (fun a2 ha2 => by have h5x := hmx2 a2 ha2; omega) hkey2, hw1]
        simp [List.append_assoc]
      · rw [lookupKey_append_gt v.key w1 _ _
          (fun a2 ha2 => by have h5x := hAx a2 ha2; omega) hgt1,
          lookupKey_append_eq v.key w2 _ _
          (fun a2 ha2 => by have h5x := hmx2 a2 ha2; omega) hkey2]
        simp
  | case15 nt v1 v2 m r h1 h2 h3 h4 h5 =>
    intro h hwf hsort
    cases h with
    | succ h0 =>
      have hx := (ttWF_succ_parts nt v1 v2 .nil m r h0 hwf).2.1
      simp [ttWF] at hx
    | zero =>
      obtain ⟨_, hmn, hrn, hk⟩ := (ttWF_zero_iff nt v1 v2 .nil m r).mp hwf
      subst hmn hrn
      rw [add_nil_gt v nt v1 v2 .nil .nil h1 h2 h3 h4 h5]
      rcases hk with ⟨h2n, hv1⟩ | ⟨h3n, hv1, hv2⟩
      on_goal 1 => rw [h2n] at h3; simp at h3
      subst h3n
      obtain ⟨w1, hw1⟩ := Option.isSome_iff_exists.mp hv1
      obtain ⟨w2, hw2⟩ := Option.isSome_iff_exists.mp hv2
      have hnlt : ¬ v.key < w1.key := by
        have := hw1 ▸ h1; simpa [lessO_iff] using this
      have hne : ¬ v.key = w1.key := by
        have := hw1 ▸ h2; simpa [equalO_iff] using this
      have hnlt2 : ¬ v.key < w2.key := by
        have := hw2 ▸ h4; simpa [lessO_iff] using this
      have hne2 : ¬ v.key = w2.key := by
        have := hw2 ▸ h5; simpa [equalO_iff] using this
      refine ⟨fun _ => ⟨?_, rfl, rfl⟩, fun hc => by simp at hc, ?_, ?_⟩
      · simp [ttWF, newTwoThreeNode_def, hv1, hv2]
      · rw [vals_node_nil, hw1, hw2]
        simp [newTwoThreeNode_def, twoThreeNode.vals, listInsert, hne, hnlt,
          hne2, hnlt2]
      · rw [vals_node_nil, hw1, hw2]
        simp [lookupKey, hne, hne2]
  | case16 nt v1 v2 m r h1 h2 h3 h4 h5 lnt lv1 lv2 ll lm lr p hs ih =>
    intro h hwf hsort
    cases h with
    | zero =>
      obtain ⟨hln, _, _, _⟩ := (ttWF_zero_iff nt v1 v2 _ m r).mp hwf
      exact absurd hln (by simp)
    | succ h0 =>
      obtain ⟨hv1, hwl, hwm, hk⟩ := ttWF_succ_parts nt v1 v2 _ m r h0 hwf
      obtain ⟨w1, hw1⟩ := Option.isSome_iff_exists.mp hv1
      have hnlt : ¬ v.key < w1.key := by
        have := hw1 ▸ h1; simpa [lessO_iff] using this
      have hne : ¬ v.key = w1.key := by
        have := hw1 ▸ h2; simpa [equalO_iff] using this
      have hgt1 : w1.key < v.key := by omega
      have hs2 : ((r.add v).2).2 = true := hs
      rw [add_int_gt_s v nt v1 v2 lnt lv1 lv2 ll lm lr m r h1 h2 h3 h4 h5 hs2]
      rcases hk with h2n | ⟨h3n, hv2s, hwr⟩
      on_goal 1 => rw [h2n] at h3; simp at h3
      subst h3n
      obtain ⟨w2, hw2⟩ := Option.isSome_iff_exists.mp hv2s
      have hnlt2 : ¬ v.key < w2.key := by
        have := hw2 ▸ h4; simpa [lessO_iff] using this
      have hne2 : ¬ v.key = w2.key := by
        have := hw2 ▸ h5; simpa [equalO_iff] using this
      have hgt2 : w2.key < v.key := by omega
      have hvt : (twoThreeNode.node 3 v1 v2 (.node lnt lv1 lv2 ll lm lr) m r).vals
          = (twoThreeNode.node lnt lv1 lv2 ll lm lr).vals
            ++ w1 :: (m.vals ++ w2 :: r.vals) := by
        rw [vals_intern2, hw1, hw2]; simp [List.append_assoc]
      rw [hvt] at hsort ⊢
      obtain ⟨hsl, hsB, hAx, hxB, hAB⟩ := (kvSorted_append_iff _ _ _).mp hsort
      obtain ⟨hsm, hsr, hmx2, hx2r, hmr⟩ := (kvSorted_append_iff _ _ _).mp hsB
      obtain ⟨ihs, _, ihv, ihf⟩ := ih h0 hwr hsr
      obtain ⟨hpw, _, hpa⟩ := ihs hs2
      refine ⟨fun _ => ⟨?_, rfl, rfl⟩, fun hc => by simp at hc, ?_, ?_⟩
      · rw [newTwoThreeNode_def, newTwoThreeNode_def, ttWF_succ_iff]
        refine Or.inl ⟨rfl, hv2s, ?_, hpw⟩
        rw [ttWF_succ_iff]
        exact Or.inl ⟨rfl, hv1, hwl, hwm⟩
      · rw [newTwoThreeNode_def, newTwoThreeNode_def, vals_intern2, vals_intern2,
          ihv, listInsert_append_gt v w1 _ _
          (fun a2 ha2 => by have h5x := hAx a2 ha2; omega) hgt1,
          listInsert_append_gt v w2 _ _
          (fun a2 ha2 => by have h5x := hmx2 a2 ha2; omega) hgt2, hw1, hw2]
        simp [List.append_assoc]
      · rw [lookupKey_append_gt v.key w1 _ _
          (fun a2 ha2 => by have h5x := hAx a2 ha2; omega) hgt1,
          lookupKey_append_gt v.key w2 _ _
          (fun a2 ha2 => by have h5x := hmx2 a2 ha2; omega) hgt2]
        exact ⟨fun _ => ihf.mp hpa, fun _ => rfl⟩
  | case17 nt v1 v2 m r h1 h2 h3 h4 h5 lnt lv1 lv2 ll lm lr p hs ih =>
    intro h hwf hsort
    cases h with
    | zero =>
      obtain ⟨hln, _, _, _⟩ := (ttWF_zero_iff nt v1 v2 _ m r).mp hwf
      exact absurd hln (by simp)
    | succ h0 =>
      obtain ⟨hv1, hwl, hwm, hk⟩ := ttWF_succ_parts nt v1 v2 _ m r h0 hwf
      obtain ⟨w1, hw1⟩ := Option.isSome_iff_exists.mp hv1
      have hnlt : ¬ v.key < w1.key := by
        have := hw1 ▸ h1; simpa [lessO_iff] using this
      have hne : ¬ v.key = w1.key := by
        have := hw1 ▸ h2; simpa [equalO_iff] using this
      have hgt1 : w1.key < v.key := by omega
      have hs2 : ¬ ((r.add v).2).2 = true := hs
      rw [add_int_gt_ns v nt v1 v2 lnt lv1 lv2 ll lm lr m r h1 h2 h3 h4 h5 hs2]
      rcases hk with h2n | ⟨h3n, hv2s, hwr⟩
      on_goal 1 => rw [h2n] at h3; simp at h3
      subst h3n
      obtain ⟨w2, hw2⟩ := Option.isSome_iff_exists.mp hv2s
      have hnlt2 : ¬ v.key < w2.key := by
        have := hw2 ▸ h4; simpa [lessO_iff] using this
      have hne2 : ¬ v.key = w2.key := by
        have := hw2 ▸ h5; simpa [equalO_iff] using this
      have hgt2 : w2.key < v.key := by omega
      have hvt : (twoThreeNode.node 3 v1 v2 (.node lnt lv1 lv2 ll lm lr) m r).vals
          = (twoThreeNode.node lnt lv1 lv2 ll lm lr).vals
            ++ w1 :: (m.vals ++ w2 :: r.vals) := by
        rw [vals_intern2, hw1, hw2]; simp [List.append_assoc]
      rw [hvt] at hsort ⊢
      obtain ⟨hsl, hsB, hAx, hxB, hAB⟩ := (kvSorted_append_iff _ _ _).mp hsort
      obtain ⟨hsm, hsr, hmx2, hx2r, hmr⟩ := (kvSorted_append_iff _ _ _).mp hsB
      obtain ⟨_, ihns, ihv, ihf⟩ := ih h0 hwr hsr
      have hpw := ihns (Bool.eq_false_iff.mpr hs2)
      refine ⟨fun hc => by simp at hc, fun _ => ?_, ?_, ?_⟩
      · rw [ttWF_succ_iff]
        exact Or.inr ⟨rfl, hv1, hv2s, hwl, hwm, hpw⟩
      · rw [vals_intern (ttWF_ne_nil _ h0 hwl) 3 v1 v2 m ((r.add v).1), ihv,
          listInsert_append_gt v w1 _ _
          (fun a2 ha2 => by have h5x := hAx a2 ha2; omega) hgt1,
          listInsert_append_gt v w2 _ _
          (fun a2 ha2 => by have h5x := hmx2 a2 ha2; omega) hgt2, hw1, hw2]
        simp [List.append_assoc]
      · rw [lookupKey_append_gt v.key w1 _ _
          (fun a2 ha2 => by have h5x := hAx a2 ha2; omega) hgt1,
          lookupKey_append_gt v.key w2 _ _
          (fun a2 ha2 => by have h5x := hmx2 a2 ha2; omega) hgt2]
        exact ihf

/-! ## Tree-level `TwoThreeTree` invariant -/

/-- The `TwoThreeTree` container invariant: sorted stored values, an accurate
count, and a root that is absent or a well-formed 2-3 subtree. -/
def ttInv (t : TwoThreeTree) : Prop :=
  kvSorted t.root.vals ∧ t.count = (t.root.vals.length : Int) ∧
  (t.root = .nil ∨ ∃ h, ttWF t.root h = true)

theorem ttInv_empty : ttInv TwoThreeTree.empty :=
  ⟨List.Pairwise.nil, rfl, Or.inl rfl⟩

theorem ttInv_add (t : TwoThreeTree) (v : KV) (h : ttInv t) :
    ttInv (TwoThreeTree.Add t v) ∧
    (TwoThreeTree.Add t v).root.vals = listInsert v t.root.vals := by
  obtain ⟨hS, hC, hW⟩ := h
  cases hr : t.root with
  | nil =>
    unfold TwoThreeTree.Add
    rw [hr]
    refine ⟨⟨?_, ?_, Or.inr ⟨0, ?_⟩⟩, ?_⟩
    · simp [newTwoThreeNode_def, twoThreeNode.vals, kvSorted]
    · simp [newTwoThreeNode_def, twoThreeNode.vals]
    · simp [newTwoThreeNode_def, ttWF]
    · simp [newTwoThreeNode_def, twoThreeNode.vals, listInsert]
  | node nt v1 v2 l m r =>
    rw [hr] at hS hC hW
    rcases hW with hWn | ⟨h0, hwf⟩
    · cases hWn
    obtain ⟨ihs, ihns, ihv, ihf⟩ := ttAdd_spec v _ h0 hwf hS
    unfold TwoThreeTree.Add
    rw [hr]
    refine ⟨⟨?_, ?_, ?_⟩, ihv⟩
    · rw [ihv]
      exact kvSorted_listInsert v _ hS
    · rw [ihv, length_listInsert v _ hS]
      cases hp : ((twoThreeNode.node nt v1 v2 l m r).add v).2.1 with
      | true =>
        have hnone := ihf.mp hp
        simp [hp, hnone, hC]
      | false =>
        have hsome : (lookupKey v.key
            (twoThreeNode.node nt v1 v2 l m r).vals).isSome = true := by
          cases hlk : lookupKey v.key (twoThreeNode.node nt v1 v2 l m r).vals with
          | none =>
            have hx := ihf.mpr hlk
            rw [hp] at hx
            simp at hx
          | some w => rfl
        simp [hp, hsome, hC]
    · cases hsp : ((twoThreeNode.node nt v1 v2 l m r).add v).2.2 with
      | true => exact Or.inr ⟨h0 + 1, (ihs hsp).1⟩
      | false => exact Or.inr ⟨h0, ihns hsp⟩

theorem ttInv_remove (t : TwoThreeTree) (v : KV) (h : ttInv t) :
    ttInv (TwoThreeTree.Remove t v) ∧
    (TwoThreeTree.Remove t v).root.vals = listRemove v t.root.vals := by
  obtain ⟨hS, hC, hW⟩ := h
  cases hr : t.root with
  | nil =>
    unfold TwoThreeTree.Remove
    rw [hr]
    refine ⟨⟨hS, hC, hW⟩, ?_⟩
    rw [hr]
    simp [twoThreeNode.vals, listRemove]
  | node nt v1 v2 l m r =>
    rw [hr] at hS hC hW
    rcases hW with hWn | ⟨h0, hwf⟩
    · cases hWn
    obtain ⟨hu, hv, hf⟩ := ttRemove_spec v _ h0 hwf hS
    unfold TwoThreeTree.Remove
    rw [hr]
    dsimp only []
    have hcount : (if ((twoThreeNode.node nt v1 v2 l m r).remove v).2 = true
        then t.count - 1 else t.count)
        = ((listRemove v (twoThreeNode.node nt v1 v2 l m r).vals).length : Int) := by
      rw [length_listRemove v _ hS]
      cases hp : ((twoThreeNode.node nt v1 v2 l m r).remove v).2 with
      | true =>
        have hsome := hf.mp hp
        obtain ⟨w, hw⟩ := Option.isSome_iff_exists.mp hsome
        have hmem : w ∈ (twoThreeNode.node nt v1 v2 l m r).vals :=
          (lookupKey_key _ _ _ hw).1
        have hlen : 1 ≤ (twoThreeNode.node nt v1 v2 l m r).vals.length :=
          List.length_pos.mpr (by rintro hcon; rw [hcon] at hmem; cases hmem)
        simp [hsome, hC]
        omega
      | false =>
        have hns : (lookupKey v.key
            (twoThreeNode.node nt v1 v2 l m r).vals).isSome = false := by
          cases hv2 : (lookupKey v.key (twoThreeNode.node nt v1 v2 l m r).vals).isSome with
          | false => rfl
          | true =>
            have hx := hf.mpr hv2
            rw [hp] at hx
            simp at hx
        simp [hns, hC]
    by_cases ht : (((twoThreeNode.node nt v1 v2 l m r).remove v).1.typeOf == 1) = true
    · rw [if_pos ht]
      obtain ⟨a, b, pl, pm, pr, hp1⟩ :=
        typeOf_eq_one _ (by simpa using ht)
      rcases Bool.or_eq_true _ _ |>.mp hu with hwp | hup
      · rcases ttWF_typeOf _ _ hwp with h2 | h2 <;>
          · rw [hp1] at h2
            simp [twoThreeNode.typeOf] at h2
      · have hup2 := Bool.and_eq_true _ _ |>.mp hup
        rw [hp1] at hup2
        have hvv : uvals ((twoThreeNode.node nt v1 v2 l m r).remove v).1 = pl.vals := by
          rw [hp1, uvals_one]
        cases h0 with
        | zero =>
          have hx := hup2.2
          simp [leftC_node, rightC_node] at hx
          obtain ⟨hxl, hxr⟩ := hx
          have hemp : listRemove v (twoThreeNode.node nt v1 v2 l m r).vals = [] := by
            rw [← hv, hvv, hxl, vals_nil]
          refine ⟨⟨?_, ?_, Or.inl ?_⟩, ?_⟩
          · rw [hp1, leftC_node, hxl, vals_nil]
            exact List.Pairwise.nil
          · rw [hp1, leftC_node, hxl, vals_nil, hcount, hemp]
          · rw [hp1, leftC_node]
            exact hxl
          · rw [hp1, leftC_node, hxl, vals_nil, hemp]
        | succ h1 =>
          have hx := hup2.2
          simp [leftC_node] at hx
          refine ⟨⟨?_, ?_, Or.inr ⟨h1, ?_⟩⟩, ?_⟩
          · rw [hp1, leftC_node, ← hvv, hv]
            exact kvSorted_listRemove v _ hS
          · rw [hp1, leftC_node, ← hvv, hv, ← hcount]
          · rw [hp1, leftC_node]
            exact hx
          · rw [hp1, leftC_node, ← hvv, hv]
    · rw [if_neg ht]
      rcases Bool.or_eq_true _ _ |>.mp hu with hwp | hup
      · have hvv : uvals ((twoThreeNode.node nt v1 v2 l m r).remove v).1
            = ((twoThreeNode.node nt v1 v2 l m r).remove v).1.vals :=
          uvals_of_wf _ _ hwp
        refine ⟨⟨?_, ?_, Or.inr ⟨h0, hwp⟩⟩, ?_⟩
        · rw [← hvv, hv]
          exact kvSorted_listRemove v _ hS
        · rw [← hvv, hv, ← hcount]
        · rw [← hvv, hv]
      · have hup2 := Bool.and_eq_true _ _ |>.mp hup
        exact absurd hup2.1 ht

theorem ttInv_clear (t : TwoThreeTree) : ttInv (TwoThreeTree.Clear t) :=
  ttInv_empty

theorem ttStep_inv (t : TwoThreeTree) (op : TreeOp) (h : ttInv t) :
    ttInv (ttStep t op) := by
  cases op with
  | add v => exact (ttInv_add t v h).1
  | rem v => exact (ttInv_remove t v h).1
  | clear => exact ttInv_clear t

theorem foldl_ttStep_inv (ops : List TreeOp) (t : TwoThreeTree) (h : ttInv t) :
    ttInv (ops.foldl ttStep t) := by
  induction ops generalizing t with
  | nil => exact h
  | cons op ops ih => exact ih _ (ttStep_inv t op h)

theorem runTT_inv (ops : List TreeOp) : ttInv (runTT ops) :=
  foldl_ttStep_inv ops TwoThreeTree.empty ttInv_empty

/-! ## Shape corollaries of 2-3 well-formedness -/

theorem leafDepths_node_ne (nt : Nat) (v1 v2 : Option KV) (l m r : twoThreeNode)
    (d : Nat) (hne : l ≠ .nil) :
    leafDepths (.node nt v1 v2 l m r) d =
      leafDepths l (d + 1) ++ leafDepths m (d + 1) ++
        (if nt == 3 then leafDepths r (d + 1) else []) := by
  cases l with
  | nil => exact absurd rfl hne
  | node a b c d2 e f => rfl

/-- Every leaf of a well-formed 2-3 subtree of height `h` sits at depth
exactly `d + h` below a start depth `d`. -/
theorem ttWF_leafDepths (t : twoThreeNode) :
    ∀ h d x, ttWF t h = true → x ∈ leafDepths t d → x = d + h := by
  induction t with
  | nil =>
    intro h d x hwf
    exact absurd rfl (ttWF_ne_nil _ _ hwf)
  | node nt v1 v2 l m r ihl ihm ihr =>
    intro h d x hwf hx
    cases h with
    | zero =>
      obtain ⟨hln, _, _, _⟩ := (ttWF_zero_iff nt v1 v2 l m r).mp hwf
      subst hln
      simp [leafDepths] at hx
      omega
    | succ h0 =>
      obtain ⟨_, hwl, hwm, hk⟩ := ttWF_succ_parts nt v1 v2 l m r h0 hwf
      rw [leafDepths_node_ne nt v1 v2 l m r d (ttWF_ne_nil l h0 hwl)] at hx
      rcases List.mem_append.mp hx with hx1 | hx2
      · rcases List.mem_append.mp hx1 with hxl | hxm
        · have := ihl h0 (d + 1) x hwl hxl
          omega
        · have := ihm h0 (d + 1) x hwm hxm
          omega
      · rcases hk with h2n | ⟨h3n, _, hwr⟩
        · rw [h2n] at hx2
          simp at hx2
        · rw [h3n] at hx2
          simp only [beq_self_eq_true, if_true] at hx2
          have := ihr h0 (d + 1) x hwr hx2
          omega

theorem nodesWellFormed_node_ne (nt : Nat) (v1 v2 : Option KV) (l m r : twoThreeNode)
    (hne : l ≠ .nil) :
    nodesWellFormed (.node nt v1 v2 l m r) =
      (((nt == 2 && !(m == twoThreeNode.nil)) ||
          (nt == 3 && !(m == twoThreeNode.nil) && !(r == twoThreeNode.nil))) &&
        nodesWellFormed l && nodesWellFormed m &&
        (if nt == 3 then nodesWellFormed r else true)) := by
  cases l with
  | nil => exact absurd rfl hne
  | node a b c d2 e f => rfl

/-- Every node of a well-formed 2-3 subtree is a 2-node or a 3-node with its
kind's children present. -/
theorem ttWF_nodesWellFormed (t : twoThreeNode) :
    ∀ h, ttWF t h = true → nodesWellFormed t = true := by
  induction t with
  | nil =>
    intro h hwf
    exact absurd rfl (ttWF_ne_nil _ _ hwf)
  | node nt v1 v2 l m r ihl ihm ihr =>
    intro h hwf
    cases h with
    | zero =>
      obtain ⟨hln, _, _, hk⟩ := (ttWF_zero_iff nt v1 v2 l m r).mp hwf
      subst hln
      rcases hk with ⟨h2n, _⟩ | ⟨h3n, _, _⟩
      · subst h2n
        rfl
      · subst h3n
        rfl
    | succ h0 =>
      obtain ⟨_, hwl, hwm, hk⟩ := ttWF_succ_parts nt v1 v2 l m r h0 hwf
      rw [nodesWellFormed_node_ne nt v1 v2 l m r (ttWF_ne_nil l h0 hwl)]
      have hmne : (m == twoThreeNode.nil) = false := by
        have hx := ttWF_ne_nil m h0 hwm
        simp [hx]
      rcases hk with h2n | ⟨h3n, _, hwr⟩
      · subst h2n
        simp [hmne, ihl h0 hwl, ihm h0 hwm]
      · subst h3n
        have hrne : (r == twoThreeNode.nil) = false := by
          have hx := ttWF_ne_nil r h0 hwr
          simp [hx]
        simp [hmne, hrne, ihl h0 hwl, ihm h0 hwm, ihr h0 hwr]

/-! ## The visitor sequence of a well-formed 2-3 tree -/

theorem seqInorder_node_ne (nt : Nat) (v1 v2 : Option KV) (l m r : twoThreeNode)
    (hne : l ≠ .nil) :
    (twoThreeNode.node nt v1 v2 l m r).seqInorder =
      l.seqInorder ++ v1 ::
        (m.seqInorder ++ (if nt == 3 then v2 :: r.seqInorder else [])) := by
  cases l with
  | nil => exact absurd rfl hne
  | node a b c d2 e f => rfl

theorem seqInorder_node_nil (nt : Nat) (v1 v2 : Option KV) (m r : twoThreeNode) :
    (twoThreeNode.node nt v1 v2 .nil m r).seqInorder =
      v1 :: (if nt == 3 then [v2] else []) := rfl

/-- On a well-formed subtree the visitor sequence is exactly the stored
values, each wrapped in `some`: the visitor is never handed a nil payload. -/
theorem seqInorder_eq_vals (t : twoThreeNode) :
    ∀ h, ttWF t h = true → t.seqInorder = t.vals.map some := by
  induction t with
  | nil =>
    intro h hwf
    exact absurd rfl (ttWF_ne_nil _ _ hwf)
  | node nt v1 v2 l m r ihl ihm ihr =>
    intro h hwf
    cases h with
    | zero =>
      obtain ⟨hln, hmn, hrn, hk⟩ := (ttWF_zero_iff nt v1 v2 l m r).mp hwf
      subst hln hmn hrn
      rcases hk with ⟨h2n, hv1⟩ | ⟨h3n, hv1, hv2⟩
      · subst h2n
        obtain ⟨w1, hw1⟩ := Option.isSome_iff_exists.mp hv1
        rw [seqInorder_node_nil, vals_node_nil, hw1]
        simp
      · subst h3n
        obtain ⟨w1, hw1⟩ := Option.isSome_iff_exists.mp hv1
        obtain ⟨w2, hw2⟩ := Option.isSome_iff_exists.mp hv2
        rw [seqInorder_node_nil, vals_node_nil, hw1, hw2]
        simp
    | succ h0 =>
      obtain ⟨hv1, hwl, hwm, hk⟩ := ttWF_succ_parts nt v1 v2 l m r h0 hwf
      obtain ⟨w1, hw1⟩ := Option.isSome_iff_exists.mp hv1
      have hlne := ttWF_ne_nil l h0 hwl
      rw [seqInorder_node_ne nt v1 v2 l m r hlne, vals_node_ne nt v1 v2 l m r hlne,
        ihl h0 hwl, ihm h0 hwm, hw1]
      rcases hk with h2n | ⟨h3n, hv2s, hwr⟩
      · subst h2n
        simp
      · subst h3n
        obtain ⟨w2, hw2⟩ := Option.isSome_iff_exists.mp hv2s
        rw [ihr h0 hwr, hw2]
        simp

/-! Branch equations of `twoThreeNode.get`. -/

theorem get_nil_lt (v : KV) (nt : Nat) (v1 v2 : Option KV) (m r : twoThreeNode)
    (h1 : lessO v v1 = true) :
    (twoThreeNode.node nt v1 v2 .nil m r).get v = none := by
  rw [twoThreeNode.get.eq_def]
  dsimp only []
  rw [if_pos h1]

theorem get_int_lt (v : KV) (nt : Nat) (v1 v2 : Option KV) (lnt : Nat)
    (lv1 lv2 : Option KV) (ll lm lr m r : twoThreeNode) (h1 : lessO v v1 = true) :
    (twoThreeNode.node nt v1 v2 (.node lnt lv1 lv2 ll lm lr) m r).get v
      = (twoThreeNode.node lnt lv1 lv2 ll lm lr).get v := by
  rw [twoThreeNode.get.eq_def]
  dsimp only []
  rw [if_pos h1]

theorem get_eq1 (v : KV) (nt : Nat) (v1 v2 : Option KV) (l m r : twoThreeNode)
    (h1 : ¬ lessO v v1 = true) (h2 : equalO v v1 = true) :
    (twoThreeNode.node nt v1 v2 l m r).get v = v1 := by
  rw [twoThreeNode.get.eq_def]
  dsimp only []
  rw [if_neg h1, if_pos h2]

theorem get_nil_mid (v : KV) (nt : Nat) (v1 v2 : Option KV) (m r : twoThreeNode)
    (h1 : ¬ lessO v v1 = true) (h2 : ¬ equalO v v1 = true)
    (h3 : (nt == 2 || lessO v v2) = true) :
    (twoThreeNode.node nt v1 v2 .nil m r).get v = none := by
  rw [twoThreeNode.get.eq_def]
  dsimp only []
  rw [if_neg h1, if_neg h2, if_pos h3]

theorem get_int_mid (v : KV) (nt : Nat) (v1 v2 : Option KV) (lnt : Nat)
    (lv1 lv2 : Option KV) (ll lm lr m r : twoThreeNode)
    (h1 : ¬ lessO v v1 = true) (h2 : ¬ equalO v v1 = true)
    (h3 : (nt == 2 || lessO v v2) = true) :
    (twoThreeNode.node nt v1 v2 (.node lnt lv1 lv2 ll lm lr) m r).get v
      = m.get v := by
  rw [twoThreeNode.get.eq_def]
  dsimp only []
  rw [if_neg h1, if_neg h2, if_pos h3]

theorem get_eq2 (v : KV) (nt : Nat) (v1 v2 : Option KV) (l m r : twoThreeNode)
    (h1 : ¬ lessO v v1 = true) (h2 : ¬ equalO v v1 = true)
    (h3 : ¬ (nt == 2 || lessO v v2) = true) (h4 : equalO v v2 = true) :
    (twoThreeNode.node nt v1 v2 l m r).get v = v2 := by
  rw [twoThreeNode.get.eq_def]
  dsimp only []
  rw [if_neg h1, if_neg h2, if_neg h3, if_pos h4]

theorem get_nil_gt (v : KV) (nt : Nat) (v1 v2 : Option KV) (m r : twoThreeNode)
    (h1 : ¬ lessO v v1 = true) (h2 : ¬ equalO v v1 = true)
    (h3 : ¬ (nt == 2 || lessO v v2) = true) (h4 : ¬ equalO v v2 = true) :
    (twoThreeNode.node nt v1 v2 .nil m r).get v = none := by
  rw [twoThreeNode.get.eq_def]
  dsimp only []
  rw [if_neg h1, if_neg h2, if_neg h3, if_neg h4]

theorem get_int_gt (v : KV) (nt : Nat) (v1 v2 : Option KV) (lnt : Nat)
    (lv1 lv2 : Option KV) (ll lm lr m r : twoThreeNode)
    (h1 : ¬ lessO v v1 = true) (h2 : ¬ equalO v v1 = true)
    (h3 : ¬ (nt == 2 || lessO v v2) = true) (h4 : ¬ equalO v v2 = true) :
    (twoThreeNode.node nt v1 v2 (.node lnt lv1 lv2 ll lm lr) m r).get v
      = r.get v := by
  rw [twoThreeNode.get.eq_def]
  dsimp only []
  rw [if_neg h1, if_neg h2, if_neg h3, if_neg h4]

/-- `twoThreeNode.get` on a well-formed subtree with sorted values looks up
the key. -/
theorem ttGet_spec (v : KV) (t : twoThreeNode) :
    ∀ h : Nat, ttWF t h = true → kvSorted t.vals →
    t.get v = lookupKey v.key t.vals := by
  induction t using twoThreeNode.get.induct v with
  | case1 =>
    intro h hwf _
    exact absurd rfl (ttWF_ne_nil _ _ hwf)
  | case2 nt v1 v2 m r h1 =>
    intro h hwf hsort
    cases h with
    | succ h0 =>
      have hx := (ttWF_succ_parts nt v1 v2 .nil m r h0 hwf).2.1
      simp [ttWF] at hx
    | zero =>
      obtain ⟨_, hmn, hrn, hk⟩ := (ttWF_zero_iff nt v1 v2 .nil m r).mp hwf
      subst hmn hrn
      rw [get_nil_lt v nt v1 v2 .nil .nil h1]
      rcases hk with ⟨h2n, hv1⟩ | ⟨h3n, hv1, hv2⟩
      · subst h2n
        obtain ⟨w1, hw1⟩ := Option.isSome_iff_exists.mp hv1
        have hlt1 : v.key < w1.key := (lessO_iff v w1).mp (hw1 ▸ h1)
        rw [vals_node_nil, hw1]
        simp [lookupKey, Nat.ne_of_lt hlt1]
      · subst h3n
        obtain ⟨w1, hw1⟩ := Option.isSome_iff_exists.mp hv1
        obtain ⟨w2, hw2⟩ := Option.isSome_iff_exists.mp hv2
        have hlt1 : v.key < w1.key := (lessO_iff v w1).mp (hw1 ▸ h1)
        rw [vals_node_nil, hw1, hw2] at hsort ⊢
        simp [kvSorted] at hsort
        simp [lookupKey, Nat.ne_of_lt hlt1, Nat.ne_of_lt (Nat.lt_trans hlt1 hsort)]
  | case3 nt v1 v2 m r h1 lnt lv1 lv2 ll lm lr ih =>
    intro h hwf hsort
    cases h with
    | zero =>
      obtain ⟨hln, _, _, _⟩ := (ttWF_zero_iff nt v1 v2 _ m r).mp hwf
      exact absurd hln (by simp)
    | succ h0 =>
      obtain ⟨hv1, hwl, hwm, hk⟩ := ttWF_succ_parts nt v1 v2 _ m r h0 hwf
      obtain ⟨w1, hw1⟩ := Option.isSome_iff_exists.mp hv1
      have hlt1 : v.key < w1.key := (lessO_iff v w1).mp (hw1 ▸ h1)
      rw [get_int_lt v nt v1 v2 lnt lv1 lv2 ll lm lr m r h1]
      rcases hk with h2n | ⟨h3n, hv2s, hwr⟩
      · subst h2n
        have hvt : (twoThreeNode.node 2 v1 v2 (.node lnt lv1 lv2 ll lm lr) m r).vals
            = (twoThreeNode.node lnt lv1 lv2 ll lm lr).vals ++ w1 :: m.vals := by
          rw [vals_intern2, hw1]; simp
        rw [hvt] at hsort ⊢
        obtain ⟨hsl, hsm, hAx, hxB, hAB⟩ := (kvSorted_append_iff _ _ _).mp hsort
        rw [lookupKey_append_lt v.key w1 _ _
          (fun b hb => Nat.lt_trans hlt1 (hxB b hb)) hlt1]
        exact ih h0 hwl hsl
      · subst h3n
        obtain ⟨w2, hw2⟩ := Option.isSome_iff_exists.mp hv2s
        have hvt : (twoThreeNode.node 3 v1 v2 (.node lnt lv1 lv2 ll lm lr) m r).vals
            = (twoThreeNode.node lnt lv1 lv2 ll lm lr).vals
              ++ w1 :: (m.vals ++ w2 :: r.vals) := by
          rw [vals_intern2, hw1, hw2]; simp [List.append_assoc]
        rw [hvt] at hsort ⊢
        obtain ⟨hsl, hsB, hAx, hxB, hAB⟩ := (kvSorted_append_iff _ _ _).mp hsort
        rw [lookupKey_append_lt v.key w1 _ _
          (fun b hb => Nat.lt_trans hlt1 (hxB b hb)) hlt1]
        exact ih h0 hwl hsl
  | case4 nt v1 v2 l m r h1 h2 =>
    intro h hwf hsort
    rw [get_eq1 v nt v1 v2 l m r h1 h2]
    cases h with
    | zero =>
      obtain ⟨hln, hmn, hrn, hk⟩ := (ttWF_zero_iff nt v1 v2 l m r).mp hwf
      subst hln hmn hrn
      rcases hk with ⟨h2n, hv1⟩ | ⟨h3n, hv1, hv2⟩
      · subst h2n
        obtain ⟨w1, hw1⟩ := Option.isSome_iff_exists.mp hv1
        have hkey : v.key = w1.key := (equalO_iff v w1).mp (hw1 ▸ h2)
        rw [vals_node_nil, hw1]
        simp [lookupKey, hkey]
      · subst h3n
        obtain ⟨w1, hw1⟩ := Option.isSome_iff_exists.mp hv1
        obtain ⟨w2, hw2⟩ := Option.isSome_iff_exists.mp hv2
        have hkey : v.key = w1.key := (equalO_iff v w1).mp (hw1 ▸ h2)
        rw [vals_node_nil, hw1, hw2]
        simp [lookupKey, hkey]
    | succ h0 =>
      obtain ⟨hv1, hwl, hwm, hk⟩ := ttWF_succ_parts nt v1 v2 l m r h0 hwf
      obtain ⟨w1, hw1⟩ := Option.isSome_iff_exists.mp hv1
      have hkey : v.key = w1.key := (equalO_iff v w1).mp (hw1 ▸ h2)
      have hlne := ttWF_ne_nil l h0 hwl
      rcases hk with h2n | ⟨h3n, hv2s, hwr⟩
      · subst h2n
        have hvt : (twoThreeNode.node 2 v1 v2 l m r).vals
            = l.vals ++ w1 :: m.vals := by
          rw [vals_intern hlne, hw1]; simp
        rw [hvt] at hsort ⊢
        obtain ⟨hsl, hsm, hAx, hxB, hAB⟩ := (kvSorted_append_iff _ _ _).mp hsort
        rw [lookupKey_append_eq v.key w1 _ _
          (fun a ha => by have h5 := hAx a ha; omega) hkey, hw1]
      · subst h3n
        obtain ⟨w2, hw2⟩ := Option.isSome_iff_exists.mp hv2s
        have hvt : (twoThreeNode.node 3 v1 v2 l m r).vals
            = l.vals ++ w1 :: (m.vals ++ w2 :: r.vals) := by
          rw [vals_intern hlne, hw1, hw2]; simp [List.append_assoc]
        rw [hvt] at hsort ⊢
        obtain ⟨hsl, hsB, hAx, hxB, hAB⟩ := (kvSorted_append_iff _ _ _).mp hsort
        rw [lookupKey_append_eq v.key w1 _ _
          (fun a ha => by have h5 := hAx a ha; omega) hkey, hw1]
  | case5 nt v1 v2 m r h1 h2 h3 =>
    intro h hwf hsort
    cases h with
    | succ h0 =>
      have hx := (ttWF_succ_parts nt v1 v2 .nil m r h0 hwf).2.1
      simp [ttWF] at hx
    | zero =>
      obtain ⟨_, hmn, hrn, hk⟩ := (ttWF_zero_iff nt v1 v2 .nil m r).mp hwf
      subst hmn hrn
      rw [get_nil_mid v nt v1 v2 .nil .nil h1 h2 h3]
      rcases hk with ⟨h2n, hv1⟩ | ⟨h3n, hv1, hv2⟩
      · subst h2n
        obtain ⟨w1, hw1⟩ := Option.isSome_iff_exists.mp hv1
        have hne : ¬ v.key = w1.key := by
          have := hw1 ▸ h2; simpa [equalO_iff] using this
        rw [vals_node_nil, hw1]
        simp [lookupKey, hne]
      · subst h3n
        obtain ⟨w1, hw1⟩ := Option.isSome_iff_exists.mp hv1
        obtain ⟨w2, hw2⟩ := Option.isSome_iff_exists.mp hv2
        have hne : ¬ v.key = w1.key := by
          have := hw1 ▸ h2; simpa [equalO_iff] using this
        have hlt2 : v.key < w2.key := by
          rw [hw2] at h3
          simpa [lessO_iff] using h3
        rw [vals_node_nil, hw1, hw2]
        simp [lookupKey, hne, Nat.ne_of_lt hlt2]
  | case6 nt v1 v2 m r h1 h2 h3 lnt lv1 lv2 ll lm lr ih =>
    intro h hwf hsort
    cases h with
    | zero =>
      obtain ⟨hln, _, _, _⟩ := (ttWF_zero_iff nt v1 v2 _ m r).mp hwf
      exact absurd hln (by simp)
    | succ h0 =>
      obtain ⟨hv1, hwl, hwm, hk⟩ := ttWF_succ_parts nt v1 v2 _ m r h0 hwf
      obtain ⟨w1, hw1⟩ := Option.isSome_iff_exists.mp hv1
      have hnlt : ¬ v.key < w1.key := by
        have := hw1 ▸ h1; simpa [lessO_iff] using this
      have hne : ¬ v.key = w1.key := by
        have := hw1 ▸ h2; simpa [equalO_iff] using this
      have hgt1 : w1.key < v.key := by omega
      rw [get_int_mid v nt v1 v2 lnt lv1 lv2 ll lm lr m r h1 h2 h3]
      rcases hk with h2n | ⟨h3n, hv2s, hwr⟩
      · subst h2n
        have hvt : (twoThreeNode.node 2 v1 v2 (.node lnt lv1 lv2 ll lm lr) m r).vals
            = (twoThreeNode.node lnt lv1 lv2 ll lm lr).vals ++ w1 :: m.vals := by
          rw [vals_intern2, hw1]; simp
        rw [hvt] at hsort ⊢
        obtain ⟨hsl, hsm, hAx, hxB, hAB⟩ := (kvSorted_append_iff _ _ _).mp hsort
        rw [lookupKey_append_gt v.key w1 _ _
          (fun a ha => by have h5 := hAx a ha; omega) hgt1]
        exact ih h0 hwm hsm
      · subst h3n
        obtain ⟨w2, hw2⟩ := Option.isSome_iff_exists.mp hv2s
        have hlt2 : v.key < w2.key := by
          rw [hw2] at h3
          simpa [lessO_iff] using h3
        have hvt : (twoThreeNode.node 3 v1 v2 (.node lnt lv1 lv2 ll lm lr) m r).vals
            = (twoThreeNode.node lnt lv1 lv2 ll lm lr).vals
              ++ w1 :: (m.vals ++ w2 :: r.vals) := by
          rw [vals_intern2, hw1, hw2]; simp [List.append_assoc]
        rw [hvt] at hsort ⊢
        obtain ⟨hsl, hsB, hAx, hxB, hAB⟩ := (kvSorted_append_iff _ _ _).mp hsort
        obtain ⟨hsm, hsr, hmx2, hx2r, hmr⟩ := (kvSorted_append_iff _ _ _).mp hsB
        rw [lookupKey_append_gt v.key w1 _ _
          (fun a ha => by have h5 := hAx a ha; omega) hgt1,
          lookupKey_append_lt v.key w2 _ _
          (fun b hb => Nat.lt_trans hlt2 (hx2r b hb)) hlt2]
        exact ih h0 hwm hsm
  | case7 nt v1 v2 l m r h1 h2 h3 h4 =>
    intro h hwf hsort
    rw [get_eq2 v nt v1 v2 l m r h1 h2 h3 h4]
    simp only [Bool.or_eq_true, beq_iff_eq, not_or] at h3
    cases h with
    | zero =>
      obtain ⟨hln, hmn, hrn, hk⟩ := (ttWF_zero_iff nt v1 v2 l m r).mp hwf
      subst hln hmn hrn
      rcases hk with ⟨h2n, hv1⟩ | ⟨h3n, hv1, hv2⟩
      · exact absurd h2n h3.1
      subst h3n
      obtain ⟨w1, hw1⟩ := Option.isSome_iff_exists.mp hv1
      obtain ⟨w2, hw2⟩ := Option.isSome_iff_exists.mp hv2
      have hne : ¬ v.key = w1.key := by
        have := hw1 ▸ h2; simpa [equalO_iff] using this
      have hkey2 : v.key = w2.key := (equalO_iff v w2).mp (hw2 ▸ h4)
      rw [vals_node_nil, hw1, hw2] at hsort ⊢
      simp [kvSorted] at hsort
      simp [lookupKey, hne, hkey2, Nat.ne_of_gt hsort]
    | succ h0 =>
      obtain ⟨hv1, hwl, hwm, hk⟩ := ttWF_succ_parts nt v1 v2 l m r h0 hwf
      obtain ⟨w1, hw1⟩ := Option.isSome_iff_exists.mp hv1
      have hnlt : ¬ v.key < w1.key := by
        have := hw1 ▸ h1; simpa [lessO_iff] using this
      have hne : ¬ v.key = w1.key := by
        have := hw1 ▸ h2; simpa [equalO_iff] using this
      have hgt1 : w1.key < v.key := by omega
      have hlne := ttWF_ne_nil l h0 hwl
      rcases hk with h2n | ⟨h3n, hv2s, hwr⟩
      · exact absurd h2n h3.1
      subst h3n
      obtain ⟨w2, hw2⟩ := Option.isSome_iff_exists.mp hv2s
      have hkey2 : v.key = w2.key := (equalO_iff v w2).mp (hw2 ▸ h4)
      have hvt : (twoThreeNode.node 3 v1 v2 l m r).vals
          = l.vals ++ w1 :: (m.vals ++ w2 :: r.vals) := by
        rw [vals_intern hlne, hw1, hw2]; simp [List.append_assoc]
      rw [hvt] at hsort ⊢
      obtain ⟨hsl, hsB, hAx, hxB, hAB⟩ := (kvSorted_append_iff _ _ _).mp hsort
      obtain ⟨hsm, hsr, hmx2, hx2r, hmr⟩ := (kvSorted_append_iff _ _ _).mp hsB
      rw [lookupKey_append_gt v.key w1 _ _
        (fun a ha => by have h5 := hAx a ha; omega) hgt1,
        lookupKey_append_eq v.key w2 _ _
        (fun a ha => by have h5 := hmx2 a ha; omega) hkey2, hw2]
  | case8 nt v1 v2 m r h1 h2 h3 h4 =>
    intro h hwf hsort
    cases h with
    | succ h0 =>
      have hx := (ttWF_succ_parts nt v1 v2 .nil m r h0 hwf).2.1
      simp [ttWF] at hx
    | zero =>
      obtain ⟨_, hmn, hrn, hk⟩ := (ttWF_zero_iff nt v1 v2 .nil m r).mp hwf
      subst hmn hrn
      rw [get_nil_gt v nt v1 v2 .nil .nil h1 h2 h3 h4]
      simp only [Bool.or_eq_true, beq_iff_eq, not_or] at h3
      rcases hk with ⟨h2n, hv1⟩ | ⟨h3n, hv1, hv2⟩
      · exact absurd h2n h3.1
      subst h3n
      obtain ⟨w1, hw1⟩ := Option.isSome_iff_exists.mp hv1
      obtain ⟨w2, hw2⟩ := Option.isSome_iff_exists.mp hv2
      have hne : ¬ v.key = w1.key := by
        have := hw1 ▸ h2; simpa [equalO_iff] using this
      have hne2 : ¬ v.key = w2.key := by
        have := hw2 ▸ h4; simpa [equalO_iff] using this
      rw [vals_node_nil, hw1, hw2]
      simp [lookupKey, hne, hne2]
  | case9 nt v1 v2 m r h1 h2 h3 h4 lnt lv1 lv2 ll lm lr ih =>
    intro h hwf hsort
    cases h with
    | zero =>
      obtain ⟨hln, _, _, _⟩ := (ttWF_zero_iff nt v1 v2 _ m r).mp hwf
      exact absurd hln (by simp)
    | succ h0 =>
      obtain ⟨hv1, hwl, hwm, hk⟩ := ttWF_succ_parts nt v1 v2 _ m r h0 hwf
      obtain ⟨w1, hw1⟩ := Option.isSome_iff_exists.mp hv1
      have hnlt : ¬ v.key < w1.key := by
        have := hw1 ▸ h1; simpa [lessO_iff] using this
      have hne : ¬ v.key = w1.key := by
        have := hw1 ▸ h2; simpa [equalO_iff] using this
      have hgt1 : w1.key < v.key := by omega
      rw [get_int_gt v nt v1 v2 lnt lv1 lv2 ll lm lr m r h1 h2 h3 h4]
      simp only [Bool.or_eq_true, beq_iff_eq, not_or] at h3
      rcases hk with h2n | ⟨h3n, hv2s, hwr⟩
      · exact absurd h2n h3.1
      subst h3n
      obtain ⟨w2, hw2⟩ := Option.isSome_iff_exists.mp hv2s
      have hnlt2 : ¬ v.key < w2.key := by
        have := h3.2
        rw [hw2] at this
        simpa [lessO_iff] using this
      have hne2 : ¬ v.key = w2.key := by
        have := hw2 ▸ h4; simpa [equalO_iff] using this
      have hgt2 : w2.key < v.key := by omega
      have hvt : (twoThreeNode.node 3 v1 v2 (.node lnt lv1 lv2 ll lm lr) m r).vals
          = (twoThreeNode.node lnt lv1 lv2 ll lm lr).vals
            ++ w1 :: (m.vals ++ w2 :: r.vals) := by
        rw [vals_intern2, hw1, hw2]; simp [List.append_assoc]
      rw [hvt] at hsort ⊢
      obtain ⟨hsl, hsB, hAx, hxB, hAB⟩ := (kvSorted_append_iff _ _ _).mp hsort
      obtain ⟨hsm, hsr, hmx2, hx2r, hmr⟩ := (kvSorted_append_iff _ _ _).mp hsB
      rw [lookupKey_append_gt v.key w1 _ _
        (fun a ha => by have h5 := hAx a ha; omega) hgt1,
        lookupKey_append_gt v.key w2 _ _
        (fun a ha => by have h5 := hmx2 a ha; omega) hgt2]
      exact ih h0 hwr hsr

/-! ## External iterator refinement: binary trees

`remB s` is the sequence the iterator still has to yield from stack `s`:
for each stacked node, its value followed by its right subtree's inorder
traversal.  The iterator never pushes nil nodes. -/

/-- Values still pending on an inorder-iterator stack. -/
def remB : List btNode → List KV
  | [] => []
  | .nil :: _ => []
  | .node v _ r _ :: rest => (v :: r.inorder) ++ remB rest

/-- No nil entry on the stack (every reachable iterator stack satisfies it). -/
def noNilB (s : List btNode) : Prop := ∀ x ∈ s, x ≠ btNode.nil

theorem remB_pushLeftSpine (t : btNode) :
    ∀ s, remB (pushLeftSpine s t) = t.inorder ++ remB s := by
  induction t with
  | nil => intro s; simp [pushLeftSpine, btNode.inorder]
  | node v l r h ihl ihr =>
    intro s
    simp only [pushLeftSpine, ihl, remB, btNode.inorder, List.cons_append,
      List.append_assoc]

theorem noNilB_pushLeftSpine (t : btNode) :
    ∀ s, noNilB s → noNilB (pushLeftSpine s t) := by
  induction t with
  | nil => intro s hs; exact hs
  | node v l r h ihl ihr =>
    intro s hs
    simp only [pushLeftSpine]
    apply ihl
    intro x hx
    rcases List.mem_cons.mp hx with h1 | h1
    · subst h1; exact fun hc => btNode.noConfusion hc
    · exact hs x h1

theorem drainInorder_spec : ∀ fuel s, noNilB s → (remB s).length ≤ fuel →
    drainInorder fuel s = remB s := by
  intro fuel
  induction fuel with
  | zero =>
    intro s _ hlen
    have h0 : remB s = [] := List.length_eq_zero.mp (Nat.le_zero.mp hlen)
    rw [h0]; rfl
  | succ fuel ih =>
    intro s hs hlen
    cases s with
    | nil => rfl
    | cons t rest =>
      cases t with
      | nil => exact absurd rfl (hs _ (List.mem_cons_self _ _))
      | node v l r hh =>
        have hrest : noNilB rest := fun x hx => hs x (List.mem_cons_of_mem _ hx)
        have hs2 : noNilB (pushLeftSpine rest r) := noNilB_pushLeftSpine r rest hrest
        have hrem : remB (btNode.node v l r hh :: rest)
            = v :: remB (pushLeftSpine rest r) := by
          simp [remB, remB_pushLeftSpine]
        rw [hrem] at hlen ⊢
        simp only [drainInorder, inorderNext]
        rw [ih (pushLeftSpine rest r) hs2 (Nat.le_of_succ_le_succ
          (by simpa using hlen))]

/-! ## External iterator refinement: 2-3 trees

`pendT e` is what a stacked entry still contributes once popped: its
`value1`, then (per the `Next` code) the mid child's traversal and, for a
3-node, the right portion re-stacked as a synthesized 2-node. -/

/-- Pending contribution of one stacked 2-3 entry. -/
def pendT : twoThreeNode → List (Option KV)
  | .nil => []
  | .node nt v1 v2 l m r =>
    v1 :: (match l with
      | .nil => if nt == 3 then [v2] else []
      | .node .. => m.seqInorder ++ (if nt == 3 then v2 :: r.seqInorder else []))

/-- Values still pending on a 2-3 iterator stack. -/
def remT : List twoThreeNode → List (Option KV)
  | [] => []
  | t :: rest => pendT t ++ remT rest

/-- The shape facts the iterator relies on: a node whose left child is absent
and which is a 3-node has no mid child either, and an internal 3-node has a
mid child; hereditary over the children the iterator can reach. -/
def ttOK : twoThreeNode → Bool
  | .nil => true
  | .node nt _ _ l m r =>
    (match l with
     | .nil => !(nt == 3) || m == twoThreeNode.nil
     | .node .. => !(nt == 3) || !(m == twoThreeNode.nil))
    && ttOK l && ttOK m && (!(nt == 3) || ttOK r)

/-- Every stack entry is a non-nil, `ttOK` node. -/
def stackOKT (s : List twoThreeNode) : Prop :=
  ∀ e ∈ s, e ≠ twoThreeNode.nil ∧ ttOK e = true

theorem pendT_leaf (nt : Nat) (v1 v2 : Option KV) (m r : twoThreeNode) :
    pendT (.node nt v1 v2 .nil m r) = v1 :: (if nt == 3 then [v2] else []) := rfl

theorem pendT_int (nt : Nat) (v1 v2 : Option KV) (lnt : Nat) (lv1 lv2 : Option KV)
    (ll lm lr m r : twoThreeNode) :
    pendT (.node nt v1 v2 (.node lnt lv1 lv2 ll lm lr) m r) =
      v1 :: (m.seqInorder ++ (if nt == 3 then v2 :: r.seqInorder else [])) := rfl

theorem remT_nil : remT [] = [] := rfl

theorem remT_cons (t : twoThreeNode) (s : List twoThreeNode) :
    remT (t :: s) = pendT t ++ remT s := rfl

theorem ttOK_nil : ttOK .nil = true := rfl

theorem ttOK_leaf (nt : Nat) (v1 v2 : Option KV) (m r : twoThreeNode) :
    ttOK (.node nt v1 v2 .nil m r)
      = ((!(nt == 3) || m == twoThreeNode.nil) && true && ttOK m &&
          (!(nt == 3) || ttOK r)) := rfl

theorem ttOK_int (nt : Nat) (v1 v2 : Option KV) (lnt : Nat) (lv1 lv2 : Option KV)
    (ll lm lr m r : twoThreeNode) :
    ttOK (.node nt v1 v2 (.node lnt lv1 lv2 ll lm lr) m r)
      = ((!(nt == 3) || !(m == twoThreeNode.nil)) &&
          ttOK (.node lnt lv1 lv2 ll lm lr) && ttOK m && (!(nt == 3) || ttOK r)) := rfl

theorem ttWF_ttOK (t : twoThreeNode) : ∀ h, ttWF t h = true → ttOK t = true := by
  induction t with
  | nil => intro h hw; exact absurd rfl (ttWF_ne_nil _ _ hw)
  | node nt v1 v2 l m r ihl ihm ihr =>
    intro h hw
    cases h with
    | zero =>
      obtain ⟨hln, hmn, hrn, _⟩ := (ttWF_zero_iff nt v1 v2 l m r).mp hw
      subst hln hmn hrn
      rw [ttOK_leaf]
      simp [ttOK_nil]
    | succ h0 =>
      obtain ⟨hv1, hwl, hwm, hk⟩ := ttWF_succ_parts nt v1 v2 l m r h0 hw
      have hlo := ihl h0 hwl
      have hmo := ihm h0 hwm
      have hlne := ttWF_ne_nil l h0 hwl
      have hmne := ttWF_ne_nil m h0 hwm
      cases l with
      | nil => exact absurd rfl hlne
      | node lnt lv1 lv2 ll lm lr =>
        rw [ttOK_int]
        have hm1 : (m == twoThreeNode.nil) = false := by
          simpa using hmne
        rcases hk with h2 | ⟨h3, _, hwr⟩
        · subst h2; simp [hlo, hmo, hm1]
        · subst h3; simp [hlo, hmo, hm1, ihr h0 hwr]

theorem remT_pushLeftSpineT (t : twoThreeNode) :
    ∀ s, remT (pushLeftSpineT s t) = t.seqInorder ++ remT s := by
  induction t with
  | nil => intro s; rfl
  | node nt v1 v2 l m r ihl ihm ihr =>
    intro s
    cases l with
    | nil =>
      simp only [pushLeftSpineT, remT_cons, pendT_leaf, seqInorder_node_nil,
        List.cons_append]
    | node lnt lv1 lv2 ll lm lr =>
      have hstep : pushLeftSpineT s
            (twoThreeNode.node nt v1 v2 (.node lnt lv1 lv2 ll lm lr) m r)
          = pushLeftSpineT
              (twoThreeNode.node nt v1 v2 (.node lnt lv1 lv2 ll lm lr) m r :: s)
              (.node lnt lv1 lv2 ll lm lr) := rfl
      rw [hstep, ihl, remT_cons, pendT_int,
        seqInorder_node_ne nt v1 v2 (.node lnt lv1 lv2 ll lm lr) m r
          (fun hc => twoThreeNode.noConfusion hc)]
      simp [List.append_assoc]

theorem stackOKT_pushLeftSpineT (t : twoThreeNode) :
    ∀ s, ttOK t = true → stackOKT s → stackOKT (pushLeftSpineT s t) := by
  induction t with
  | nil => intro s _ hs; exact hs
  | node nt v1 v2 l m r ihl ihm ihr =>
    intro s hok hs
    have hstack : stackOKT (twoThreeNode.node nt v1 v2 l m r :: s) := by
      intro e he
      rcases List.mem_cons.mp he with h1 | h1
      · subst h1; exact ⟨fun hc => twoThreeNode.noConfusion hc, hok⟩
      · exact hs e h1
    cases l with
    | nil =>
      simp only [pushLeftSpineT]
      exact hstack
    | node lnt lv1 lv2 ll lm lr =>
      have hlok : ttOK (twoThreeNode.node lnt lv1 lv2 ll lm lr) = true := by
        rw [ttOK_int, Bool.and_eq_true, Bool.and_eq_true, Bool.and_eq_true] at hok
        exact hok.1.1.2
      have hstep : pushLeftSpineT s
            (twoThreeNode.node nt v1 v2 (.node lnt lv1 lv2 ll lm lr) m r)
          = pushLeftSpineT
              (twoThreeNode.node nt v1 v2 (.node lnt lv1 lv2 ll lm lr) m r :: s)
              (.node lnt lv1 lv2 ll lm lr) := rfl
      rw [hstep]
      exact ihl _ hlok hstack

theorem drainTT_succ (fuel : Nat) (s s2 : List twoThreeNode) (v : Option KV)
    (h : ttNext s = (some v, s2)) :
    drainTT (fuel + 1) s = v :: drainTT fuel s2 := by
  simp only [drainTT, h]

theorem ttNext_leaf2 (nt : Nat) (v1 v2 : Option KV) (m r : twoThreeNode)
    (rest : List twoThreeNode) (hnt : (nt == 3) = false) :
    ttNext (.node nt v1 v2 .nil m r :: rest) = (some v1, rest) := by
  simp [ttNext, hnt]

theorem ttNext_leaf3 (nt : Nat) (v1 v2 : Option KV) (m r : twoThreeNode)
    (rest : List twoThreeNode) (hnt : (nt == 3) = true) :
    ttNext (.node nt v1 v2 .nil m r :: rest)
      = (some v1, newTwoThreeNode v2 m r :: rest) := by
  simp [ttNext, hnt]

theorem ttNext_int2 (nt : Nat) (v1 v2 : Option KV) (lnt : Nat) (lv1 lv2 : Option KV)
    (ll lm lr m r : twoThreeNode) (rest : List twoThreeNode)
    (hnt : (nt == 3) = false) :
    ttNext (.node nt v1 v2 (.node lnt lv1 lv2 ll lm lr) m r :: rest)
      = (some v1, pushLeftSpineT rest m) := by
  simp [ttNext, hnt]

theorem ttNext_int3 (nt : Nat) (v1 v2 : Option KV) (lnt : Nat) (lv1 lv2 : Option KV)
    (ll lm lr m r : twoThreeNode) (rest : List twoThreeNode)
    (hnt : (nt == 3) = true) :
    ttNext (.node nt v1 v2 (.node lnt lv1 lv2 ll lm lr) m r :: rest)
      = (some v1, pushLeftSpineT (newTwoThreeNode v2 m r :: rest) m) := by
  simp [ttNext, hnt]

theorem drainTT_spec : ∀ fuel s, stackOKT s → (remT s).length ≤ fuel →
    drainTT fuel s = remT s := by
  intro fuel
  induction fuel with
  | zero =>
    intro s _ hlen
    have h0 : remT s = [] := List.length_eq_zero.mp (Nat.le_zero.mp hlen)
    rw [h0]; rfl
  | succ fuel ih =>
    intro s hs hlen
    cases s with
    | nil => rfl
    | cons t rest =>
      obtain ⟨htne, htok⟩ := hs t (List.mem_cons_self t rest)
      have hrest : stackOKT rest := fun e he => hs e (List.mem_cons_of_mem _ he)
      cases t with
      | nil => exact absurd rfl htne
      | node nt v1 v2 l m r =>
        cases hnt3 : (nt == 3) with
        | false =>
          cases l with
          | nil =>
            have hrem : remT (twoThreeNode.node nt v1 v2 .nil m r :: rest)
                = v1 :: remT rest := by
              simp [remT_cons, pendT_leaf, hnt3]
            rw [drainTT_succ fuel _ rest v1 (ttNext_leaf2 nt v1 v2 m r rest hnt3),
              hrem, ih rest hrest (by rw [hrem] at hlen; exact
                Nat.le_of_succ_le_succ (by simpa using hlen))]
          | node lnt lv1 lv2 ll lm lr =>
            rw [ttOK_int, hnt3] at htok
            simp only [Bool.not_false, Bool.true_or, Bool.true_and,
              Bool.or_true, Bool.and_true, Bool.and_eq_true] at htok
            obtain ⟨hlok, hmok⟩ := htok
            have hokS : stackOKT (pushLeftSpineT rest m) :=
              stackOKT_pushLeftSpineT m rest hmok hrest
            have hrem : remT (twoThreeNode.node nt v1 v2
                  (.node lnt lv1 lv2 ll lm lr) m r :: rest)
                = v1 :: remT (pushLeftSpineT rest m) := by
              simp [remT_cons, pendT_int, hnt3, remT_pushLeftSpineT]
            rw [drainTT_succ fuel _ _ v1
                (ttNext_int2 nt v1 v2 lnt lv1 lv2 ll lm lr m r rest hnt3),
              hrem, ih _ hokS (by rw [hrem] at hlen; exact
                Nat.le_of_succ_le_succ (by simpa using hlen))]
        | true =>
          cases l with
          | nil =>
            rw [ttOK_leaf, hnt3] at htok
            simp only [Bool.not_true, Bool.false_or, Bool.and_true,
              Bool.true_and, Bool.and_eq_true, beq_iff_eq] at htok
            obtain ⟨⟨hmn, hmok⟩, hrok⟩ := htok
            subst hmn
            have hsok : ttOK (newTwoThreeNode v2 .nil r) = true := by
              simp [newTwoThreeNode, ttOK_leaf, ttOK_nil, hrok]
            have hokS : stackOKT (newTwoThreeNode v2 .nil r :: rest) := by
              intro e he
              rcases List.mem_cons.mp he with h1 | h1
              · subst h1
                exact ⟨fun hc => twoThreeNode.noConfusion hc, hsok⟩
              · exact hrest e h1
            have hrem : remT (twoThreeNode.node nt v1 v2 .nil .nil r :: rest)
                = v1 :: remT (newTwoThreeNode v2 .nil r :: rest) := by
              simp [remT_cons, pendT_leaf, hnt3, newTwoThreeNode]
            rw [drainTT_succ fuel _ _ v1 (ttNext_leaf3 nt v1 v2 .nil r rest hnt3),
              hrem, ih _ hokS (by rw [hrem] at hlen; exact
                Nat.le_of_succ_le_succ (by simpa using hlen))]
          | node lnt lv1 lv2 ll lm lr =>
            rw [ttOK_int, hnt3] at htok
            simp only [Bool.not_true, Bool.false_or, Bool.and_true,
              Bool.true_and, Bool.and_eq_true, Bool.not_eq_true',
              beq_eq_false_iff_ne, ne_eq] at htok
            obtain ⟨⟨⟨hmne, hlok⟩, hmok⟩, hrok⟩ := htok
            have hsok : ttOK (newTwoThreeNode v2 m r) = true := by
              cases m with
              | nil => exact absurd rfl hmne
              | node mnt mv1 mv2 mll mlm mlr =>
                simp [newTwoThreeNode, ttOK_int, ttOK_nil, hmok, hrok]
            have hstack : stackOKT (newTwoThreeNode v2 m r :: rest) := by
              intro e he
              rcases List.mem_cons.mp he with h1 | h1
              · subst h1
                exact ⟨fun hc => twoThreeNode.noConfusion hc, hsok⟩
              · exact hrest e h1
            have hokS : stackOKT (pushLeftSpineT (newTwoThreeNode v2 m r :: rest) m) :=
              stackOKT_pushLeftSpineT m _ hmok hstack
            have hpend : pendT (newTwoThreeNode v2 m r) = v2 :: (r.seqInorder ++ []) := by
              cases m with
              | nil => exact absurd rfl hmne
              | node mnt mv1 mv2 mll mlm mlr =>
                simp [newTwoThreeNode, pendT_int]
            have hrem : remT (twoThreeNode.node nt v1 v2
                  (.node lnt lv1 lv2 ll lm lr) m r :: rest)
                = v1 :: remT (pushLeftSpineT (newTwoThreeNode v2 m r :: rest) m) := by
              rw [remT_cons, pendT_int, hnt3, remT_pushLeftSpineT, remT_cons, hpend]
              simp
            rw [drainTT_succ fuel _ _ v1
                (ttNext_int3 nt v1 v2 lnt lv1 lv2 ll lm lr m r rest hnt3),
              hrem, ih _ hokS (by rw [hrem] at hlen; exact
                Nat.le_of_succ_le_succ (by simpa using hlen))]

/-! ## The common list model of all three trees -/

/-- Effect of one public mutation on the sorted-list model. -/
def listStep (L : List KV) : TreeOp → List KV
  | .add v => listInsert v L
  | .rem v => listRemove v L
  | .clear => []

/-- The sorted-list model after a sequence of public mutations from empty. -/
def listModel (ops : List TreeOp) : List KV := ops.foldl listStep []

theorem foldl_bst_model (ops : List TreeOp) (t : BinaryTree) (h : bstInv t) :
    (ops.foldl bstStep t).root.inorder = ops.foldl listStep t.root.inorder := by
  induction ops generalizing t with
  | nil => rfl
  | cons op ops ih =>
    have hstep : bstInv (bstStep t op) ∧
        (bstStep t op).root.inorder = listStep t.root.inorder op := by
      cases op with
      | add v => exact ⟨(bstInv_add t v h).1, (bstInv_add t v h).2⟩
      | rem v => exact ⟨(bstInv_remove t v h).1, (bstInv_remove t v h).2⟩
      | clear => exact ⟨bstInv_clear t, by simp [bstStep, BinaryTree.Clear,
          btNode.inorder, listStep]⟩
    rw [List.foldl_cons, List.foldl_cons, ih (bstStep t op) hstep.1, hstep.2]

theorem runBST_model (ops : List TreeOp) :
    (runBST ops).root.inorder = listModel ops :=
  foldl_bst_model ops BinaryTree.empty bstInv_empty

theorem foldl_avl_model (ops : List TreeOp) (t : BinaryTree) (h : avlInv t) :
    (ops.foldl avlStep t).root.inorder = ops.foldl listStep t.root.inorder := by
  induction ops generalizing t with
  | nil => rfl
  | cons op ops ih =>
    have hstep : avlInv (avlStep t op) ∧
        (avlStep t op).root.inorder = listStep t.root.inorder op := by
      cases op with
      | add v => exact ⟨(avlInv_add t v h).1, (avlInv_add t v h).2⟩
      | rem v => exact ⟨(avlInv_remove t v h).1, (avlInv_remove t v h).2⟩
      | clear => exact ⟨avlInv_clear t, by simp [avlStep, BinaryTree.Clear,
          btNode.inorder, listStep]⟩
    rw [List.foldl_cons, List.foldl_cons, ih (avlStep t op) hstep.1, hstep.2]

theorem runAVL_model (ops : List TreeOp) :
    (runAVL ops).root.inorder = listModel ops :=
  foldl_avl_model ops BinaryTree.empty avlInv_empty

theorem foldl_tt_model (ops : List TreeOp) (t : TwoThreeTree) (h : ttInv t) :
    (ops.foldl ttStep t).root.vals = ops.foldl listStep t.root.vals := by
  induction ops generalizing t with
  | nil => rfl
  | cons op ops ih =>
    have hstep : ttInv (ttStep t op) ∧
        (ttStep t op).root.vals = listStep t.root.vals op := by
      cases op with
      | add v => exact ⟨(ttInv_add t v h).1, (ttInv_add t v h).2⟩
      | rem v => exact ⟨(ttInv_remove t v h).1, (ttInv_remove t v h).2⟩
      | clear => exact ⟨ttInv_clear t, by simp [ttStep, TwoThreeTree.Clear,
          TwoThreeTree.empty, twoThreeNode.vals, listStep]⟩
    rw [List.foldl_cons, List.foldl_cons, ih (ttStep t op) hstep.1, hstep.2]

theorem runTT_model (ops : List TreeOp) :
    (runTT ops).root.vals = listModel ops :=
  foldl_tt_model ops TwoThreeTree.empty ttInv_empty

/-! ## Lookup facts about a fold of inserts -/

theorem lookup_foldl_insert_preserved (vs : List KV) :
    ∀ L : List KV, ∀ k : Nat, (∀ w ∈ vs, w.key ≠ k) →
    lookupKey k (vs.foldl (fun acc w => listInsert w acc) L) = lookupKey k L := by
  induction vs with
  | nil => intro L k _; rfl
  | cons w rest ih =>
    intro L k h
    rw [List.foldl_cons, ih _ k (fun x hx => h x (List.mem_cons_of_mem _ hx)),
      lookup_listInsert_other w k L (Ne.symm (h w (List.mem_cons_self _ _)))]

theorem kvSorted_foldl_insert (vs : List KV) :
    ∀ L : List KV, kvSorted L →
    kvSorted (vs.foldl (fun acc w => listInsert w acc) L) := by
  induction vs with
  | nil => intro L h; exact h
  | cons w rest ih =>
    intro L h
    rw [List.foldl_cons]
    exact ih _ (kvSorted_listInsert w L h)

theorem lookup_foldl_insert_mem (vs : List KV)
    (hd : List.Pairwise (fun a b => a.key ≠ b.key) vs) :
    ∀ L : List KV, kvSorted L → ∀ v ∈ vs,
    lookupKey v.key (vs.foldl (fun acc w => listInsert w acc) L) = some v := by
  induction vs with
  | nil => intro L _ v hv; cases hv
  | cons w rest ih =>
    obtain ⟨hw, hrest⟩ := List.pairwise_cons.mp hd
    intro L hL v hv
    rw [List.foldl_cons]
    rcases List.mem_cons.mp hv with rfl | hv2
    · rw [lookup_foldl_insert_preserved rest _ v.key
          (fun x hx => Ne.symm (hw x hx)),
        lookup_listInsert_self v L hL]
    · exact ih hrest _ (kvSorted_listInsert w L hL) v hv2

/-! ## Wrapper lemmas for the public read operations -/

theorem BSTGet_eq_lookup (t : BinaryTree) (v : KV) (h : kvSorted t.root.inorder) :
    BinarySearchTree.Get t v = lookupKey v.key t.root.inorder :=
  bsNodeGet_eq_lookup v t.root h

theorem BSTContains_eq_get (t : BinaryTree) (v : KV) :
    BinarySearchTree.Contains t v = (BinarySearchTree.Get t v).isSome :=
  bsNodeContains_eq_get v t.root

theorem TTGet_eq_lookup (t : TwoThreeTree) (v : KV)
    (hw : t.root = .nil ∨ ∃ h, ttWF t.root h = true)
    (hs : kvSorted t.root.vals) :
    TwoThreeTree.Get t v = lookupKey v.key t.root.vals := by
  cases hr : t.root with
  | nil => simp [TwoThreeTree.Get, hr, twoThreeNode.vals, lookupKey]
  | node nt v1 v2 l m r =>
    rcases hw with hnil | ⟨h, hwf⟩
    · rw [hr] at hnil; cases hnil
    · rw [hr] at hwf hs
      have := ttGet_spec v (.node nt v1 v2 l m r) h hwf hs
      simpa [TwoThreeTree.Get, hr] using this

theorem TTContains_eq_get (t : TwoThreeTree) (v : KV) :
    TwoThreeTree.Contains t v = (TwoThreeTree.Get t v).isSome := by
  cases hr : t.root with
  | nil => simp [TwoThreeTree.Contains, TwoThreeTree.Get, hr]
  | node nt v1 v2 l m r => simp [TwoThreeTree.Contains, TwoThreeTree.Get, hr]

theorem btNode_contains_iff_mem (t : btNode) (e : KV) :
    t.contains e = true ↔ e ∈ t.inorder := by
  induction t with
  | nil => simp [btNode.contains, btNode.inorder]
  | node v l r h ihl ihr =>
    simp only [btNode.contains, btNode.inorder, Bool.or_eq_true, beq_iff_eq,
      List.mem_append, List.mem_cons, ihl, ihr]
    constructor
    · rintro ((rfl | h1) | h1)
      · exact Or.inr (Or.inl rfl)
      · exact Or.inl h1
      · exact Or.inr (Or.inr h1)
    · rintro (h1 | rfl | h1)
      · exact Or.inl (Or.inr h1)
      · exact Or.inl (Or.inl rfl)
      · exact Or.inr h1

theorem btNode_inorder_eq_nil_iff (t : btNode) : t.inorder = [] ↔ t = .nil := by
  cases t with
  | nil => simp [btNode.inorder]
  | node v l r h => simp [btNode.inorder]

/-! ## Per-variant facts about `Remove` and overwriting `Add` -/

theorem bst_remove_facts (t : BinaryTree) (v : KV) (h : bstInv t) :
    BinarySearchTree.Get (BinarySearchTree.Remove t v) v = none ∧
    BinaryTree.Size (BinarySearchTree.Remove t v)
      = (if BinarySearchTree.Contains t v then BinaryTree.Size t - 1
         else BinaryTree.Size t) := by
  obtain ⟨hs, hc⟩ := h
  obtain ⟨hinv2, hin2⟩ := bstInv_remove t v ⟨hs, hc⟩
  constructor
  · rw [BSTGet_eq_lookup _ v hinv2.1, hin2, lookup_listRemove_self v _ hs]
  · rw [BSTContains_eq_get, BSTGet_eq_lookup t v hs]
    show (BinarySearchTree.Remove t v).count
      = if (lookupKey v.key t.root.inorder).isSome = true then t.count - 1
        else t.count
    rw [hinv2.2, hin2, length_listRemove v _ hs, hc]
    by_cases hk : (lookupKey v.key t.root.inorder).isSome = true
    · obtain ⟨w, hw⟩ := Option.isSome_iff_exists.mp hk
      have hmem := (lookupKey_key _ _ _ hw).1
      have hpos : 0 < t.root.inorder.length := List.length_pos.mpr (by
        rintro hnil
        rw [hnil] at hmem
        cases hmem)
      simp only [hk, if_true]
      omega
    · simp [hk]

theorem avl_remove_facts (t : BinaryTree) (v : KV) (h : avlInv t) :
    BinarySearchTree.Get (AVLTree.Remove t v) v = none ∧
    BinaryTree.Size (AVLTree.Remove t v)
      = (if BinarySearchTree.Contains t v then BinaryTree.Size t - 1
         else BinaryTree.Size t) := by
  obtain ⟨hinv2, hin2⟩ := avlInv_remove t v h
  constructor
  · rw [BSTGet_eq_lookup _ v hinv2.2.2, hin2, lookup_listRemove_self v _ h.2.2]
  · by_cases hcv : BinarySearchTree.Contains t v = true
    · simp [AVLTree.Remove, BinaryTree.Size, hcv]
    · simp [AVLTree.Remove, BinaryTree.Size, hcv]

theorem tt_remove_facts (t : TwoThreeTree) (v : KV) (h : ttInv t) :
    TwoThreeTree.Get (TwoThreeTree.Remove t v) v = none ∧
    TwoThreeTree.Size (TwoThreeTree.Remove t v)
      = (if TwoThreeTree.Contains t v then TwoThreeTree.Size t - 1
         else TwoThreeTree.Size t) := by
  obtain ⟨hinv2, hvals2⟩ := ttInv_remove t v h
  obtain ⟨hs, hc, hw⟩ := h
  constructor
  · rw [TTGet_eq_lookup _ v hinv2.2.2 hinv2.1, hvals2, lookup_listRemove_self v _ hs]
  · rw [TTContains_eq_get, TTGet_eq_lookup t v hw hs]
    show (TwoThreeTree.Remove t v).count
      = if (lookupKey v.key t.root.vals).isSome = true then t.count - 1
        else t.count
    rw [hinv2.2.1, hvals2, length_listRemove v _ hs, hc]
    by_cases hk : (lookupKey v.key t.root.vals).isSome = true
    · obtain ⟨w, hw2⟩ := Option.isSome_iff_exists.mp hk
      have hmem := (lookupKey_key _ _ _ hw2).1
      have hpos : 0 < t.root.vals.length := List.length_pos.mpr (by
        rintro hnil
        rw [hnil] at hmem
        cases hmem)
      simp only [hk, if_true]
      omega
    · simp [hk]

theorem bst_add_overwrite (t : BinaryTree) (v2 : KV) (h : bstInv t)
    (hsome : (lookupKey v2.key t.root.inorder).isSome = true) :
    (BinarySearchTree.Add t v2).count = t.count ∧
    BinarySearchTree.Get (BinarySearchTree.Add t v2) v2 = some v2 := by
  obtain ⟨hs, hc⟩ := h
  obtain ⟨hinv2, hin2⟩ := bstInv_add t v2 ⟨hs, hc⟩
  constructor
  · cases hr : t.root with
    | nil =>
      rw [hr] at hsome
      simp [btNode.inorder, lookupKey] at hsome
    | node nv l r hh =>
      have hspec := bsNodeAdd_spec v2 t.root hs
      have hflag : (bsNodeAdd v2 t.root).2 = false := by
        cases hfv : (bsNodeAdd v2 t.root).2
        · rfl
        · rw [hspec.2.mp hfv] at hsome
          simp at hsome
      rw [hr] at hflag
      unfold BinarySearchTree.Add
      rw [hr]
      simp [hflag]
  · rw [BSTGet_eq_lookup _ v2 hinv2.1, hin2, lookup_listInsert_self v2 _ hs]

theorem avl_add_overwrite (t : BinaryTree) (v2 : KV) (h : avlInv t) :
    BinarySearchTree.Get (AVLTree.Add t v2) v2 = some v2 ∧
    (∀ nv l r hh, t.root = .node nv l r hh →
      (AVLTree.Add t v2).count
        = if t.root.contains v2 then t.count else t.count + 1) := by
  obtain ⟨hinv2, hin2⟩ := avlInv_add t v2 h
  constructor
  · rw [BSTGet_eq_lookup _ v2 hinv2.2.2, hin2, lookup_listInsert_self v2 _ h.2.2]
  · intro nv l r hh hr
    unfold AVLTree.Add
    rw [hr]

theorem tt_add_overwrite (t : TwoThreeTree) (v2 : KV) (h : ttInv t)
    (hsome : (lookupKey v2.key t.root.vals).isSome = true) :
    (TwoThreeTree.Add t v2).count = t.count ∧
    TwoThreeTree.Get (TwoThreeTree.Add t v2) v2 = some v2 := by
  obtain ⟨hinv2, hvals2⟩ := ttInv_add t v2 h
  obtain ⟨hs, hc, hw⟩ := h
  constructor
  · cases hr : t.root with
    | nil =>
      rw [hr] at hsome
      simp [twoThreeNode.vals, lookupKey] at hsome
    | node nt v1 va l m r =>
      rcases hw with hnil | ⟨hh2, hwf⟩
      · rw [hr] at hnil; cases hnil
      · rw [hr] at hwf hs hsome
        have hspec := ttAdd_spec v2 (.node nt v1 va l m r) hh2 hwf hs
        have hflag : ((twoThreeNode.node nt v1 va l m r).add v2).2.1 = false := by
          cases hfv : ((twoThreeNode.node nt v1 va l m r).add v2).2.1
          · rfl
          · rw [hspec.2.2.2.mp hfv] at hsome
            simp at hsome
        unfold TwoThreeTree.Add
        rw [hr]
        simp [hflag]
  · rw [TTGet_eq_lookup _ v2 hinv2.2.2 hinv2.1, hvals2, lookup_listInsert_self v2 _ hs]

/-! ## The claims -/

theorem listModel_adds (vs : List KV) :
    listModel (vs.map TreeOp.add) = vs.foldl (fun acc w => listInsert w acc) [] := by
  unfold listModel
  rw [List.foldl_map]
  rfl

/-- Claim C1: after any finite sequence of public operations on an initially
empty `AVLTree`, every node reachable from the root satisfies
`|height(left) - height(right)| <= 1`, where an absent child counts as height
`-1` (`btNode.balanced` over the real heights `btNode.hgt`). -/
theorem C1_avl_balance_invariant (ops : List TreeOp) :
    (runAVL ops).root.balanced = true :=
  (runAVL_inv ops).2.1

/-- Claim C2: after any finite sequence of public operations on an initially
empty `TwoThreeTree`, all reachable leaves sit at one common depth
(`leafDepths`), and every reachable node is a 2-node or 3-node with exactly
its kind's children when internal (`nodesWellFormed`). -/
theorem C2_twothree_shape_invariant (ops : List TreeOp) :
    (∀ x ∈ leafDepths (runTT ops).root 0, ∀ y ∈ leafDepths (runTT ops).root 0,
      x = y) ∧
    nodesWellFormed (runTT ops).root = true := by
  rcases (runTT_inv ops).2.2 with hnil | ⟨h, hwf⟩
  · rw [hnil]
    exact ⟨by simp [leafDepths], rfl⟩
  · constructor
    · intro x hx y hy
      rw [ttWF_leafDepths _ h 0 x hwf hx, ttWF_leafDepths _ h 0 y hwf hy]
    · exact ttWF_nodesWellFormed _ h hwf

/-- Claim C3: after any finite sequence of public operations from empty, the
internal inorder traversal of each of the three trees yields the stored
values in strictly increasing order per the comparator's `Less` (for the 2-3
tree the visitor sequence `seqInorder` is exactly the stored values). -/
theorem C3_inorder_strictly_increasing (ops : List TreeOp) :
    List.Pairwise (fun a b => KV.less a b = true) (runBST ops).root.inorder ∧
    List.Pairwise (fun a b => KV.less a b = true) (runAVL ops).root.inorder ∧
    (runTT ops).root.seqInorder = (runTT ops).root.vals.map some ∧
    List.Pairwise (fun a b => KV.less a b = true) (runTT ops).root.vals := by
  refine ⟨?_, ?_, ?_, ?_⟩
  · exact ((runBST_inv ops).1).imp (fun hab => (KV.less_iff _ _).mpr hab)
  · exact ((runAVL_inv ops).2.2).imp (fun hab => (KV.less_iff _ _).mpr hab)
  · rcases (runTT_inv ops).2.2 with hnil | ⟨h, hwf⟩
    · rw [hnil]; rfl
    · exact seqInorder_eq_vals _ h hwf
  · exact ((runTT_inv ops).1).imp (fun hab => (KV.less_iff _ _).mpr hab)

/-- Claim C4: adding a finite sequence of pairwise-distinct values (no two
`Equal`) to each empty tree makes `Get` of each added value return exactly
that value; and on any of the resulting trees, after `Remove v` the value is
gone (`Get v = none`) and `Size` drops by exactly 1 when `v` was present and
is unchanged when it was absent. -/
theorem C4_distinct_roundtrip (vs : List KV)
    (hd : List.Pairwise (fun a b => KV.equal a b = false) vs) :
    (∀ v ∈ vs,
      BinarySearchTree.Get (runBST (vs.map TreeOp.add)) v = some v ∧
      BinarySearchTree.Get (runAVL (vs.map TreeOp.add)) v = some v ∧
      TwoThreeTree.Get (runTT (vs.map TreeOp.add)) v = some v) ∧
    (∀ v : KV,
      (BinarySearchTree.Get
          (BinarySearchTree.Remove (runBST (vs.map TreeOp.add)) v) v = none ∧
       BinaryTree.Size (BinarySearchTree.Remove (runBST (vs.map TreeOp.add)) v)
         = (if BinarySearchTree.Contains (runBST (vs.map TreeOp.add)) v
            then BinaryTree.Size (runBST (vs.map TreeOp.add)) - 1
            else BinaryTree.Size (runBST (vs.map TreeOp.add)))) ∧
      (BinarySearchTree.Get
          (AVLTree.Remove (runAVL (vs.map TreeOp.add)) v) v = none ∧
       BinaryTree.Size (AVLTree.Remove (runAVL (vs.map TreeOp.add)) v)
         = (if BinarySearchTree.Contains (runAVL (vs.map TreeOp.add)) v
            then BinaryTree.Size (runAVL (vs.map TreeOp.add)) - 1
            else BinaryTree.Size (runAVL (vs.map TreeOp.add)))) ∧
      (TwoThreeTree.Get
          (TwoThreeTree.Remove (runTT (vs.map TreeOp.add)) v) v = none ∧
       TwoThreeTree.Size (TwoThreeTree.Remove (runTT (vs.map TreeOp.add)) v)
         = (if TwoThreeTree.Contains (runTT (vs.map TreeOp.add)) v
            then TwoThreeTree.Size (runTT (vs.map TreeOp.add)) - 1
            else TwoThreeTree.Size (runTT (vs.map TreeOp.add))))) := by
  have hd2 : List.Pairwise (fun a b => a.key ≠ b.key) vs :=
    hd.imp (fun hab => by simpa [KV.equal] using hab)
  have hlook : ∀ v ∈ vs, lookupKey v.key (listModel (vs.map TreeOp.add)) = some v := by
    intro v hv
    rw [listModel_adds]
    exact lookup_foldl_insert_mem vs hd2 [] kvSorted_nil v hv
  constructor
  · intro v hv
    refine ⟨?_, ?_, ?_⟩
    · rw [BSTGet_eq_lookup _ v (runBST_inv _).1, runBST_model]
      exact hlook v hv
    · rw [BSTGet_eq_lookup _ v (runAVL_inv _).2.2, runAVL_model]
      exact hlook v hv
    · rw [TTGet_eq_lookup _ v (runTT_inv _).2.2 (runTT_inv _).1, runTT_model]
      exact hlook v hv
  · intro v
    exact ⟨bst_remove_facts _ v (runBST_inv _),
      avl_remove_facts _ v (runAVL_inv _),
      tt_remove_facts _ v (runTT_inv _)⟩

theorem C4_distinct_roundtrip_witness :
    BinarySearchTree.Get (runBST ([⟨1, 10⟩, ⟨2, 20⟩].map TreeOp.add)) ⟨1, 10⟩
      = some ⟨1, 10⟩ ∧
    TwoThreeTree.Get
      (TwoThreeTree.Remove (runTT ([⟨1, 10⟩, ⟨2, 20⟩].map TreeOp.add)) ⟨1, 10⟩)
      ⟨1, 10⟩ = none :=
  ⟨((C4_distinct_roundtrip [⟨1, 10⟩, ⟨2, 20⟩] (by decide)).1 ⟨1, 10⟩ (by decide)).1,
   ((C4_distinct_roundtrip [⟨1, 10⟩, ⟨2, 20⟩] (by decide)).2 ⟨1, 10⟩).2.2.1⟩

/-- Claim C5 (amended): overwriting a stored `Equal` value `v1` with `v2`
leaves `Size` unchanged on the `BinarySearchTree` and the `TwoThreeTree`, and
`Get` afterwards returns the newest payload `v2` on all three trees; the
`AVLTree` however changes `Size` whenever its `==`-based duplicate test fails,
so its size is NOT unchanged for equal-key, different-payload overwrites. -/
theorem C5_overwrite_behavior (ops : List TreeOp) (v1 v2 : KV)
    (hstored : BinarySearchTree.Get (runBST ops) v2 = some v1) :
    (BinarySearchTree.Add (runBST ops) v2).count = (runBST ops).count ∧
    BinarySearchTree.Get (BinarySearchTree.Add (runBST ops) v2) v2 = some v2 ∧
    (TwoThreeTree.Add (runTT ops) v2).count = (runTT ops).count ∧
    TwoThreeTree.Get (TwoThreeTree.Add (runTT ops) v2) v2 = some v2 ∧
    BinarySearchTree.Get (AVLTree.Add (runAVL ops) v2) v2 = some v2 ∧
    (∀ nv l r hh, (runAVL ops).root = .node nv l r hh →
      (AVLTree.Add (runAVL ops) v2).count
        = if (runAVL ops).root.contains v2 then (runAVL ops).count
          else (runAVL ops).count + 1) := by
  have hmodel : lookupKey v2.key (listModel ops) = some v1 := by
    rw [← runBST_model, ← BSTGet_eq_lookup _ v2 (runBST_inv _).1]
    exact hstored
  have hsomeB : (lookupKey v2.key (runBST ops).root.inorder).isSome = true := by
    rw [runBST_model, hmodel]; rfl
  have hsomeT : (lookupKey v2.key (runTT ops).root.vals).isSome = true := by
    rw [runTT_model, hmodel]; rfl
  obtain ⟨hb1, hb2⟩ := bst_add_overwrite _ v2 (runBST_inv _) hsomeB
  obtain ⟨ht1, ht2⟩ := tt_add_overwrite _ v2 (runTT_inv _) hsomeT
  obtain ⟨ha1, ha2⟩ := avl_add_overwrite _ v2 (runAVL_inv _)
  exact ⟨hb1, hb2, ht1, ht2, ha1, ha2⟩

theorem C5_overwrite_witness :
    (BinarySearchTree.Add (runBST [TreeOp.add ⟨1, 0⟩]) ⟨1, 1⟩).count
      = (runBST [TreeOp.add ⟨1, 0⟩]).count ∧
    BinarySearchTree.Get
      (BinarySearchTree.Add (runBST [TreeOp.add ⟨1, 0⟩]) ⟨1, 1⟩) ⟨1, 1⟩
      = some ⟨1, 1⟩ :=
  ⟨(C5_overwrite_behavior [TreeOp.add ⟨1, 0⟩] ⟨1, 0⟩ ⟨1, 1⟩ (by decide)).1,
   (C5_overwrite_behavior [TreeOp.add ⟨1, 0⟩] ⟨1, 0⟩ ⟨1, 1⟩ (by decide)).2.1⟩

/-- Claim C5 counterexample: `⟨1, 0⟩` and `⟨1, 1⟩` are `Equal` with different
payloads, the AVL tree stores `⟨1, 0⟩`, yet adding `⟨1, 1⟩` changes `Size`. -/
theorem C5_avl_size_counterexample :
    KV.equal ⟨1, 0⟩ ⟨1, 1⟩ = true ∧
    BinarySearchTree.Get (AVLTree.Add BinaryTree.empty ⟨1, 0⟩) ⟨1, 1⟩
      = some ⟨1, 0⟩ ∧
    BinaryTree.Size (AVLTree.Add (AVLTree.Add BinaryTree.empty ⟨1, 0⟩) ⟨1, 1⟩)
      ≠ BinaryTree.Size (AVLTree.Add BinaryTree.empty ⟨1, 0⟩) := by
  decide

/-- Claim C6 (amended): for the `BinarySearchTree` and the `TwoThreeTree`
reached by any finite operation sequence from empty, the root is absent iff
`count = 0` and `count` equals the number of values reachable from the root;
the `AVLTree` violates both parts (see the counterexample). -/
theorem C6_count_invariant_bst_tt (ops : List TreeOp) :
    ((runBST ops).root = btNode.nil ↔ (runBST ops).count = 0) ∧
    (runBST ops).count = ((runBST ops).root.inorder.length : Int) ∧
    ((runTT ops).root = twoThreeNode.nil ↔ (runTT ops).count = 0) ∧
    (runTT ops).count = ((runTT ops).root.vals.length : Int) := by
  obtain ⟨hsB, hcB⟩ := runBST_inv ops
  obtain ⟨hsT, hcT, hwT⟩ := runTT_inv ops
  refine ⟨⟨?_, ?_⟩, hcB, ⟨?_, ?_⟩, hcT⟩
  · intro hnil
    rw [hcB, hnil]
    simp [btNode.inorder]
  · intro h0
    rw [hcB] at h0
    have hlen : (runBST ops).root.inorder.length = 0 := by exact_mod_cast h0
    exact (btNode_inorder_eq_nil_iff _).mp (List.length_eq_zero.mp hlen)
  · intro hnil
    rw [hcT, hnil]
    simp [twoThreeNode.vals]
  · intro h0
    rcases hwT with hnil | ⟨h, hwf⟩
    · exact hnil
    · exfalso
      rw [hcT] at h0
      have hlen : (runTT ops).root.vals.length = 0 := by exact_mod_cast h0
      exact (ttWF_vals_ne_nil _ h hwf) (List.length_eq_zero.mp hlen)

/-- Claim C6 counterexample: on the `AVLTree`, add `⟨1, 0⟩`, add the `Equal`
value `⟨1, 1⟩` (count wrongly incremented to 2), then remove `⟨1, 0⟩`: the
root is absent while `count = 1`, so neither part of the invariant holds. -/
theorem C6_avl_counterexample :
    (AVLTree.Remove (AVLTree.Add (AVLTree.Add BinaryTree.empty ⟨1, 0⟩) ⟨1, 1⟩)
        ⟨1, 0⟩).root = btNode.nil ∧
    (AVLTree.Remove (AVLTree.Add (AVLTree.Add BinaryTree.empty ⟨1, 0⟩) ⟨1, 1⟩)
        ⟨1, 0⟩).count = 1 := by
  decide

/-- Claim C7: for any binary-tree state and any reachable 2-3 tree state,
draining a freshly reset external iterator (calling `Next` until it reports
false; any sufficient fuel) yields exactly the sequence the internal inorder
visitor produces (`btNode.inorder`, resp. `twoThreeNode.seqInorder`). -/
theorem C7_iterator_refines_visitor (bt : BinaryTree) (ops : List TreeOp)
    (fuel1 fuel2 : Nat) (h1 : bt.root.inorder.length ≤ fuel1)
    (h2 : (runTT ops).root.seqInorder.length ≤ fuel2) :
    drainInorder fuel1 (newInorderStack bt) = bt.root.inorder ∧
    drainTT fuel2 (newTTStack (runTT ops)) = (runTT ops).root.seqInorder := by
  constructor
  · have hrem : remB (newInorderStack bt) = bt.root.inorder := by
      rw [newInorderStack, remB_pushLeftSpine]
      simp [remB]
    have hok : noNilB (newInorderStack bt) :=
      noNilB_pushLeftSpine _ _ (fun x hx => absurd hx (List.not_mem_nil x))
    rw [drainInorder_spec fuel1 _ hok (by rw [hrem]; exact h1), hrem]
  · have hrem : remT (newTTStack (runTT ops)) = (runTT ops).root.seqInorder := by
      rw [newTTStack, remT_pushLeftSpineT]
      simp [remT]
    have hokroot : ttOK (runTT ops).root = true := by
      rcases (runTT_inv ops).2.2 with hnil | ⟨h, hwf⟩
      · rw [hnil]; rfl
      · exact ttWF_ttOK _ h hwf
    have hok : stackOKT (newTTStack (runTT ops)) :=
      stackOKT_pushLeftSpineT _ _ hokroot (fun e he => absurd he (List.not_mem_nil e))
    rw [drainTT_spec fuel2 _ hok (by rw [hrem]; exact h2), hrem]

theorem C7_iterator_witness :
    drainInorder 1 (newInorderStack { count := 1, root := .node ⟨1, 0⟩ .nil .nil 0 })
      = ({ count := 1, root := .node ⟨1, 0⟩ .nil .nil 0 } : BinaryTree).root.inorder ∧
    drainTT 1 (newTTStack (runTT [TreeOp.add ⟨2, 0⟩]))
      = (runTT [TreeOp.add ⟨2, 0⟩]).root.seqInorder :=
  C7_iterator_refines_visitor { count := 1, root := .node ⟨1, 0⟩ .nil .nil 0 }
    [TreeOp.add ⟨2, 0⟩] 1 1 (by decide) (by decide)

/-- Claim C8: `LeftSubtree`/`RightSubtree` on an empty tree fail with the
`EmptyTreeError` message and a zero-valued tree; on a non-empty tree they
succeed (nil error) and return a tree whose root is `clone` of the requested
child — a fresh deep copy (`stripHeights`, sharing no node of the source by
construction) with the same values — and whose count is that child's size;
the source tree is read, never written. -/
theorem C8_subtree_extraction (t : BinaryTree) :
    (t.root = btNode.nil →
      BinaryTree.LeftSubtree t
        = ({ count := 0, root := .nil }, some "The empty tree has no left subtree") ∧
      BinaryTree.RightSubtree t
        = ({ count := 0, root := .nil }, some "The empty tree has no right subtree")) ∧
    (∀ v l r hh, t.root = btNode.node v l r hh →
      BinaryTree.LeftSubtree t = ({ count := (l.size : Int), root := l.clone }, none) ∧
      l.clone = l.stripHeights ∧
      (BinaryTree.LeftSubtree t).1.root.inorder = l.inorder ∧
      (BinaryTree.LeftSubtree t).1.count = (l.size : Int) ∧
      BinaryTree.RightSubtree t = ({ count := (r.size : Int), root := r.clone }, none) ∧
      r.clone = r.stripHeights ∧
      (BinaryTree.RightSubtree t).1.root.inorder = r.inorder ∧
      (BinaryTree.RightSubtree t).1.count = (r.size : Int)) := by
  constructor
  · intro hnil
    constructor
    · simp [BinaryTree.LeftSubtree, hnil]
    · simp [BinaryTree.RightSubtree, hnil]
  · intro v l r hh hr
    have hL : BinaryTree.LeftSubtree t
        = ({ count := (l.size : Int), root := l.clone }, none) := by
      simp [BinaryTree.LeftSubtree, hr]
    have hR : BinaryTree.RightSubtree t
        = ({ count := (r.size : Int), root := r.clone }, none) := by
      simp [BinaryTree.RightSubtree, hr]
    refine ⟨hL, btNode.clone_eq_strip l, ?_, ?_, hR, btNode.clone_eq_strip r, ?_, ?_⟩
    · rw [hL]; exact btNode.clone_inorder l
    · rw [hL]
    · rw [hR]; exact btNode.clone_inorder r
    · rw [hR]

/-- Claim C9: `BinaryTree.Contains` (the `==`-based exhaustive search, whose
node-level form also gates `AVLTree.Add`'s count increment) finds a value
exactly when the full struct is stored, whereas `BinarySearchTree.Contains`
uses the comparator's key-only `Equal`; for a query with a stored key but a
different payload the former answers false and the latter true. -/
theorem C9_contains_uses_builtin_equality (t : BinaryTree) (e : KV)
    (hs : kvSorted t.root.inorder) :
    (BinaryTree.Contains t e = true ↔ e ∈ t.root.inorder) ∧
    (BinarySearchTree.Contains t e = true
      ↔ (∃ w ∈ t.root.inorder, w.key = e.key)) ∧
    (∀ v : KV, ∀ nv l r hh, t.root = .node nv l r hh →
      (AVLTree.Add t v).count
        = if t.root.contains v then t.count else t.count + 1) ∧
    ((e ∉ t.root.inorder) → (∃ w ∈ t.root.inorder, w.key = e.key) →
      BinaryTree.Contains t e = false ∧ BinarySearchTree.Contains t e = true) := by
  have h1 : BinaryTree.Contains t e = true ↔ e ∈ t.root.inorder := by
    cases hr : t.root with
    | nil => simp [BinaryTree.Contains, hr, btNode.inorder]
    | node nv l r hh =>
      have hmem := btNode_contains_iff_mem (btNode.node nv l r hh) e
      simp only [BinaryTree.Contains, hr]
      exact hmem
  have h2 : BinarySearchTree.Contains t e = true
      ↔ ∃ w ∈ t.root.inorder, w.key = e.key := by
    rw [BSTContains_eq_get, BSTGet_eq_lookup t e hs]
    exact lookupKey_isSome_iff e.key _
  refine ⟨h1, h2, ?_, ?_⟩
  · intro v nv l r hh hr
    unfold AVLTree.Add
    rw [hr]
  · intro hnmem hex
    refine ⟨?_, h2.mpr hex⟩
    cases hcv : BinaryTree.Contains t e
    · rfl
    · exact absurd (h1.mp hcv) hnmem

theorem C9_contains_witness :
    BinaryTree.Contains { count := 1, root := .node ⟨1, 5⟩ .nil .nil 0 } ⟨1, 7⟩
      = false ∧
    BinarySearchTree.Contains { count := 1, root := .node ⟨1, 5⟩ .nil .nil 0 } ⟨1, 7⟩
      = true :=
  (C9_contains_uses_builtin_equality
      { count := 1, root := .node ⟨1, 5⟩ .nil .nil 0 } ⟨1, 7⟩ (by decide)).2.2.2
    (by decide) ⟨⟨1, 5⟩, by decide, rfl⟩

/-- Claim C10: `LeftSubtree`/`RightSubtree` err exactly on the empty tree; on
a non-empty tree whose root lacks the requested child they still succeed,
returning an empty tree of size 0. -/
theorem C10_subtree_missing_child (t : BinaryTree) :
    ((BinaryTree.LeftSubtree t).2 = none ↔ t.root ≠ btNode.nil) ∧
    ((BinaryTree.RightSubtree t).2 = none ↔ t.root ≠ btNode.nil) ∧
    (∀ v r hh, t.root = btNode.node v btNode.nil r hh →
      (BinaryTree.LeftSubtree t).1 = { count := 0, root := btNode.nil } ∧
      BinaryTree.Size (BinaryTree.LeftSubtree t).1 = 0) ∧
    (∀ v l hh, t.root = btNode.node v l btNode.nil hh →
      (BinaryTree.RightSubtree t).1 = { count := 0, root := btNode.nil } ∧
      BinaryTree.Size (BinaryTree.RightSubtree t).1 = 0) := by
  refine ⟨?_, ?_, ?_, ?_⟩
  · cases hr : t.root with
    | nil => simp [BinaryTree.LeftSubtree, hr]
    | node v l r hh => simp [BinaryTree.LeftSubtree, hr]
  · cases hr : t.root with
    | nil => simp [BinaryTree.RightSubtree, hr]
    | node v l r hh => simp [BinaryTree.RightSubtree, hr]
  · intro v r hh hr
    constructor
    · simp [BinaryTree.LeftSubtree, hr, btNode.clone, btNode.size]
    · simp [BinaryTree.LeftSubtree, hr, btNode.size, BinaryTree.Size]
  · intro v l hh hr
    constructor
    · simp [BinaryTree.RightSubtree, hr, btNode.clone, btNode.size]
    · simp [BinaryTree.RightSubtree, hr, btNode.size, BinaryTree.Size]
